import Mathlib

/-!
# cogpilot-cli: AtomSpace, ECAN attention ledger, cognitive loop, PLN store and CLI

A shallow embedding of the C sources `src/atomspace.c`, `src/ecan.c`, `src/cogkern.c`,
`src/cogloop.c`, `src/pln.c` and of the command dispatch of `src/cli.c`.

* The file-scope globals (`g_atomspace`, `g_ecan`, `g_kernel`, `g_cogloop`, `g_pln`,
  `cli_state`) become explicit state records that every operation takes and returns.
* A fixed-size C array is a total function from slot index to record; the
  element counts (`atom_count`, `edge_count`, `av_count`) are separate fields,
  exactly as in the source, and every write is a point update of one slot.
* `uint64_t`/`size_t` values are `Nat`; the one increment that is not
  protected by a capacity guard (`++next_handle`) is reduced modulo `2^64`.
* C `int` flags are `Int`, tested against `0` the way C does.
* A nullable pointer argument is an `Option`.
* `strdup` is taken to succeed: the stored name is the string passed in.
* A finite `float` is a rational; the one `float` operation of the sources, the product
  `sti *= 0.999f`, is rounded to IEEE 754 binary32, to nearest and ties to even.
-/

namespace CogPilot

/-! ## AtomSpace (`src/atomspace.c`) -/

/-- The constant `MAX_ATOMS` of `atomspace.c`. -/
def MAX_ATOMS : Nat := 1000000

/-- The enumeration `enum atom_type` of `cogkern.h`. -/
inductive atom_type where
  | ATOM_NODE
  | ATOM_LINK
  | ATOM_CONCEPT
  | ATOM_PREDICATE
  | ATOM_EVALUATION
  | ATOM_INHERITANCE
  | ATOM_SIMILARITY
  deriving DecidableEq, Repr

/-- The record `struct atom`; `tensor` is a pointer that the code only ever sets to `NULL`. -/
structure atom where
  handle : Nat
  type : atom_type
  name : Option String
  tensor : Option Nat
  depth : Nat
  active : Int
  deriving DecidableEq, Repr

/-- The record `struct edge` (the fields `from` and `to` are spelled `from_` and `to_`). -/
structure edge where
  from_ : Nat
  to_ : Nat
  type : atom_type
  active : Int
  deriving DecidableEq, Repr

/-- The global `g_atomspace`. -/
structure AtomSpace where
  atoms : Nat → atom
  edges : Nat → edge
  next_handle : Nat
  atom_count : Nat
  edge_count : Nat

/-- The initial value `g_atomspace = {0}`: every byte zero. -/
def g_atomspace : AtomSpace where
  atoms := fun _ => ⟨0, atom_type.ATOM_NODE, none, none, 0, 0⟩
  edges := fun _ => ⟨0, 0, atom_type.ATOM_NODE, 0⟩
  next_handle := 0
  atom_count := 0
  edge_count := 0

/-- The function `hgfs_edge`: new state and returned edge handle (`0` on failure). -/
def hgfs_edge (g : AtomSpace) (from_ to_ : Nat) (edge_type : atom_type) : AtomSpace × Nat :=
  if g.edge_count ≥ MAX_ATOMS then (g, 0)
  else
    let idx := g.edge_count
    ({ g with
        edge_count := idx + 1
        edges := Function.update g.edges idx ⟨from_, to_, edge_type, 1⟩ },
      idx + 1)

/-- The function `cog_atom_alloc`: new state and returned atom handle (`0` on failure).
`name = none` is the `NULL` name. -/
def cog_atom_alloc (g : AtomSpace) (type : atom_type) (name : Option String) :
    AtomSpace × Nat :=
  if g.atom_count ≥ MAX_ATOMS then (g, 0)
  else
    let idx := g.atom_count
    let h := (g.next_handle + 1) % 2 ^ 64
    ({ g with
        atom_count := idx + 1
        next_handle := h
        atoms := Function.update g.atoms idx ⟨h, type, name, none, 0, 1⟩ },
      h)

/-- The edge loop of `cog_link_create`: one `hgfs_edge` call per outgoing member, in array
order, the returned edge handle being discarded. -/
def link_edges (g : AtomSpace) (link : Nat) (type : atom_type) : List Nat → AtomSpace
  | [] => g
  | o :: rest => link_edges (hgfs_edge g link o type).1 link type rest

/-- The function `cog_link_create`; the array `outgoing[0..outgoing_count)` is a list. -/
def cog_link_create (g : AtomSpace) (type : atom_type) (outgoing : List Nat) :
    AtomSpace × Nat :=
  let r := cog_atom_alloc g type none
  if r.2 = 0 then (r.1, 0)
  else (link_edges r.1 r.2 type outgoing, r.2)

/-- One call into the AtomSpace API. -/
inductive Call where
  | atom_alloc (type : atom_type) (name : Option String)
  | link_create (type : atom_type) (outgoing : List Nat)
  | edge (from_ to_ : Nat) (edge_type : atom_type)

/-- Run one call: the new state and, for the two atom-creating calls, the handle returned. -/
def Call.run (g : AtomSpace) : Call → AtomSpace × List Nat
  | Call.atom_alloc t n => ((cog_atom_alloc g t n).1, [(cog_atom_alloc g t n).2])
  | Call.link_create t o => ((cog_link_create g t o).1, [(cog_link_create g t o).2])
  | Call.edge f t ty => ((hgfs_edge g f t ty).1, [])

/-- Run a sequence of calls from a given state, collecting in call order the values
returned by `cog_atom_alloc` and `cog_link_create`. -/
def execFrom : AtomSpace × List Nat → List Call → AtomSpace × List Nat
  | st, [] => st
  | st, c :: cs => execFrom ((c.run st.1).1, st.2 ++ (c.run st.1).2) cs

/-- Run a sequence of calls from the initial AtomSpace. -/
def exec (calls : List Call) : AtomSpace × List Nat :=
  execFrom (g_atomspace, []) calls

/-- A state is reachable when some sequence of API calls produces it from the initial one. -/
def Reachable (g : AtomSpace) : Prop := ∃ calls, (exec calls).1 = g

/-- A handle refers to an existing atom when some occupied slot of the atom table carries
it. -/
def atom_exists (g : AtomSpace) (h : Nat) : Prop :=
  ∃ i, i < g.atom_count ∧ (g.atoms i).handle = h

instance (g : AtomSpace) (h : Nat) : Decidable (atom_exists g h) :=
  inferInstanceAs (Decidable (∃ i, i < g.atom_count ∧ (g.atoms i).handle = h))

/-- The invariant of the AtomSpace: handles and slots advance together, and both tables stay
within their capacity. -/
structure AtomInv (g : AtomSpace) : Prop where
  next_eq : g.next_handle = g.atom_count
  atoms_le : g.atom_count ≤ MAX_ATOMS
  edges_le : g.edge_count ≤ MAX_ATOMS
  slot : ∀ i, i < g.atom_count → (g.atoms i).handle = i + 1

/-- The invariant of a run: the state invariant, together with what the values returned so
far look like: none exceeds `next_handle`, and the non-zero ones are `1, 2, ..., atom_count`
in this order. -/
structure ExecInv (st : AtomSpace × List Nat) : Prop where
  inv : AtomInv st.1
  le_next : ∀ h ∈ st.2, h ≤ st.1.next_handle
  issued : st.2.filter (fun h => decide (h ≠ 0)) = List.range' 1 st.1.atom_count

/-- A run that leaves room for exactly one more edge: the atom `cat` (handle 1), then one
link (handle 2) whose outgoing array names `cat` 999,999 times. -/
def edge_table_nearly_full : List Call :=
  [Call.atom_alloc atom_type.ATOM_CONCEPT (some "cat"),
    Call.link_create atom_type.ATOM_LINK (List.replicate 999999 1)]

/-! ## ECAN attention ledger (`src/ecan.c`)

The `float` fields of `struct attention_value` are carried as rationals: every finite `float`
is one (NaN and the infinities are left out). `dtesn_sched_set_av` and `dtesn_sched_get_av`
only copy them; the single arithmetic operation, the decay `sti *= 0.999f` of
`dtesn_sched_tick`, is the `float` product, rounded as IEEE 754 binary32 arithmetic rounds
it. -/

/-- The constant `MAX_AVS` of `ecan.c`. -/
def MAX_AVS : Nat := 1000000

/-- The record `struct attention_value` of `cogkern.h`. -/
structure attention_value where
  sti : ℚ
  lti : ℚ
  vlti : ℚ
  deriving DecidableEq

/-- The record `struct av_entry`. -/
structure av_entry where
  atom : Nat
  av : attention_value
  active : Int
  deriving DecidableEq

/-- The global `g_ecan`. -/
structure EcanState where
  avs : Nat → av_entry
  av_count : Nat
  tick_interval_us : Nat
  tick_count : Nat
  initialized : Int

/-- The initial value `g_ecan = {0}`. -/
def g_ecan : EcanState where
  avs := fun _ => ⟨0, ⟨0, 0, 0⟩, 0⟩
  av_count := 0
  tick_interval_us := 0
  tick_count := 0
  initialized := 0

/-- The loop test `g_ecan.avs[i].active && g_ecan.avs[i].atom == atom`. -/
def av_match (e : av_entry) (atom : Nat) : Bool :=
  decide (e.active ≠ 0) && decide (e.atom = atom)

/-- The search loop shared by `dtesn_sched_set_av` and `dtesn_sched_get_av`: starting at slot
`i` with `n` slots still to visit, the first slot whose entry is active and carries `atom`. -/
def av_search (avs : Nat → av_entry) (atom : Nat) : Nat → Nat → Option Nat
  | 0, _ => none
  | n + 1, i => if av_match (avs i) atom then some i else av_search avs atom n (i + 1)

/-- The loop `for (i = 0; i < g_ecan.av_count; i++)` with its early exit. -/
def av_find (g : EcanState) (atom : Nat) : Option Nat :=
  av_search g.avs atom g.av_count 0

/-- The function `dtesn_sched_init`. -/
def dtesn_sched_init (g : EcanState) (tick_interval_us : Nat) : EcanState × Int :=
  if g.initialized ≠ 0 then (g, -1)
  else
    ({ g with
        tick_interval_us := tick_interval_us
        tick_count := 0
        av_count := 0
        initialized := 1 },
      0)

/-! ### IEEE 754 binary32 arithmetic

A C `float` is an IEEE 754 binary32 number: a multiple of `2 ^ (e - 23)` with fewer than
`2 ^ 24` units, where `e` is the binary exponent of the number and is never below -126 (the
subnormal numbers share the spacing `2 ^ (-149)`), and of magnitude below `2 ^ 128`. An
arithmetic operation returns the exact result rounded to the nearest such number, a tie going
to the one with an even number of units. -/

/-- The integer nearest to `t`; half-way between two integers, the even one. -/
def round_half_even (t : ℚ) : ℤ :=
  if t - ⌊t⌋ < 1 / 2 then ⌊t⌋
  else if 1 / 2 < t - ⌊t⌋ then ⌊t⌋ + 1
  else if ⌊t⌋ % 2 = 0 then ⌊t⌋
  else ⌊t⌋ + 1

/-- The binary32 exponent of `q`: the `e` with `2 ^ e ≤ |q| < 2 ^ (e + 1)`, and -126 in the
subnormal range and at zero. -/
def f32_exponent (q : ℚ) : ℤ := max (Int.log 2 |q|) (-126)

/-- Rounding to binary32, to nearest and ties to even: the multiple of the spacing
`2 ^ (f32_exponent q - 23)` nearest to `q`. -/
def f32_round (q : ℚ) : ℚ :=
  (round_half_even (q / 2 ^ (f32_exponent q - 23)) : ℚ) * 2 ^ (f32_exponent q - 23)

/-- The finite values of a C `float`: the rationals that binary32 represents. -/
def is_f32 (q : ℚ) : Prop := f32_round q = q ∧ |q| < 2 ^ 128

instance (q : ℚ) : Decidable (is_f32 q) :=
  inferInstanceAs (Decidable (f32_round q = q ∧ |q| < 2 ^ 128))

/-- The `float` product `a * b`: the exact product, rounded. -/
def f32_mul (a b : ℚ) : ℚ := f32_round (a * b)

/-- The literal `0.999f`: the decimal 0.999 rounded to binary32. -/
def FLOAT_0_999 : ℚ := f32_round (999 / 1000)

/-- The statement `g_ecan.avs[i].av.sti *= 0.999f` of `dtesn_sched_tick`, as a function of the
`sti` it finds: the `float` product of `sti` and `0.999f`. The field is a C `float`, so in the
program `sti` is always a binary32 value and the first branch is the one taken; the product
then has a magnitude of at most that of `sti` and cannot overflow. For a rational that is not
a binary32 value, which no `float` object holds, the product is left unrounded. -/
def decay_sti (sti : ℚ) : ℚ :=
  if is_f32 sti then f32_mul sti FLOAT_0_999 else sti * FLOAT_0_999

/-- The decay loop of `dtesn_sched_tick` after its first `n` iterations: the entry table and
`tasks_processed`. -/
def tick_loop (avs : Nat → av_entry) : Nat → (Nat → av_entry) × Int
  | 0 => (avs, 0)
  | n + 1 =>
    let r := tick_loop avs n
    if (r.1 n).active ≠ 0 then
      (Function.update r.1 n
          { r.1 n with av := { (r.1 n).av with sti := decay_sti (r.1 n).av.sti } },
        r.2 + 1)
    else r

/-- The function `dtesn_sched_tick`. -/
def dtesn_sched_tick (g : EcanState) : EcanState × Int :=
  if g.initialized = 0 then (g, -1)
  else
    let r := tick_loop g.avs g.av_count
    ({ g with tick_count := (g.tick_count + 1) % 2 ^ 64, avs := r.1 }, r.2)

/-- The function `dtesn_sched_set_av`; `av = none` is the `NULL` pointer. -/
def dtesn_sched_set_av (g : EcanState) (atom : Nat) (av : Option attention_value) :
    EcanState × Int :=
  match av with
  | none => (g, -1)
  | some v =>
    match av_find g atom with
    | some i => ({ g with avs := Function.update g.avs i { g.avs i with av := v } }, 0)
    | none =>
      if g.av_count ≥ MAX_AVS then (g, -1)
      else
        let idx := g.av_count
        ({ g with
            av_count := idx + 1
            avs := Function.update g.avs idx ⟨atom, v, 1⟩ },
          0)

/-- The function `dtesn_sched_get_av`. The argument `av` is the output location: `none` for
the `NULL` pointer, otherwise its content before the call; the result carries its content
after the call. The ledger is only read. -/
def dtesn_sched_get_av (g : EcanState) (atom : Nat) (av : Option attention_value) :
    Int × Option attention_value :=
  match av with
  | none => (-1, none)
  | some old =>
    match av_find g atom with
    | some i => (0, some (g.avs i).av)
    | none => (-1, some old)

/-- The function `dtesn_sched_spread_importance`. -/
def dtesn_sched_spread_importance (g : EcanState) (source : Nat) (diffusion_rate : ℚ) :
    EcanState × Int :=
  if diffusion_rate < 0 ∨ diffusion_rate > 1 then (g, -1)
  else (g, 0)

/-- One call into the ECAN API. -/
inductive EcanCall where
  | init (tick_interval_us : Nat)
  | tick
  | set_av (atom : Nat) (av : Option attention_value)
  | get_av (atom : Nat) (av : Option attention_value)
  | spread_importance (source : Nat) (diffusion_rate : ℚ)

/-- The ledger after one call. -/
def EcanCall.run (g : EcanState) : EcanCall → EcanState
  | EcanCall.init us => (dtesn_sched_init g us).1
  | EcanCall.tick => (dtesn_sched_tick g).1
  | EcanCall.set_av a av => (dtesn_sched_set_av g a av).1
  | EcanCall.get_av _ _ => g
  | EcanCall.spread_importance src r => (dtesn_sched_spread_importance g src r).1

/-- The ledger after a sequence of calls, starting from a given ledger. -/
def ecanExecFrom : EcanState → List EcanCall → EcanState
  | g, [] => g
  | g, c :: cs => ecanExecFrom (c.run g) cs

/-- The ledger after a sequence of calls, starting from the initial ledger. -/
def ecanExec (calls : List EcanCall) : EcanState :=
  ecanExecFrom g_ecan calls

/-- A ledger is reachable when some sequence of API calls produces it from the initial one. -/
def EcanReachable (g : EcanState) : Prop := ∃ calls, ecanExec calls = g

/-- A handle has an attention entry when some occupied slot of the ledger holds an active
entry for it. -/
def has_av (g : EcanState) (atom : Nat) : Prop :=
  ∃ i, i < g.av_count ∧ (g.avs i).active ≠ 0 ∧ (g.avs i).atom = atom

/-- One entry per handle: no two occupied slots hold active entries for the same atom. -/
def LedgerInv (g : EcanState) : Prop :=
  ∀ i j, i < g.av_count → j < g.av_count → (g.avs i).active ≠ 0 → (g.avs j).active ≠ 0 →
    (g.avs i).atom = (g.avs j).atom → i = j

/-- The calls `dtesn_sched_set_av(1, &v)`, `dtesn_sched_set_av(2, &v)`, ...,
`dtesn_sched_set_av(n, &v)`. -/
def ledger_fill_calls (v : attention_value) (n : Nat) : List EcanCall :=
  (List.range n).map (fun k => EcanCall.set_av (k + 1) (some v))

/-- The full ledger: the one reached from the initial ledger by setting the attention value
(1, 0, 0) for each of the handles 1 to 1,000,000. -/
def full_ledger : EcanState :=
  ecanExec (ledger_fill_calls ⟨1, 0, 0⟩ 1000000)

instance (g : EcanState) (atom : Nat) : Decidable (has_av g atom) :=
  inferInstanceAs
    (Decidable (∃ i, i < g.av_count ∧ (g.avs i).active ≠ 0 ∧ (g.avs i).atom = atom))

/-- The number of active entries among the first `n` slots of an entry table. -/
def active_count (avs : Nat → av_entry) : Nat → Int
  | 0 => 0
  | n + 1 => if (avs n).active ≠ 0 then active_count avs n + 1 else active_count avs n

/-- The sum of `sti` over the active entries among the first `n` slots of an entry table. -/
def sti_total (avs : Nat → av_entry) : Nat → ℚ
  | 0 => 0
  | n + 1 => if (avs n).active ≠ 0 then sti_total avs n + (avs n).av.sti else sti_total avs n

/-- The sum of `sti` over all active entries of the ledger. -/
def sti_sum (g : EcanState) : ℚ := sti_total g.avs g.av_count

/-- The ledger with the `sti` of every entry blanked: everything `g_ecan` stores apart from
the `sti` values. -/
def sti_erased (g : EcanState) : EcanState :=
  { g with avs := fun i => { g.avs i with av := { (g.avs i).av with sti := 0 } } }

/-- The 1-hop neighbours of a handle, read off the edge table the way section 4.1 of the
specification describes them: for every active edge `(from, to)` that touches the handle,
the atom at the other end; the handle itself is left out. The code has no such function. -/
def neighbors (a : AtomSpace) (h : Nat) : List Nat :=
  ((List.range a.edge_count).filterMap (fun i =>
    if (a.edges i).active ≠ 0 ∧ (a.edges i).from_ = h ∧ (a.edges i).to_ ≠ h then
      some (a.edges i).to_
    else if (a.edges i).active ≠ 0 ∧ (a.edges i).to_ = h ∧ (a.edges i).from_ ≠ h then
      some (a.edges i).from_
    else none)).dedup

/-! ## Kernel (`src/cogkern.c`) -/

/-- The global `g_kernel`; `ctx` is a pointer, `none` when `NULL`. -/
structure KernelState where
  ctx : Option Nat
  mem_size : Nat
  initialized : Int
  deriving DecidableEq

/-- The initial value `g_kernel = {0}`. -/
def g_kernel : KernelState := ⟨none, 0, 0⟩

/-- The function `cogkern_init`. -/
def cogkern_init (k : KernelState) (mem_size : Nat) : KernelState × Int :=
  if k.initialized ≠ 0 then (k, -1)
  else ({ k with mem_size := mem_size, initialized := 1 }, 0)

/-- The function `cogkern_shutdown`. -/
def cogkern_shutdown (k : KernelState) : KernelState :=
  if k.initialized = 0 then k
  else { k with ctx := none, initialized := 0 }

/-- The function `cogkern_get_context`. -/
def cogkern_get_context (k : KernelState) : Option Nat := k.ctx

/-! ## Cognitive loop (`src/cogloop.c`) -/

/-- The enumeration `enum boot_stage` of `cogkern.h`. -/
inductive boot_stage where
  | STAGE0_INIT
  | STAGE1_HYPERGRAPH
  | STAGE2_SCHEDULER
  | STAGE3_COGNITIVE
  deriving DecidableEq, Repr

/-- The global `g_cogloop`. -/
structure LoopState where
  current_stage : boot_stage
  running : Int
  frequency_hz : Nat
  iteration_count : Nat
  num_regions : Nat
  deriving DecidableEq

/-- The initial value `g_cogloop = {0}`. -/
def g_cogloop : LoopState := ⟨boot_stage.STAGE0_INIT, 0, 0, 0, 0⟩

/-- The globals that the bootstrap and the loop read and write: kernel, scheduler, loop. -/
structure System where
  kernel : KernelState
  ecan : EcanState
  loop : LoopState

/-- The system before any call. -/
def g_system : System := ⟨g_kernel, g_ecan, g_cogloop⟩

/-- The function `stage1_init_hypergraph_fs`: it touches no state and returns 0. -/
def stage1_init_hypergraph_fs : Int := 0

/-- The function `dtesn_mem_init_regions`. -/
def dtesn_mem_init_regions (l : LoopState) (num_regions : Nat) : LoopState × Int :=
  if num_regions = 0 ∨ num_regions > 256 then (l, -1)
  else ({ l with num_regions := num_regions }, 0)

/-- The `switch` of `cogloop_boot_stage`: the state after the selected case and `result`. -/
def boot_stage_switch (s : System) : boot_stage → System × Int
  | boot_stage.STAGE0_INIT =>
    ({ s with kernel := (cogkern_init s.kernel (64 * 1024 * 1024)).1 },
      (cogkern_init s.kernel (64 * 1024 * 1024)).2)
  | boot_stage.STAGE1_HYPERGRAPH => (s, stage1_init_hypergraph_fs)
  | boot_stage.STAGE2_SCHEDULER =>
    if (dtesn_sched_init s.ecan 5).2 = 0 then
      ({ s with
          ecan := (dtesn_sched_init s.ecan 5).1
          loop := (dtesn_mem_init_regions s.loop 16).1 },
        (dtesn_mem_init_regions s.loop 16).2)
    else ({ s with ecan := (dtesn_sched_init s.ecan 5).1 }, (dtesn_sched_init s.ecan 5).2)
  | boot_stage.STAGE3_COGNITIVE =>
    ({ s with loop := { s.loop with running := 0, frequency_hz := 0, iteration_count := 0 } },
      0)

/-- The function `cogloop_boot_stage`. -/
def cogloop_boot_stage (s : System) (stage : boot_stage) : System × Int :=
  let r := boot_stage_switch s stage
  if r.2 = 0 then ({ r.1 with loop := { r.1.loop with current_stage := stage } }, r.2)
  else r

/-- The function `cogloop_tick`. -/
def cogloop_tick (s : System) : System × Int :=
  let l := { s.loop with iteration_count := (s.loop.iteration_count + 1) % 2 ^ 64 }
  let t := dtesn_sched_tick s.ecan
  if t.2 < 0 then ({ s with loop := l, ecan := t.1 }, t.2)
  else ({ s with loop := l, ecan := t.1 }, 0)

/-- The function `cogloop_start`. -/
def cogloop_start (l : LoopState) (hz : Nat) : LoopState × Int :=
  if l.running ≠ 0 then (l, -1)
  else ({ l with frequency_hz := hz, running := 1 }, 0)

/-- The function `cogloop_stop`. -/
def cogloop_stop (l : LoopState) : LoopState :=
  { l with running := 0 }

/-- One call into the kernel, scheduler or loop API. -/
inductive SysCall where
  | kern_init (mem_size : Nat)
  | kern_shutdown
  | boot (stage : boot_stage)
  | mem_init_regions (num_regions : Nat)
  | loop_tick
  | loop_start (hz : Nat)
  | loop_stop
  | sched (c : EcanCall)

/-- The system after one call. -/
def SysCall.run (s : System) : SysCall → System
  | SysCall.kern_init m => { s with kernel := (cogkern_init s.kernel m).1 }
  | SysCall.kern_shutdown => { s with kernel := cogkern_shutdown s.kernel }
  | SysCall.boot stage => (cogloop_boot_stage s stage).1
  | SysCall.mem_init_regions n => { s with loop := (dtesn_mem_init_regions s.loop n).1 }
  | SysCall.loop_tick => (cogloop_tick s).1
  | SysCall.loop_start hz => { s with loop := (cogloop_start s.loop hz).1 }
  | SysCall.loop_stop => { s with loop := cogloop_stop s.loop }
  | SysCall.sched c => { s with ecan := c.run s.ecan }

/-- The system after a sequence of calls, starting from a given system state. -/
def sysExecFrom : System → List SysCall → System
  | s, [] => s
  | s, c :: cs => sysExecFrom (c.run s) cs

/-! ## PLN truth-value store (`src/pln.c`)

The `float` fields of `struct truth_value` are carried as rationals; they are only copied. -/

/-- The constant `MAX_TVS` of `pln.c`. -/
def MAX_TVS : Nat := 1000000

/-- The record `struct truth_value` of `cogkern.h`. -/
structure truth_value where
  strength : ℚ
  confidence : ℚ
  deriving DecidableEq

/-- The record `struct tv_entry`. -/
structure tv_entry where
  atom : Nat
  tv : truth_value
  active : Int
  deriving DecidableEq

/-- The global `g_pln`. -/
structure PlnState where
  tvs : Nat → tv_entry
  tv_count : Nat

/-- The initial value `g_pln = {0}`. -/
def g_pln : PlnState where
  tvs := fun _ => ⟨0, ⟨0, 0⟩, 0⟩
  tv_count := 0

/-- The loop test `g_pln.tvs[i].active && g_pln.tvs[i].atom == atom`. -/
def tv_match (e : tv_entry) (atom : Nat) : Bool :=
  decide (e.active ≠ 0) && decide (e.atom = atom)

/-- The lookup loop of `pln_infer`: starting at slot `i` with `n` slots still to visit, the
first slot whose entry is active and carries `atom`. -/
def tv_search (tvs : Nat → tv_entry) (atom : Nat) : Nat → Nat → Option Nat
  | 0, _ => none
  | n + 1, i => if tv_match (tvs i) atom then some i else tv_search tvs atom n (i + 1)

/-- The function `pln_infer`. The argument `tv` is the output location: `none` for the
`NULL` pointer, otherwise its content before the call; the result carries its content after
the call. The store is only read. -/
def pln_infer (p : PlnState) (atom : Nat) (tv : Option truth_value) :
    Int × Option truth_value :=
  match tv with
  | none => (-1, none)
  | some _ =>
    match tv_search p.tvs atom p.tv_count 0 with
    | some i => (0, some (p.tvs i).tv)
    | none => (0, some ⟨1 / 2, 0⟩)

/-- The function `cog_link_infer`; `tv = none` is the `NULL` pointer. -/
def cog_link_infer (a : AtomSpace) (p : PlnState) (premise conclusion : Nat)
    (tv : Option truth_value) : (AtomSpace × PlnState) × Nat :=
  match tv with
  | none => ((a, p), 0)
  | some v =>
    if premise = 0 ∨ conclusion = 0 then ((a, p), 0)
    else
      let r := cog_link_create a atom_type.ATOM_EVALUATION [premise, conclusion]
      if r.2 ≠ 0 ∧ p.tv_count < MAX_TVS then
        ((r.1,
            { p with
              tv_count := p.tv_count + 1
              tvs := Function.update p.tvs p.tv_count ⟨r.2, v, 1⟩ }),
          r.2)
      else ((r.1, p), r.2)

/-- One call that can change the AtomSpace or the truth-value store. -/
inductive PlnCall where
  | atomspace (c : Call)
  | link_infer (premise conclusion : Nat) (tv : Option truth_value)

/-- The AtomSpace and the truth-value store after one call. -/
def PlnCall.run (st : AtomSpace × PlnState) : PlnCall → AtomSpace × PlnState
  | PlnCall.atomspace c => ((c.run st.1).1, st.2)
  | PlnCall.link_infer premise conclusion tv =>
    (cog_link_infer st.1 st.2 premise conclusion tv).1

/-- The AtomSpace and the truth-value store after a sequence of calls. -/
def plnExecFrom : AtomSpace × PlnState → List PlnCall → AtomSpace × PlnState
  | st, [] => st
  | st, c :: cs => plnExecFrom (c.run st) cs

/-- The AtomSpace and the truth-value store after a sequence of calls from the initial
state. -/
def plnExec (calls : List PlnCall) : AtomSpace × PlnState :=
  plnExecFrom (g_atomspace, g_pln) calls

/-- The invariant of the two stores: the AtomSpace invariant, and no stored truth value
carries a handle that has not been issued yet. -/
structure PlnInv (st : AtomSpace × PlnState) : Prop where
  inv : AtomInv st.1
  issued : ∀ i, i < st.2.tv_count → (st.2.tvs i).atom ≤ st.1.next_handle

/-! ## Command line (`src/cli.c`)

Only what the interactive dispatch and `atom create` do to the state is modelled; printing is
left out. A token array `argv[0..argc)` is a list, and `argv[i]?` stands for the expression
`argc >= i + 1 ? argv[i] : NULL` that `dispatch_command` uses to fill its `fake_argv`. -/

/-- The constant `MAX_ATOMS` of `cli.c` (100; not the one of `atomspace.c`). -/
def CLI_MAX_ATOMS : Nat := 100

/-- The global `cli_state`. -/
structure CliState where
  initialized : Int
  running : Int
  atoms : Nat → Nat
  atom_count : Nat

/-- The initial value `cli_state = {0}`. -/
def cli_state : CliState := ⟨0, 0, fun _ => 0, 0⟩

/-- The command handlers of `cli.c`. -/
inductive cli_handler where
  | cmd_init
  | cmd_shutdown
  | cmd_boot
  | cmd_atom_create
  | cmd_atom_list
  | cmd_link_create
  | cmd_attention_set
  | cmd_attention_get
  | cmd_attention_spread
  | cmd_infer
  | cmd_loop_start
  | cmd_loop_tick
  | cmd_loop_stop
  deriving DecidableEq, Repr

/-- The least `argc` a handler accepts: the bound `k` of its opening test `argc < k`
(0 for the handlers that do not look at `argc`). -/
def required_argc : cli_handler → Nat
  | cli_handler.cmd_init => 3
  | cli_handler.cmd_boot => 3
  | cli_handler.cmd_atom_create => 5
  | cli_handler.cmd_link_create => 6
  | cli_handler.cmd_attention_set => 7
  | cli_handler.cmd_attention_get => 4
  | cli_handler.cmd_attention_spread => 5
  | cli_handler.cmd_infer => 3
  | cli_handler.cmd_loop_start => 4
  | cli_handler.cmd_shutdown => 0
  | cli_handler.cmd_atom_list => 0
  | cli_handler.cmd_loop_tick => 0
  | cli_handler.cmd_loop_stop => 0

/-- What `dispatch_command` does with a token array: it returns a value by itself, or it
returns the value of a handler called with an argument count and a `fake_argv`. -/
inductive dispatch_result where
  | ret (code : Int)
  | call (h : cli_handler) (argc : Nat) (fake_argv : List (Option String))
  deriving DecidableEq, Repr

/-- The function `dispatch_command`; `argc` is the length of `argv`. -/
def dispatch_command (argv : List String) : dispatch_result :=
  match argv with
  | [] => dispatch_result.ret 0
  | cmd :: _ =>
    if cmd = "help" ∨ cmd = "?" then dispatch_result.ret 0
    else if cmd = "version" then dispatch_result.ret 0
    else if cmd = "exit" ∨ cmd = "quit" then dispatch_result.ret (-1)
    else if cmd = "init" then
      dispatch_result.call cli_handler.cmd_init (if argv.length ≥ 2 then 3 else 2)
        [some "cogpilot-cli", some "init", argv[1]?]
    else if cmd = "shutdown" then
      dispatch_result.call cli_handler.cmd_shutdown 2 [some "cogpilot-cli", some "shutdown"]
    else if cmd = "boot" then
      dispatch_result.call cli_handler.cmd_boot (if argv.length ≥ 2 then 3 else 2)
        [some "cogpilot-cli", some "boot", argv[1]?]
    else if cmd = "atom" ∧ argv.length ≥ 2 ∧ argv[1]? = some "create" then
      dispatch_result.call cli_handler.cmd_atom_create
        (if argv.length ≥ 4 then 5 else argv.length + 2)
        [some "cogpilot-cli", some "atom", some "create", argv[2]?, argv[3]?]
    else if cmd = "atom" ∧ argv.length ≥ 2 ∧ argv[1]? = some "list" then
      dispatch_result.call cli_handler.cmd_atom_list 3
        [some "cogpilot-cli", some "atom", some "list"]
    else if cmd = "link" ∧ argv.length ≥ 2 ∧ argv[1]? = some "create" then
      dispatch_result.call cli_handler.cmd_link_create
        (if argv.length ≥ 5 then 6 else argv.length + 1)
        [some "cogpilot-cli", some "link", some "create", argv[2]?, argv[3]?, argv[4]?]
    else if cmd = "attention" ∧ argv.length ≥ 2 ∧ argv[1]? = some "set" then
      dispatch_result.call cli_handler.cmd_attention_set
        (if argv.length ≥ 6 then 7 else argv.length + 1)
        [some "cogpilot-cli", some "attention", some "set", argv[2]?, argv[3]?, argv[4]?,
          argv[5]?]
    else if cmd = "attention" ∧ argv.length ≥ 2 ∧ argv[1]? = some "get" then
      dispatch_result.call cli_handler.cmd_attention_get
        (if argv.length ≥ 3 then 4 else argv.length + 1)
        [some "cogpilot-cli", some "attention", some "get", argv[2]?]
    else if cmd = "attention" ∧ argv.length ≥ 2 ∧ argv[1]? = some "spread" then
      dispatch_result.call cli_handler.cmd_attention_spread
        (if argv.length ≥ 4 then 5 else argv.length + 1)
        [some "cogpilot-cli", some "attention", some "spread", argv[2]?, argv[3]?]
    else if cmd = "infer" then
      dispatch_result.call cli_handler.cmd_infer (if argv.length ≥ 2 then 3 else 2)
        [some "cogpilot-cli", some "infer", argv[1]?]
    else if cmd = "loop" ∧ argv.length ≥ 2 ∧ argv[1]? = some "start" then
      dispatch_result.call cli_handler.cmd_loop_start
        (if argv.length ≥ 3 then 4 else argv.length + 1)
        [some "cogpilot-cli", some "loop", some "start", argv[2]?]
    else if cmd = "loop" ∧ argv.length ≥ 2 ∧ argv[1]? = some "tick" then
      dispatch_result.call cli_handler.cmd_loop_tick 3
        [some "cogpilot-cli", some "loop", some "tick"]
    else if cmd = "loop" ∧ argv.length ≥ 2 ∧ argv[1]? = some "stop" then
      dispatch_result.call cli_handler.cmd_loop_stop 3
        [some "cogpilot-cli", some "loop", some "stop"]
    else dispatch_result.ret 1

/-- The function `parse_atom_type`. -/
def parse_atom_type (type_str : String) : atom_type :=
  if type_str = "node" then atom_type.ATOM_NODE
  else if type_str = "link" then atom_type.ATOM_LINK
  else if type_str = "concept" then atom_type.ATOM_CONCEPT
  else if type_str = "predicate" then atom_type.ATOM_PREDICATE
  else if type_str = "evaluation" then atom_type.ATOM_EVALUATION
  else if type_str = "inheritance" then atom_type.ATOM_INHERITANCE
  else if type_str = "similarity" then atom_type.ATOM_SIMILARITY
  else atom_type.ATOM_NODE

/-- The function `cmd_atom_create`: the new `cli_state` and AtomSpace and the value
returned. The result is `none` where the C code has no defined behaviour: `argv[3]` is
`NULL` and is handed to `strcmp`. -/
def cmd_atom_create (cli : CliState) (g : AtomSpace) (argc : Nat)
    (argv : List (Option String)) : Option ((CliState × AtomSpace) × Int) :=
  if argc < 5 then some ((cli, g), 1)
  else if cli.initialized = 0 then some ((cli, g), 1)
  else
    match (argv[3]?).join with
    | none => none
    | some type_str =>
      let r := cog_atom_alloc g (parse_atom_type type_str) (argv[4]?).join
      if r.2 = 0 then some ((cli, r.1), 1)
      else if cli.atom_count < CLI_MAX_ATOMS then
        some (({ cli with
            atoms := Function.update cli.atoms cli.atom_count r.2
            atom_count := cli.atom_count + 1 }, r.1), 0)
      else some ((cli, r.1), 0)

end CogPilot

namespace CogPilot

/-! ## AtomSpace: basic facts -/

theorem hgfs_edge_atoms (g : AtomSpace) (f t : Nat) (ty : atom_type) :
    (hgfs_edge g f t ty).1.atoms = g.atoms ∧
    (hgfs_edge g f t ty).1.next_handle = g.next_handle ∧
    (hgfs_edge g f t ty).1.atom_count = g.atom_count := by
  unfold hgfs_edge
  split <;> simp

theorem hgfs_edge_count (g : AtomSpace) (f t : Nat) (ty : atom_type) :
    (hgfs_edge g f t ty).1.edge_count =
      if g.edge_count < MAX_ATOMS then g.edge_count + 1 else g.edge_count := by
  unfold hgfs_edge
  by_cases h : g.edge_count < MAX_ATOMS
  · simp [h, Nat.not_le.mpr h]
  · simp [h, Nat.not_lt.mp h]

theorem hgfs_edge_old (g : AtomSpace) (f t : Nat) (ty : atom_type) (j : Nat)
    (hj : j < g.edge_count) : (hgfs_edge g f t ty).1.edges j = g.edges j := by
  unfold hgfs_edge
  split
  · rfl
  · simp [Function.update_noteq (Nat.ne_of_lt hj)]

theorem link_edges_atoms (link : Nat) (ty : atom_type) (out : List Nat) :
    ∀ g : AtomSpace, (link_edges g link ty out).atoms = g.atoms ∧
      (link_edges g link ty out).next_handle = g.next_handle ∧
      (link_edges g link ty out).atom_count = g.atom_count := by
  induction out with
  | nil => intro g; simp [link_edges]
  | cons o rest ih =>
    intro g
    obtain ⟨h1, h2, h3⟩ := ih (hgfs_edge g link o ty).1
    obtain ⟨e1, e2, e3⟩ := hgfs_edge_atoms g link o ty
    simp only [link_edges]
    exact ⟨h1.trans e1, h2.trans e2, h3.trans e3⟩

theorem link_edges_count (link : Nat) (ty : atom_type) (out : List Nat) :
    ∀ g : AtomSpace, g.edge_count ≤ MAX_ATOMS →
      (link_edges g link ty out).edge_count = min MAX_ATOMS (g.edge_count + out.length) := by
  induction out with
  | nil => intro g hg; simp [link_edges, hg]
  | cons o rest ih =>
    intro g hg
    have hc := hgfs_edge_count g link o ty
    simp only [link_edges, List.length_cons]
    by_cases hlt : g.edge_count < MAX_ATOMS
    · rw [if_pos hlt] at hc
      rw [ih _ (by omega), hc]
      congr 1
      omega
    · rw [if_neg hlt] at hc
      rw [ih _ (by omega), hc]
      omega

theorem link_edges_old (link : Nat) (ty : atom_type) (out : List Nat) :
    ∀ (g : AtomSpace) (j : Nat), j < g.edge_count →
      (link_edges g link ty out).edges j = g.edges j := by
  induction out with
  | nil => intro g j _; rfl
  | cons o rest ih =>
    intro g j hj
    have hc := hgfs_edge_count g link o ty
    simp only [link_edges]
    rw [ih _ j (by rw [hc]; split <;> omega)]
    exact hgfs_edge_old g link o ty j hj

theorem link_edges_new (link : Nat) (ty : atom_type) (out : List Nat) :
    ∀ (g : AtomSpace), g.edge_count + out.length ≤ MAX_ATOMS →
      ∀ (i : Nat) (hi : i < out.length),
        (link_edges g link ty out).edges (g.edge_count + i) = ⟨link, out.get ⟨i, hi⟩, ty, 1⟩ := by
  induction out with
  | nil => intro g _ i hi; simp at hi
  | cons o rest ih =>
    intro g hg i hi
    simp only [List.length_cons] at hg hi
    have hlt : g.edge_count < MAX_ATOMS := by omega
    have hc := hgfs_edge_count g link o ty
    rw [if_pos hlt] at hc
    simp only [link_edges]
    cases i with
    | zero =>
      rw [Nat.add_zero, link_edges_old link ty rest _ g.edge_count (by omega)]
      simp [hgfs_edge, Nat.not_le.mpr hlt]
    | succ k =>
      have hk : k < rest.length := by omega
      have := ih (hgfs_edge g link o ty).1 (by omega) k hk
      rw [hc] at this
      rw [show g.edge_count + (k + 1) = g.edge_count + 1 + k by omega, this]
      rfl

theorem cog_atom_alloc_full (g : AtomSpace) (ty : atom_type) (name : Option String)
    (h : MAX_ATOMS ≤ g.atom_count) : cog_atom_alloc g ty name = (g, 0) := by
  simp [cog_atom_alloc, h]

theorem cog_atom_alloc_room (g : AtomSpace) (ty : atom_type) (name : Option String)
    (hinv : AtomInv g) (h : g.atom_count < MAX_ATOMS) :
    cog_atom_alloc g ty name =
      ({ g with
          atom_count := g.atom_count + 1
          next_handle := g.atom_count + 1
          atoms := Function.update g.atoms g.atom_count
            ⟨g.atom_count + 1, ty, name, none, 0, 1⟩ },
        g.atom_count + 1) := by
  have hm : (g.atom_count + 1) % 2 ^ 64 = g.atom_count + 1 := by
    apply Nat.mod_eq_of_lt
    have : MAX_ATOMS = 1000000 := rfl
    omega
  simp only [cog_atom_alloc, ge_iff_le, Nat.not_le.mpr h, if_false, hinv.next_eq, hm]

theorem cog_atom_alloc_inv (g : AtomSpace) (ty : atom_type) (name : Option String)
    (hinv : AtomInv g) : AtomInv (cog_atom_alloc g ty name).1 := by
  by_cases h : g.atom_count < MAX_ATOMS
  · rw [cog_atom_alloc_room g ty name hinv h]
    refine ⟨rfl, h, hinv.edges_le, ?_⟩
    intro i hi
    simp only at hi ⊢
    by_cases hig : i = g.atom_count
    · subst hig; simp
    · rw [Function.update_noteq hig]
      exact hinv.slot i (by omega)
  · rw [cog_atom_alloc_full g ty name (by omega)]
    exact hinv

theorem hgfs_edge_inv (g : AtomSpace) (f t : Nat) (ty : atom_type) (hinv : AtomInv g) :
    AtomInv (hgfs_edge g f t ty).1 := by
  obtain ⟨e1, e2, e3⟩ := hgfs_edge_atoms g f t ty
  have hc := hgfs_edge_count g f t ty
  refine ⟨by rw [e2, e3]; exact hinv.next_eq, by rw [e3]; exact hinv.atoms_le, ?_, ?_⟩
  · rw [hc]; have := hinv.edges_le; split <;> omega
  · intro i hi; rw [e1]; rw [e3] at hi; exact hinv.slot i hi

theorem link_edges_inv (link : Nat) (ty : atom_type) (out : List Nat) (g : AtomSpace)
    (hinv : AtomInv g) : AtomInv (link_edges g link ty out) := by
  obtain ⟨e1, e2, e3⟩ := link_edges_atoms link ty out g
  have hc := link_edges_count link ty out g hinv.edges_le
  refine ⟨by rw [e2, e3]; exact hinv.next_eq, by rw [e3]; exact hinv.atoms_le, ?_, ?_⟩
  · rw [hc]; exact Nat.min_le_left _ _
  · intro i hi; rw [e1]; rw [e3] at hi; exact hinv.slot i hi

theorem cog_link_create_full (g : AtomSpace) (ty : atom_type) (out : List Nat)
    (h : MAX_ATOMS ≤ g.atom_count) : cog_link_create g ty out = (g, 0) := by
  simp [cog_link_create, cog_atom_alloc_full g ty none h]

theorem cog_link_create_room (g : AtomSpace) (ty : atom_type) (out : List Nat)
    (hinv : AtomInv g) (h : g.atom_count < MAX_ATOMS) :
    cog_link_create g ty out =
      (link_edges (cog_atom_alloc g ty none).1 (g.atom_count + 1) ty out,
        g.atom_count + 1) := by
  simp [cog_link_create, cog_atom_alloc_room g ty none hinv h]

theorem cog_link_create_inv (g : AtomSpace) (ty : atom_type) (out : List Nat)
    (hinv : AtomInv g) : AtomInv (cog_link_create g ty out).1 := by
  by_cases h : g.atom_count < MAX_ATOMS
  · rw [cog_link_create_room g ty out hinv h]
    exact link_edges_inv _ ty out _ (cog_atom_alloc_inv g ty none hinv)
  · rw [cog_link_create_full g ty out (by omega)]
    exact hinv

/-! ## AtomSpace: the invariant of a run -/

theorem execInv_success (g g1 : AtomSpace) (hs : List Nat) (hinv : ExecInv (g, hs))
    (hinv1 : AtomInv g1) (hcount : g1.atom_count = g.atom_count + 1) :
    ExecInv (g1, hs ++ [g.atom_count + 1]) := by
  have hn : g.next_handle = g.atom_count := hinv.inv.next_eq
  have hn1 : g1.next_handle = g.atom_count + 1 := by rw [hinv1.next_eq, hcount]
  refine ⟨hinv1, ?_, ?_⟩
  · intro h hh
    simp only [List.mem_append, List.mem_singleton] at hh
    rcases hh with hh | hh
    · have := hinv.le_next h hh
      simp only at this ⊢
      omega
    · simp only
      omega
  · have := hinv.issued
    simp only at this
    simp only [List.filter_append, this, hcount, List.range'_1_concat]
    simp [Nat.add_comm]

theorem execInv_failure (g g1 : AtomSpace) (hs : List Nat) (hinv : ExecInv (g, hs))
    (hinv1 : AtomInv g1) (hcount : g1.atom_count = g.atom_count) :
    ExecInv (g1, hs ++ [0]) := by
  have hn1 : g1.next_handle = g.next_handle := by
    rw [hinv1.next_eq, hcount, hinv.inv.next_eq]
  refine ⟨hinv1, ?_, ?_⟩
  · intro h hh
    simp only [List.mem_append, List.mem_singleton] at hh
    rcases hh with hh | hh
    · have := hinv.le_next h hh
      simp only at this ⊢
      omega
    · simp [hh]
  · have := hinv.issued
    simp only at this
    simp only [List.filter_append, this, hcount]
    simp

theorem execInv_step (st : AtomSpace × List Nat) (c : Call) (hinv : ExecInv st) :
    ExecInv ((c.run st.1).1, st.2 ++ (c.run st.1).2) := by
  obtain ⟨g, hs⟩ := st
  cases c with
  | atom_alloc ty name =>
    simp only [Call.run]
    by_cases h : g.atom_count < MAX_ATOMS
    · have hr := cog_atom_alloc_room g ty name hinv.inv h
      have hi := cog_atom_alloc_inv g ty name hinv.inv
      rw [hr] at hi ⊢
      exact execInv_success g _ hs hinv hi rfl
    · rw [cog_atom_alloc_full g ty name (by omega)]
      exact execInv_failure g g hs hinv hinv.inv rfl
  | link_create ty out =>
    simp only [Call.run]
    by_cases h : g.atom_count < MAX_ATOMS
    · have hr := cog_link_create_room g ty out hinv.inv h
      have hi := cog_link_create_inv g ty out hinv.inv
      rw [hr] at hi ⊢
      refine execInv_success g _ hs hinv hi ?_
      rw [(link_edges_atoms _ ty out _).2.2, cog_atom_alloc_room g ty none hinv.inv h]
    · rw [cog_link_create_full g ty out (by omega)]
      exact execInv_failure g g hs hinv hinv.inv rfl
  | edge f t ty =>
    simp only [Call.run, List.append_nil]
    obtain ⟨_, e2, e3⟩ := hgfs_edge_atoms g f t ty
    refine ⟨hgfs_edge_inv g f t ty hinv.inv, ?_, ?_⟩
    · intro h hh
      have := hinv.le_next h hh
      simp only at this ⊢
      omega
    · have := hinv.issued
      simp only at this ⊢
      rw [this, e3]

theorem execFrom_inv (calls : List Call) :
    ∀ st : AtomSpace × List Nat, ExecInv st → ExecInv (execFrom st calls) := by
  induction calls with
  | nil => intro st h; exact h
  | cons c cs ih =>
    intro st h
    simp only [execFrom]
    exact ih _ (execInv_step st c h)

theorem exec_inv (calls : List Call) : ExecInv (exec calls) := by
  apply execFrom_inv
  refine ⟨⟨rfl, Nat.zero_le _, Nat.zero_le _, ?_⟩, ?_, rfl⟩
  · intro i hi; exact absurd hi (Nat.not_lt_zero i)
  · intro h hh; simp at hh

theorem reachable_inv (g : AtomSpace) (h : Reachable g) : AtomInv g := by
  obtain ⟨calls, rfl⟩ := h
  exact (exec_inv calls).inv

/-! ## AtomSpace: handle allocation -/

/-- C1: in every reachable AtomSpace state, a non-zero handle returned by `cog_atom_alloc` is
strictly greater than every value returned by an earlier `cog_atom_alloc` or
`cog_link_create` call; hence it was never issued before. -/
theorem cog_atom_alloc_handle_fresh (calls : List Call) (ty : atom_type)
    (name : Option String) (hret : (cog_atom_alloc (exec calls).1 ty name).2 ≠ 0) :
    (∀ h ∈ (exec calls).2, h < (cog_atom_alloc (exec calls).1 ty name).2) ∧
      (cog_atom_alloc (exec calls).1 ty name).2 ∉ (exec calls).2 := by
  have hinv := exec_inv calls
  by_cases hroom : (exec calls).1.atom_count < MAX_ATOMS
  · rw [cog_atom_alloc_room _ ty name hinv.inv hroom]
    have hlt : ∀ h ∈ (exec calls).2, h < (exec calls).1.atom_count + 1 := by
      intro h hh
      have h1 := hinv.le_next h hh
      have h2 := hinv.inv.next_eq
      omega
    exact ⟨hlt, fun hmem => Nat.lt_irrefl _ (hlt _ hmem)⟩
  · rw [cog_atom_alloc_full _ ty name (by omega)] at hret
    exact absurd rfl hret

/-- C1, at a concrete run: after one atom and one link were created (handles 1 and 2), the
next `cog_atom_alloc` returns 3. -/
theorem cog_atom_alloc_handle_fresh_witness :
    (exec [Call.atom_alloc atom_type.ATOM_CONCEPT (some "cat"),
        Call.link_create atom_type.ATOM_INHERITANCE [1, 1]]).2 = [1, 2] ∧
      (cog_atom_alloc
        (exec [Call.atom_alloc atom_type.ATOM_CONCEPT (some "cat"),
          Call.link_create atom_type.ATOM_INHERITANCE [1, 1]]).1
        atom_type.ATOM_CONCEPT (some "dog")).2 = 3 ∧
      ((∀ h ∈ (exec [Call.atom_alloc atom_type.ATOM_CONCEPT (some "cat"),
          Call.link_create atom_type.ATOM_INHERITANCE [1, 1]]).2,
          h < (cog_atom_alloc
            (exec [Call.atom_alloc atom_type.ATOM_CONCEPT (some "cat"),
              Call.link_create atom_type.ATOM_INHERITANCE [1, 1]]).1
            atom_type.ATOM_CONCEPT (some "dog")).2) ∧
        (cog_atom_alloc
          (exec [Call.atom_alloc atom_type.ATOM_CONCEPT (some "cat"),
            Call.link_create atom_type.ATOM_INHERITANCE [1, 1]]).1
          atom_type.ATOM_CONCEPT (some "dog")).2 ∉
          (exec [Call.atom_alloc atom_type.ATOM_CONCEPT (some "cat"),
            Call.link_create atom_type.ATOM_INHERITANCE [1, 1]]).2) :=
  ⟨by decide, by decide,
    cog_atom_alloc_handle_fresh
      [Call.atom_alloc atom_type.ATOM_CONCEPT (some "cat"),
        Call.link_create atom_type.ATOM_INHERITANCE [1, 1]]
      atom_type.ATOM_CONCEPT (some "dog") (by decide)⟩

/-- C2: handles start at 1. On the fresh AtomSpace `cog_atom_alloc` returns 1; in every
reachable state `next_handle` equals `atom_count` and the atom in slot `i` carries handle
`i + 1`; and the non-zero values returned by the creation calls of a run are
`1, 2, ..., atom_count` in call order, so the n-th successful creation returns n. -/
theorem handles_start_at_one (calls : List Call) (ty : atom_type) (name : Option String) :
    (cog_atom_alloc g_atomspace ty name).2 = 1 ∧
      (exec calls).1.next_handle = (exec calls).1.atom_count ∧
      (∀ i, i < (exec calls).1.atom_count → ((exec calls).1.atoms i).handle = i + 1) ∧
      (exec calls).2.filter (fun h => decide (h ≠ 0)) =
        List.range' 1 (exec calls).1.atom_count := by
  have hinv := exec_inv calls
  exact ⟨rfl, hinv.inv.next_eq, hinv.inv.slot, hinv.issued⟩

/-- C3: when `cog_atom_alloc` succeeds with handle `h` in a reachable state, the store holds
exactly one atom record with handle `h`; that record has the given type, the given name (no
name when `NULL` was passed) and is active; and every atom record stored before is
unchanged. -/
theorem cog_atom_alloc_record (calls : List Call) (ty : atom_type) (name : Option String)
    (hret : (cog_atom_alloc (exec calls).1 ty name).2 ≠ 0) :
    (∃! i, i < (cog_atom_alloc (exec calls).1 ty name).1.atom_count ∧
        ((cog_atom_alloc (exec calls).1 ty name).1.atoms i).handle =
          (cog_atom_alloc (exec calls).1 ty name).2) ∧
      (∀ i, i < (cog_atom_alloc (exec calls).1 ty name).1.atom_count →
        ((cog_atom_alloc (exec calls).1 ty name).1.atoms i).handle =
          (cog_atom_alloc (exec calls).1 ty name).2 →
        ((cog_atom_alloc (exec calls).1 ty name).1.atoms i).type = ty ∧
          ((cog_atom_alloc (exec calls).1 ty name).1.atoms i).name = name ∧
          ((cog_atom_alloc (exec calls).1 ty name).1.atoms i).active = 1) ∧
      (∀ i, i < (exec calls).1.atom_count →
        (cog_atom_alloc (exec calls).1 ty name).1.atoms i = (exec calls).1.atoms i) := by
  have hinv := (exec_inv calls).inv
  have hinv1 := cog_atom_alloc_inv _ ty name hinv
  by_cases hroom : (exec calls).1.atom_count < MAX_ATOMS
  · generalize exec calls = st at *
    obtain ⟨g, hs⟩ := st
    simp only at hinv hroom
    rw [cog_atom_alloc_room g ty name hinv hroom] at hinv1 ⊢
    simp only at hinv1 ⊢
    have hslot := hinv1.slot
    simp only at hslot
    have huniq : ∀ i, i < g.atom_count + 1 →
        (Function.update g.atoms g.atom_count
          ⟨g.atom_count + 1, ty, name, none, 0, 1⟩ i).handle = g.atom_count + 1 →
        i = g.atom_count := by
      intro i hi hh
      rw [hslot i hi] at hh
      omega
    refine ⟨⟨g.atom_count, ⟨Nat.lt_succ_self _, by simp⟩, ?_⟩, ?_, ?_⟩
    · intro i hi
      exact huniq i hi.1 hi.2
    · intro i hi hh
      rw [huniq i hi hh]
      simp
    · intro i hi
      rw [Function.update_noteq (Nat.ne_of_lt hi)]
  · rw [cog_atom_alloc_full _ ty name (by omega)] at hret
    exact absurd rfl hret

/-- C3, at a concrete run: allocating `dog` after `cat` and one link gives handle 3, stored
in slot 2 with its type and name. -/
theorem cog_atom_alloc_record_witness :
    ((cog_atom_alloc
        (exec [Call.atom_alloc atom_type.ATOM_CONCEPT (some "cat"),
          Call.link_create atom_type.ATOM_INHERITANCE [1, 1]]).1
        atom_type.ATOM_PREDICATE (some "dog")).1.atoms 2 =
          ⟨3, atom_type.ATOM_PREDICATE, some "dog", none, 0, 1⟩) ∧
      ((∃! i, i < (cog_atom_alloc
            (exec [Call.atom_alloc atom_type.ATOM_CONCEPT (some "cat"),
              Call.link_create atom_type.ATOM_INHERITANCE [1, 1]]).1
            atom_type.ATOM_PREDICATE (some "dog")).1.atom_count ∧
          ((cog_atom_alloc
            (exec [Call.atom_alloc atom_type.ATOM_CONCEPT (some "cat"),
              Call.link_create atom_type.ATOM_INHERITANCE [1, 1]]).1
            atom_type.ATOM_PREDICATE (some "dog")).1.atoms i).handle =
          (cog_atom_alloc
            (exec [Call.atom_alloc atom_type.ATOM_CONCEPT (some "cat"),
              Call.link_create atom_type.ATOM_INHERITANCE [1, 1]]).1
            atom_type.ATOM_PREDICATE (some "dog")).2) ∧
        (∀ i, i < (cog_atom_alloc
            (exec [Call.atom_alloc atom_type.ATOM_CONCEPT (some "cat"),
              Call.link_create atom_type.ATOM_INHERITANCE [1, 1]]).1
            atom_type.ATOM_PREDICATE (some "dog")).1.atom_count →
          ((cog_atom_alloc
            (exec [Call.atom_alloc atom_type.ATOM_CONCEPT (some "cat"),
              Call.link_create atom_type.ATOM_INHERITANCE [1, 1]]).1
            atom_type.ATOM_PREDICATE (some "dog")).1.atoms i).handle =
          (cog_atom_alloc
            (exec [Call.atom_alloc atom_type.ATOM_CONCEPT (some "cat"),
              Call.link_create atom_type.ATOM_INHERITANCE [1, 1]]).1
            atom_type.ATOM_PREDICATE (some "dog")).2 →
          ((cog_atom_alloc
            (exec [Call.atom_alloc atom_type.ATOM_CONCEPT (some "cat"),
              Call.link_create atom_type.ATOM_INHERITANCE [1, 1]]).1
            atom_type.ATOM_PREDICATE (some "dog")).1.atoms i).type =
              atom_type.ATOM_PREDICATE ∧
          ((cog_atom_alloc
            (exec [Call.atom_alloc atom_type.ATOM_CONCEPT (some "cat"),
              Call.link_create atom_type.ATOM_INHERITANCE [1, 1]]).1
            atom_type.ATOM_PREDICATE (some "dog")).1.atoms i).name = some "dog" ∧
          ((cog_atom_alloc
            (exec [Call.atom_alloc atom_type.ATOM_CONCEPT (some "cat"),
              Call.link_create atom_type.ATOM_INHERITANCE [1, 1]]).1
            atom_type.ATOM_PREDICATE (some "dog")).1.atoms i).active = 1) ∧
        (∀ i, i < (exec [Call.atom_alloc atom_type.ATOM_CONCEPT (some "cat"),
              Call.link_create atom_type.ATOM_INHERITANCE [1, 1]]).1.atom_count →
          (cog_atom_alloc
            (exec [Call.atom_alloc atom_type.ATOM_CONCEPT (some "cat"),
              Call.link_create atom_type.ATOM_INHERITANCE [1, 1]]).1
            atom_type.ATOM_PREDICATE (some "dog")).1.atoms i =
          (exec [Call.atom_alloc atom_type.ATOM_CONCEPT (some "cat"),
              Call.link_create atom_type.ATOM_INHERITANCE [1, 1]]).1.atoms i)) :=
  ⟨by decide,
    cog_atom_alloc_record
      [Call.atom_alloc atom_type.ATOM_CONCEPT (some "cat"),
        Call.link_create atom_type.ATOM_INHERITANCE [1, 1]]
      atom_type.ATOM_PREDICATE (some "dog") (by decide)⟩

/-- C4: in every reachable state `cog_atom_alloc` returns 0 if and only if
`atom_count >= MAX_ATOMS` (1,000,000), and when it returns 0 the whole AtomSpace state is
unchanged. -/
theorem cog_atom_alloc_fails_iff_full (calls : List Call) (ty : atom_type)
    (name : Option String) :
    MAX_ATOMS = 1000000 ∧
      ((cog_atom_alloc (exec calls).1 ty name).2 = 0 ↔
        MAX_ATOMS ≤ (exec calls).1.atom_count) ∧
      ((cog_atom_alloc (exec calls).1 ty name).2 = 0 →
        (cog_atom_alloc (exec calls).1 ty name).1 = (exec calls).1) := by
  have hinv := (exec_inv calls).inv
  by_cases hroom : (exec calls).1.atom_count < MAX_ATOMS
  · rw [cog_atom_alloc_room _ ty name hinv hroom]
    refine ⟨rfl, ⟨fun h => ?_, fun h => ?_⟩, fun h => ?_⟩
    · simp at h
    · omega
    · simp at h
  · rw [cog_atom_alloc_full _ ty name (by omega)]
    exact ⟨rfl, ⟨fun _ => by omega, fun _ => rfl⟩, fun _ => rfl⟩

/-! ## AtomSpace: link creation -/

/-- C5 fails on the code: in the state reached by creating one atom (handle 1), the outgoing
array `[1, 7]` contains the handle 7, which refers to no existing atom, and yet
`cog_link_create` returns the non-zero handle 2 and raises `atom_count` from 1 to 2 and
`edge_count` from 0 to 2. -/
theorem cog_link_create_unknown_member_counterexample :
    (∃ o ∈ [1, 7],
        ¬ atom_exists (exec [Call.atom_alloc atom_type.ATOM_CONCEPT (some "cat")]).1 o) ∧
      (cog_link_create (exec [Call.atom_alloc atom_type.ATOM_CONCEPT (some "cat")]).1
        atom_type.ATOM_INHERITANCE [1, 7]).2 = 2 ∧
      (exec [Call.atom_alloc atom_type.ATOM_CONCEPT (some "cat")]).1.atom_count = 1 ∧
      (cog_link_create (exec [Call.atom_alloc atom_type.ATOM_CONCEPT (some "cat")]).1
        atom_type.ATOM_INHERITANCE [1, 7]).1.atom_count = 2 ∧
      (exec [Call.atom_alloc atom_type.ATOM_CONCEPT (some "cat")]).1.edge_count = 0 ∧
      (cog_link_create (exec [Call.atom_alloc atom_type.ATOM_CONCEPT (some "cat")]).1
        atom_type.ATOM_INHERITANCE [1, 7]).1.edge_count = 2 ∧
      ¬ ((cog_link_create (exec [Call.atom_alloc atom_type.ATOM_CONCEPT (some "cat")]).1
          atom_type.ATOM_INHERITANCE [1, 7]).2 = 0 ∧
        (cog_link_create (exec [Call.atom_alloc atom_type.ATOM_CONCEPT (some "cat")]).1
          atom_type.ATOM_INHERITANCE [1, 7]).1.atom_count =
          (exec [Call.atom_alloc atom_type.ATOM_CONCEPT (some "cat")]).1.atom_count ∧
        (cog_link_create (exec [Call.atom_alloc atom_type.ATOM_CONCEPT (some "cat")]).1
          atom_type.ATOM_INHERITANCE [1, 7]).1.edge_count =
          (exec [Call.atom_alloc atom_type.ATOM_CONCEPT (some "cat")]).1.edge_count) := by
  refine ⟨⟨7, by decide, by decide⟩, by decide, by decide, by decide, by decide, by decide,
    by decide⟩

/-- C5, amended: `cog_link_create` does not look at what its outgoing members refer to. In
every reachable state and for every outgoing array it returns 0 if and only if
`atom_count >= MAX_ATOMS`; when it returns 0 the AtomSpace (so `atom_count` and `edge_count`)
is unchanged; and with room in the atom table it returns a non-zero handle and adds one
atom, whether or not the members exist. -/
theorem cog_link_create_fails_iff_full (calls : List Call) (ty : atom_type)
    (outgoing : List Nat) :
    ((cog_link_create (exec calls).1 ty outgoing).2 = 0 ↔
        MAX_ATOMS ≤ (exec calls).1.atom_count) ∧
      ((cog_link_create (exec calls).1 ty outgoing).2 = 0 →
        (cog_link_create (exec calls).1 ty outgoing).1 = (exec calls).1) ∧
      ((exec calls).1.atom_count < MAX_ATOMS →
        (cog_link_create (exec calls).1 ty outgoing).2 ≠ 0 ∧
        (cog_link_create (exec calls).1 ty outgoing).1.atom_count =
          (exec calls).1.atom_count + 1) := by
  have hinv := (exec_inv calls).inv
  by_cases hroom : (exec calls).1.atom_count < MAX_ATOMS
  · have hr := cog_link_create_room _ ty outgoing hinv hroom
    have hcount : (cog_link_create (exec calls).1 ty outgoing).1.atom_count =
        (exec calls).1.atom_count + 1 := by
      rw [hr]
      simp only
      rw [(link_edges_atoms _ ty outgoing _).2.2, cog_atom_alloc_room _ ty none hinv hroom]
    have hne : (cog_link_create (exec calls).1 ty outgoing).2 ≠ 0 := by
      rw [hr]
      exact Nat.succ_ne_zero _
    exact ⟨⟨fun h => absurd h hne, fun h => by omega⟩, fun h => absurd h hne,
      fun _ => ⟨hne, hcount⟩⟩
  · rw [cog_link_create_full _ ty outgoing (by omega)]
    exact ⟨⟨fun _ => by omega, fun _ => rfl⟩, fun _ => rfl, fun h => absurd h hroom⟩

/-- C6: in a reachable state with `atom_count < MAX_ATOMS` and
`edge_count + n <= MAX_ATOMS`, where `n` is the length of the outgoing array,
`cog_link_create` returns a non-zero handle `L` greater than every value returned before,
adds one active atom of the given type with no name in the next free slot and leaves the
other atom records alone, and appends exactly `n` edge records, the i-th being
`(from = L, to = outgoing[i], type)`, active, in array order; earlier edge records are
unchanged. -/
theorem cog_link_create_records (calls : List Call) (ty : atom_type) (outgoing : List Nat)
    (hatoms : (exec calls).1.atom_count < MAX_ATOMS)
    (hedges : (exec calls).1.edge_count + outgoing.length ≤ MAX_ATOMS) :
    (cog_link_create (exec calls).1 ty outgoing).2 ≠ 0 ∧
      (∀ h ∈ (exec calls).2, h < (cog_link_create (exec calls).1 ty outgoing).2) ∧
      (cog_link_create (exec calls).1 ty outgoing).1.atom_count =
        (exec calls).1.atom_count + 1 ∧
      (cog_link_create (exec calls).1 ty outgoing).1.atoms (exec calls).1.atom_count =
        ⟨(cog_link_create (exec calls).1 ty outgoing).2, ty, none, none, 0, 1⟩ ∧
      (∀ i, i < (exec calls).1.atom_count →
        (cog_link_create (exec calls).1 ty outgoing).1.atoms i = (exec calls).1.atoms i) ∧
      (cog_link_create (exec calls).1 ty outgoing).1.edge_count =
        (exec calls).1.edge_count + outgoing.length ∧
      (∀ (i : Nat) (hi : i < outgoing.length),
        (cog_link_create (exec calls).1 ty outgoing).1.edges ((exec calls).1.edge_count + i) =
          ⟨(cog_link_create (exec calls).1 ty outgoing).2, outgoing.get ⟨i, hi⟩, ty, 1⟩) ∧
      (∀ j, j < (exec calls).1.edge_count →
        (cog_link_create (exec calls).1 ty outgoing).1.edges j = (exec calls).1.edges j) := by
  have hexec := exec_inv calls
  have hinv := hexec.inv
  have hle := hexec.le_next
  generalize exec calls = st at *
  obtain ⟨g, hs⟩ := st
  simp only at hinv hatoms hedges hle ⊢
  have ha := cog_atom_alloc_room g ty none hinv hatoms
  have hr := cog_link_create_room g ty outgoing hinv hatoms
  have hcount : (cog_atom_alloc g ty none).1.atom_count = g.atom_count + 1 := by rw [ha]
  have hedge : (cog_atom_alloc g ty none).1.edge_count = g.edge_count := by rw [ha]
  have hedges1 : (cog_atom_alloc g ty none).1.edges = g.edges := by rw [ha]
  have hatom : (cog_atom_alloc g ty none).1.atoms =
      Function.update g.atoms g.atom_count ⟨g.atom_count + 1, ty, none, none, 0, 1⟩ := by
    rw [ha]
  obtain ⟨e1, _, e3⟩ := link_edges_atoms (g.atom_count + 1) ty outgoing
    (cog_atom_alloc g ty none).1
  rw [hr]
  simp only
  refine ⟨Nat.succ_ne_zero _, ?_, by rw [e3, hcount], ?_, ?_, ?_, ?_, ?_⟩
  · intro h hh
    have h1 := hle h hh
    have h2 := hinv.next_eq
    omega
  · rw [e1, hatom]; simp
  · intro i hi
    rw [e1, hatom, Function.update_noteq (Nat.ne_of_lt hi)]
  · rw [link_edges_count _ ty outgoing (cog_atom_alloc g ty none).1
      (by rw [hedge]; exact hinv.edges_le), hedge]
    exact Nat.min_eq_right hedges
  · intro i hi
    have := link_edges_new (g.atom_count + 1) ty outgoing (cog_atom_alloc g ty none).1
      (by rw [hedge]; exact hedges) i hi
    rw [hedge] at this
    exact this
  · intro j hj
    rw [link_edges_old (g.atom_count + 1) ty outgoing (cog_atom_alloc g ty none).1 j
      (by rw [hedge]; exact hj), hedges1]

/-- C6, at a concrete run: after `cat` (1) and `animal` (2), the inheritance link `[1, 2]`
gets handle 3 and the two edges `(3, 1)` and `(3, 2)`. -/
theorem cog_link_create_records_witness :
    (cog_link_create
        (exec [Call.atom_alloc atom_type.ATOM_CONCEPT (some "cat"),
          Call.atom_alloc atom_type.ATOM_CONCEPT (some "animal")]).1
        atom_type.ATOM_INHERITANCE [1, 2]).2 = 3 ∧
      (cog_link_create
        (exec [Call.atom_alloc atom_type.ATOM_CONCEPT (some "cat"),
          Call.atom_alloc atom_type.ATOM_CONCEPT (some "animal")]).1
        atom_type.ATOM_INHERITANCE [1, 2]).1.edges 1 =
          ⟨3, 2, atom_type.ATOM_INHERITANCE, 1⟩ ∧
      (cog_link_create
        (exec [Call.atom_alloc atom_type.ATOM_CONCEPT (some "cat"),
          Call.atom_alloc atom_type.ATOM_CONCEPT (some "animal")]).1
        atom_type.ATOM_INHERITANCE [1, 2]).1.edge_count =
        (exec [Call.atom_alloc atom_type.ATOM_CONCEPT (some "cat"),
          Call.atom_alloc atom_type.ATOM_CONCEPT (some "animal")]).1.edge_count +
          [1, 2].length :=
  ⟨by decide, by decide,
    (cog_link_create_records
      [Call.atom_alloc atom_type.ATOM_CONCEPT (some "cat"),
        Call.atom_alloc atom_type.ATOM_CONCEPT (some "animal")]
      atom_type.ATOM_INHERITANCE [1, 2] (by decide) (by decide)).2.2.2.2.2.1⟩

theorem cog_link_create_counts (g : AtomSpace) (ty : atom_type) (out : List Nat)
    (hinv : AtomInv g) (hroom : g.atom_count < MAX_ATOMS) :
    (cog_link_create g ty out).2 = g.atom_count + 1 ∧
      (cog_link_create g ty out).1.atom_count = g.atom_count + 1 ∧
      (cog_link_create g ty out).1.edge_count = min MAX_ATOMS (g.edge_count + out.length) := by
  have ha := cog_atom_alloc_room g ty none hinv hroom
  have hcount : (cog_atom_alloc g ty none).1.atom_count = g.atom_count + 1 := by rw [ha]
  have hedge : (cog_atom_alloc g ty none).1.edge_count = g.edge_count := by rw [ha]
  rw [cog_link_create_room g ty out hinv hroom]
  simp only
  refine ⟨trivial, ?_, ?_⟩
  · rw [(link_edges_atoms _ ty out (cog_atom_alloc g ty none).1).2.2, hcount]
  · rw [link_edges_count _ ty out (cog_atom_alloc g ty none).1
      (by rw [hedge]; exact hinv.edges_le), hedge]

theorem partial_link_after (out : List Nat) (hlen : out.length = 999999) :
    (exec [Call.atom_alloc atom_type.ATOM_CONCEPT (some "cat"),
        Call.link_create atom_type.ATOM_LINK out]).1.atom_count = 2 ∧
      (exec [Call.atom_alloc atom_type.ATOM_CONCEPT (some "cat"),
        Call.link_create atom_type.ATOM_LINK out]).1.edge_count = 999999 ∧
      (cog_link_create
        (exec [Call.atom_alloc atom_type.ATOM_CONCEPT (some "cat"),
          Call.link_create atom_type.ATOM_LINK out]).1
        atom_type.ATOM_INHERITANCE [1, 1]).2 = 3 ∧
      (cog_link_create
        (exec [Call.atom_alloc atom_type.ATOM_CONCEPT (some "cat"),
          Call.link_create atom_type.ATOM_LINK out]).1
        atom_type.ATOM_INHERITANCE [1, 1]).1.atom_count = 3 ∧
      (cog_link_create
        (exec [Call.atom_alloc atom_type.ATOM_CONCEPT (some "cat"),
          Call.link_create atom_type.ATOM_LINK out]).1
        atom_type.ATOM_INHERITANCE [1, 1]).1.edge_count = 1000000 := by
  have hinv2 := (exec_inv [Call.atom_alloc atom_type.ATOM_CONCEPT (some "cat"),
    Call.link_create atom_type.ATOM_LINK out]).inv
  have hinv1 := (exec_inv [Call.atom_alloc atom_type.ATOM_CONCEPT (some "cat")]).inv
  have hM : MAX_ATOMS = 1000000 := rfl
  have hstep : (exec [Call.atom_alloc atom_type.ATOM_CONCEPT (some "cat"),
      Call.link_create atom_type.ATOM_LINK out]).1 =
      (cog_link_create (exec [Call.atom_alloc atom_type.ATOM_CONCEPT (some "cat")]).1
        atom_type.ATOM_LINK out).1 := rfl
  have h1a : (exec [Call.atom_alloc atom_type.ATOM_CONCEPT (some "cat")]).1.atom_count = 1 :=
    rfl
  have h1e : (exec [Call.atom_alloc atom_type.ATOM_CONCEPT (some "cat")]).1.edge_count = 0 :=
    rfl
  obtain ⟨_, c2, c3⟩ := cog_link_create_counts _ atom_type.ATOM_LINK out hinv1
    (by rw [h1a, hM]; omega)
  rw [← hstep, h1a] at c2
  rw [← hstep, h1e, hlen, hM] at c3
  have c3a : (exec [Call.atom_alloc atom_type.ATOM_CONCEPT (some "cat"),
      Call.link_create atom_type.ATOM_LINK out]).1.edge_count = 999999 := by
    rw [c3]; omega
  obtain ⟨d1, d2, d3⟩ := cog_link_create_counts _ atom_type.ATOM_INHERITANCE [1, 1] hinv2
    (by rw [c2, hM]; omega)
  rw [c2] at d1 d2
  rw [c3a, hM] at d3
  refine ⟨c2, c3a, d1, d2, ?_⟩
  rw [d3]
  simp only [List.length_cons, List.length_nil]
  omega

/-- C7 fails on the code. After the run `edge_table_nearly_full` the edge table holds 999,999
of its 1,000,000 records. `cog_link_create` with the two-member outgoing array `[1, 1]` then
returns the non-zero handle 3 and records the link atom, but only one of the two edges
(`edge_count` goes from 999,999 to 1,000,000): the link is recorded in part. -/
theorem cog_link_create_partial_link :
    (exec edge_table_nearly_full).1.atom_count = 2 ∧
      (exec edge_table_nearly_full).1.edge_count = 999999 ∧
      (cog_link_create (exec edge_table_nearly_full).1
        atom_type.ATOM_INHERITANCE [1, 1]).2 = 3 ∧
      (cog_link_create (exec edge_table_nearly_full).1
        atom_type.ATOM_INHERITANCE [1, 1]).1.atom_count = 3 ∧
      (cog_link_create (exec edge_table_nearly_full).1
        atom_type.ATOM_INHERITANCE [1, 1]).1.edge_count = 1000000 := by
  unfold edge_table_nearly_full
  exact partial_link_after (List.replicate 999999 1) (List.length_replicate 999999 1)

/-! ## ECAN: the search loop -/

theorem av_search_some (avs : Nat → av_entry) (atom : Nat) (n : Nat) :
    ∀ i k, av_search avs atom n i = some k →
      i ≤ k ∧ k < i + n ∧ av_match (avs k) atom = true ∧
        ∀ j, i ≤ j → j < k → av_match (avs j) atom = false := by
  induction n with
  | zero => intro i k h; simp [av_search] at h
  | succ n ih =>
    intro i k h
    simp only [av_search] at h
    by_cases hm : av_match (avs i) atom = true
    · rw [if_pos hm] at h
      have hk : i = k := Option.some.inj h
      subst hk
      exact ⟨Nat.le_refl _, by omega, hm, fun j h1 h2 => by omega⟩
    · rw [if_neg hm] at h
      obtain ⟨h1, h2, h3, h4⟩ := ih (i + 1) k h
      refine ⟨by omega, by omega, h3, ?_⟩
      intro j hj1 hj2
      by_cases hji : j = i
      · subst hji; simpa using hm
      · exact h4 j (by omega) hj2

theorem av_search_none (avs : Nat → av_entry) (atom : Nat) (n : Nat) :
    ∀ i, av_search avs atom n i = none →
      ∀ j, i ≤ j → j < i + n → av_match (avs j) atom = false := by
  induction n with
  | zero => intro i _ j h1 h2; omega
  | succ n ih =>
    intro i h j hj1 hj2
    simp only [av_search] at h
    by_cases hm : av_match (avs i) atom = true
    · rw [if_pos hm] at h; exact absurd h (by simp)
    · rw [if_neg hm] at h
      by_cases hji : j = i
      · subst hji; simpa using hm
      · exact ih (i + 1) h j (by omega) (by omega)

theorem av_search_first (avs : Nat → av_entry) (atom : Nat) (n : Nat) :
    ∀ i k, i ≤ k → k < i + n → av_match (avs k) atom = true →
      (∀ j, i ≤ j → j < k → av_match (avs j) atom = false) →
      av_search avs atom n i = some k := by
  induction n with
  | zero => intro i k h1 h2; omega
  | succ n ih =>
    intro i k h1 h2 hm hbefore
    simp only [av_search]
    by_cases hik : i = k
    · subst hik; rw [if_pos hm]
    · have hne : ¬ av_match (avs i) atom = true := by
        rw [hbefore i (Nat.le_refl _) (by omega)]; simp
      rw [if_neg hne]
      exact ih (i + 1) k (by omega) (by omega) hm (fun j hj1 hj2 => hbefore j (by omega) hj2)

theorem av_match_iff (e : av_entry) (atom : Nat) :
    av_match e atom = true ↔ e.active ≠ 0 ∧ e.atom = atom := by
  simp [av_match]

theorem av_find_none_iff (g : EcanState) (atom : Nat) :
    av_find g atom = none ↔ ¬ has_av g atom := by
  constructor
  · intro h ⟨i, hi, hact, hatom⟩
    have := av_search_none g.avs atom g.av_count 0 h i (Nat.zero_le _) (by omega)
    rw [(av_match_iff _ _).mpr ⟨hact, hatom⟩] at this
    exact absurd this (by simp)
  · intro h
    cases hf : av_find g atom with
    | none => rfl
    | some k =>
      obtain ⟨_, h2, h3, _⟩ := av_search_some g.avs atom g.av_count 0 k hf
      exact absurd ⟨k, by omega, (av_match_iff _ _).mp h3⟩ h

theorem has_av_find (g : EcanState) (atom : Nat) (h : has_av g atom) :
    ∃ k, av_find g atom = some k := by
  cases hf : av_find g atom with
  | none => exact absurd h ((av_find_none_iff g atom).mp hf)
  | some k => exact ⟨k, rfl⟩

/-! ## ECAN: `dtesn_sched_set_av` and `dtesn_sched_get_av` -/

theorem set_av_found (g : EcanState) (atom : Nat) (v : attention_value) (k : Nat)
    (hf : av_find g atom = some k) :
    dtesn_sched_set_av g atom (some v) =
      ({ g with avs := Function.update g.avs k { g.avs k with av := v } }, 0) := by
  simp only [dtesn_sched_set_av, hf]

theorem set_av_append (g : EcanState) (atom : Nat) (v : attention_value)
    (hf : av_find g atom = none) (hroom : g.av_count < MAX_AVS) :
    dtesn_sched_set_av g atom (some v) =
      ({ g with
          av_count := g.av_count + 1
          avs := Function.update g.avs g.av_count ⟨atom, v, 1⟩ },
        0) := by
  simp only [dtesn_sched_set_av, hf, ge_iff_le, Nat.not_le.mpr hroom, if_false]

theorem set_av_full (g : EcanState) (atom : Nat) (v : attention_value)
    (hf : av_find g atom = none) (hfull : MAX_AVS ≤ g.av_count) :
    dtesn_sched_set_av g atom (some v) = (g, -1) := by
  simp only [dtesn_sched_set_av, hf, ge_iff_le, hfull, if_true]

theorem set_av_then_find (g : EcanState) (atom : Nat) (v : attention_value)
    (hret : (dtesn_sched_set_av g atom (some v)).2 = 0) :
    ∃ k, av_find (dtesn_sched_set_av g atom (some v)).1 atom = some k ∧
      ((dtesn_sched_set_av g atom (some v)).1.avs k).av = v := by
  cases hf : av_find g atom with
  | some k =>
    obtain ⟨_, h2, h3, h4⟩ := av_search_some g.avs atom g.av_count 0 k hf
    rw [set_av_found g atom v k hf]
    refine ⟨k, ?_, by simp⟩
    apply av_search_first _ atom g.av_count 0 k (Nat.zero_le _) h2
    · have := (av_match_iff _ _).mp h3
      simp only [Function.update_same]
      exact (av_match_iff _ _).mpr this
    · intro j hj1 hj2
      simp only
      rw [Function.update_noteq (Nat.ne_of_lt hj2)]
      exact h4 j hj1 hj2
  | none =>
    by_cases hroom : g.av_count < MAX_AVS
    · rw [set_av_append g atom v hf hroom]
      refine ⟨g.av_count, ?_, by simp⟩
      apply av_search_first _ atom (g.av_count + 1) 0 g.av_count (Nat.zero_le _) (by omega)
      · simp [av_match]
      · intro j hj1 hj2
        simp only
        rw [Function.update_noteq (Nat.ne_of_lt hj2)]
        exact av_search_none g.avs atom g.av_count 0 hf j hj1 (by omega)
    · rw [set_av_full g atom v hf (by omega)] at hret
      simp at hret

/-- C8: attention round trip. For every ledger state, handle and attention value `av`, if
`dtesn_sched_set_av(handle, &av)` returns 0 then a `dtesn_sched_get_av(handle, &out)` made
right after it returns 0 and leaves exactly `av` in `out`, whatever `out` held before. -/
theorem set_get_round_trip (g : EcanState) (atom : Nat) (av out : attention_value)
    (hret : (dtesn_sched_set_av g atom (some av)).2 = 0) :
    dtesn_sched_get_av (dtesn_sched_set_av g atom (some av)).1 atom (some out) =
      (0, some av) := by
  obtain ⟨k, hk, hv⟩ := set_av_then_find g atom av hret
  simp only [dtesn_sched_get_av, hk, hv]

/-- C8, at a concrete ledger: handle 7 already has the value (100, 50, 10); setting it to
(60, 50, 15) returns 0 and the following read gives (60, 50, 15). -/
theorem set_get_round_trip_witness :
    (dtesn_sched_set_av
        (ecanExec [EcanCall.set_av 3 (some ⟨30, 25, 10⟩),
          EcanCall.set_av 7 (some ⟨100, 50, 10⟩)])
        7 (some ⟨60, 50, 15⟩)).2 = 0 ∧
      dtesn_sched_get_av
        (dtesn_sched_set_av
          (ecanExec [EcanCall.set_av 3 (some ⟨30, 25, 10⟩),
            EcanCall.set_av 7 (some ⟨100, 50, 10⟩)])
          7 (some ⟨60, 50, 15⟩)).1 7 (some ⟨0, 0, 0⟩) =
        (0, some ⟨60, 50, 15⟩) :=
  ⟨by decide,
    set_get_round_trip
      (ecanExec [EcanCall.set_av 3 (some ⟨30, 25, 10⟩),
        EcanCall.set_av 7 (some ⟨100, 50, 10⟩)])
      7 ⟨60, 50, 15⟩ ⟨0, 0, 0⟩ (by decide)⟩

/-! ## ECAN: one entry per handle -/

theorem tick_loop_keys (avs : Nat → av_entry) (n : Nat) :
    ∀ i, ((tick_loop avs n).1 i).atom = (avs i).atom ∧
      ((tick_loop avs n).1 i).active = (avs i).active := by
  induction n with
  | zero => intro i; exact ⟨rfl, rfl⟩
  | succ n ih =>
    intro i
    simp only [tick_loop]
    split
    · by_cases hin : i = n
      · subst hin
        simp only [Function.update_same]
        exact ih i
      · simp only [Function.update_noteq hin]
        exact ih i
    · exact ih i

theorem ledgerInv_of_keys (g g1 : EcanState) (hinv : LedgerInv g)
    (hcount : g1.av_count = g.av_count)
    (hkeys : ∀ i, (g1.avs i).atom = (g.avs i).atom ∧ (g1.avs i).active = (g.avs i).active) :
    LedgerInv g1 := by
  intro i j hi hj hai haj hij
  rw [hcount] at hi hj
  rw [(hkeys i).2] at hai
  rw [(hkeys j).2] at haj
  rw [(hkeys i).1, (hkeys j).1] at hij
  exact hinv i j hi hj hai haj hij

theorem set_av_inv (g : EcanState) (atom : Nat) (av : Option attention_value)
    (hinv : LedgerInv g) : LedgerInv (dtesn_sched_set_av g atom av).1 := by
  cases av with
  | none => exact hinv
  | some v =>
    cases hf : av_find g atom with
    | some k =>
      rw [set_av_found g atom v k hf]
      refine ledgerInv_of_keys g _ hinv rfl ?_
      intro i
      by_cases hik : i = k
      · subst hik; simp
      · simp only
        rw [Function.update_noteq hik]
        exact ⟨rfl, rfl⟩
    | none =>
      by_cases hroom : g.av_count < MAX_AVS
      · rw [set_av_append g atom v hf hroom]
        have hno := av_search_none g.avs atom g.av_count 0 hf
        have hold : ∀ i, i < g.av_count → (g.avs i).active ≠ 0 → (g.avs i).atom ≠ atom := by
          intro i hi hact hatom
          have := hno i (Nat.zero_le _) (by omega)
          rw [(av_match_iff _ _).mpr ⟨hact, hatom⟩] at this
          exact absurd this (by simp)
        intro i j hi hj hai haj hij
        simp only at hi hj hai haj hij
        by_cases hic : i = g.av_count <;> by_cases hjc : j = g.av_count
        · omega
        · rw [hic, Function.update_same, Function.update_noteq hjc] at hij
          rw [Function.update_noteq hjc] at haj
          exact absurd hij.symm (hold j (by omega) haj)
        · rw [hjc, Function.update_same, Function.update_noteq hic] at hij
          rw [Function.update_noteq hic] at hai
          exact absurd hij (hold i (by omega) hai)
        · rw [Function.update_noteq hic, Function.update_noteq hjc] at hij
          rw [Function.update_noteq hic] at hai
          rw [Function.update_noteq hjc] at haj
          exact hinv i j (by omega) (by omega) hai haj hij
      · rw [set_av_full g atom v hf (by omega)]
        exact hinv

theorem ecanCall_inv (g : EcanState) (c : EcanCall) (hinv : LedgerInv g) :
    LedgerInv (c.run g) := by
  cases c with
  | init us =>
    simp only [EcanCall.run, dtesn_sched_init]
    split
    · exact hinv
    · intro i j hi; exact absurd hi (Nat.not_lt_zero i)
  | tick =>
    simp only [EcanCall.run, dtesn_sched_tick]
    split
    · exact hinv
    · exact ledgerInv_of_keys g _ hinv rfl (tick_loop_keys g.avs g.av_count)
  | set_av a av => exact set_av_inv g a av hinv
  | get_av a av => exact hinv
  | spread_importance src r =>
    simp only [EcanCall.run, dtesn_sched_spread_importance]
    split <;> exact hinv

theorem ecanExecFrom_inv (calls : List EcanCall) :
    ∀ g, LedgerInv g → LedgerInv (ecanExecFrom g calls) := by
  induction calls with
  | nil => intro g h; exact h
  | cons c cs ih => intro g h; exact ih _ (ecanCall_inv g c h)

theorem ecanExec_inv (calls : List EcanCall) : LedgerInv (ecanExec calls) :=
  ecanExecFrom_inv calls g_ecan (fun i _ hi => absurd hi (Nat.not_lt_zero i))

theorem ecanExecFrom_append (l1 l2 : List EcanCall) :
    ∀ g, ecanExecFrom g (l1 ++ l2) = ecanExecFrom (ecanExecFrom g l1) l2 := by
  induction l1 with
  | nil => intro g; rfl
  | cons c cs ih => intro g; exact ih (c.run g)

theorem ledger_fill_state (v : attention_value) (n : Nat) (hn : n ≤ MAX_AVS) :
    (ecanExec (ledger_fill_calls v n)).av_count = n ∧
      ∀ i, i < n → (ecanExec (ledger_fill_calls v n)).avs i = ⟨i + 1, v, 1⟩ := by
  induction n with
  | zero => exact ⟨rfl, fun i hi => absurd hi (Nat.not_lt_zero i)⟩
  | succ n ih =>
    obtain ⟨hc, hs⟩ := ih (by omega)
    have hstep : ecanExec (ledger_fill_calls v (n + 1)) =
        (dtesn_sched_set_av (ecanExec (ledger_fill_calls v n)) (n + 1) (some v)).1 := by
      simp only [ecanExec, ledger_fill_calls, List.range_succ, List.map_append,
        ecanExecFrom_append, List.map_cons, List.map_nil, ecanExecFrom, EcanCall.run]
    have hf : av_find (ecanExec (ledger_fill_calls v n)) (n + 1) = none := by
      rw [av_find_none_iff]
      rintro ⟨i, hi, _, hatom⟩
      rw [hc] at hi
      rw [hs i hi] at hatom
      simp only at hatom
      omega
    rw [hstep, set_av_append _ (n + 1) v hf (by omega)]
    refine ⟨by simp only [hc], ?_⟩
    intro i hi
    simp only
    rw [hc]
    by_cases hin : i = n
    · rw [hin, Function.update_same]
    · rw [Function.update_noteq hin]
      exact hs i (by omega)

theorem full_ledger_general (g : EcanState) (v w : attention_value)
    (hc : g.av_count = 1000000)
    (hs : ∀ i, i < 1000000 → g.avs i = ⟨i + 1, v, 1⟩) :
    g.av_count = 1000000 ∧
      ¬ has_av g 1000001 ∧
      dtesn_sched_set_av g 1000001 (some w) = (g, -1) ∧
      (dtesn_sched_set_av g 1000001 (some w)).1.av_count ≠ g.av_count + 1 := by
  have hno : ¬ has_av g 1000001 := by
    rintro ⟨i, hi, _, hatom⟩
    rw [hc] at hi
    rw [hs i hi] at hatom
    simp only at hatom
    omega
  have hfull : MAX_AVS ≤ g.av_count := by
    rw [hc]
    exact Nat.le_refl _
  have hset := set_av_full g 1000001 w ((av_find_none_iff _ _).mpr hno) hfull
  refine ⟨hc, hno, hset, ?_⟩
  rw [hset]
  simp

/-- C9 fails on the code at a full ledger. `full_ledger` is reachable and holds 1,000,000
entries, none for the handle 1,000,001; `dtesn_sched_set_av` on that handle returns -1 and
leaves the ledger as it is, so `av_count` does not increase by 1. -/
theorem set_av_full_ledger_counterexample :
    EcanReachable full_ledger ∧
      full_ledger.av_count = 1000000 ∧
      ¬ has_av full_ledger 1000001 ∧
      dtesn_sched_set_av full_ledger 1000001 (some ⟨1, 0, 0⟩) = (full_ledger, -1) ∧
      (dtesn_sched_set_av full_ledger 1000001 (some ⟨1, 0, 0⟩)).1.av_count ≠
        full_ledger.av_count + 1 := by
  have h := ledger_fill_state ⟨1, 0, 0⟩ 1000000 (Nat.le_refl _)
  have hfl : full_ledger = ecanExec (ledger_fill_calls ⟨1, 0, 0⟩ 1000000) := by
    unfold full_ledger
    rfl
  rw [← hfl] at h
  exact ⟨⟨_, hfl.symm⟩, full_ledger_general full_ledger ⟨1, 0, 0⟩ ⟨1, 0, 0⟩ h.1 h.2⟩

/-- C9, amended. In every reachable ledger state no two active entries carry the same atom
handle. `dtesn_sched_set_av` on a handle that has an entry returns 0 and overwrites that
entry's value in place: `av_count` is unchanged and every other slot is unchanged. On a
handle without an entry it returns 0, writes the new active entry into slot `av_count` and
increases `av_count` by exactly 1, leaving every other slot unchanged, provided
`av_count < MAX_AVS`; when the ledger is full it returns -1 and changes nothing. -/
theorem ledger_upsert (calls : List EcanCall) (atom : Nat) (v : attention_value) :
    (∀ i j, i < (ecanExec calls).av_count → j < (ecanExec calls).av_count →
        ((ecanExec calls).avs i).active ≠ 0 → ((ecanExec calls).avs j).active ≠ 0 →
        ((ecanExec calls).avs i).atom = ((ecanExec calls).avs j).atom → i = j) ∧
      (has_av (ecanExec calls) atom →
        (dtesn_sched_set_av (ecanExec calls) atom (some v)).2 = 0 ∧
        (dtesn_sched_set_av (ecanExec calls) atom (some v)).1.av_count =
          (ecanExec calls).av_count ∧
        ∃ k, k < (ecanExec calls).av_count ∧ ((ecanExec calls).avs k).active ≠ 0 ∧
          ((ecanExec calls).avs k).atom = atom ∧
          (dtesn_sched_set_av (ecanExec calls) atom (some v)).1.avs k =
            { (ecanExec calls).avs k with av := v } ∧
          ∀ i, i ≠ k →
            (dtesn_sched_set_av (ecanExec calls) atom (some v)).1.avs i =
              (ecanExec calls).avs i) ∧
      (¬ has_av (ecanExec calls) atom → (ecanExec calls).av_count < MAX_AVS →
        (dtesn_sched_set_av (ecanExec calls) atom (some v)).2 = 0 ∧
        (dtesn_sched_set_av (ecanExec calls) atom (some v)).1.av_count =
          (ecanExec calls).av_count + 1 ∧
        (dtesn_sched_set_av (ecanExec calls) atom (some v)).1.avs (ecanExec calls).av_count =
          ⟨atom, v, 1⟩ ∧
        ∀ i, i ≠ (ecanExec calls).av_count →
          (dtesn_sched_set_av (ecanExec calls) atom (some v)).1.avs i =
            (ecanExec calls).avs i) ∧
      (¬ has_av (ecanExec calls) atom → MAX_AVS ≤ (ecanExec calls).av_count →
        dtesn_sched_set_av (ecanExec calls) atom (some v) = (ecanExec calls, -1)) := by
  refine ⟨ecanExec_inv calls, ?_, ?_, ?_⟩
  · intro h
    obtain ⟨k, hk⟩ := has_av_find _ atom h
    obtain ⟨_, h2, h3, _⟩ := av_search_some _ atom _ 0 k hk
    have hm := (av_match_iff _ _).mp h3
    rw [set_av_found _ atom v k hk]
    refine ⟨rfl, rfl, k, by omega, hm.1, hm.2, by simp, ?_⟩
    intro i hik
    simp only
    rw [Function.update_noteq hik]
  · intro h hroom
    rw [set_av_append _ atom v ((av_find_none_iff _ _).mpr h) hroom]
    refine ⟨rfl, rfl, by simp, ?_⟩
    intro i hi
    simp only
    rw [Function.update_noteq hi]
  · intro h hfull
    exact set_av_full _ atom v ((av_find_none_iff _ _).mpr h) hfull

/-- C10 fails on the code: the attention value (50, -1, -1) has a negative `lti` and a
negative `vlti`, and `dtesn_sched_set_av` on the initial ledger returns 0 for it and stores
it as the entry of handle 1. -/
theorem set_av_out_of_range_counterexample :
    (⟨50, -1, -1⟩ : attention_value).lti < 0 ∧
      (⟨50, -1, -1⟩ : attention_value).vlti < 0 ∧
      (dtesn_sched_set_av g_ecan 1 (some ⟨50, -1, -1⟩)).2 = 0 ∧
      g_ecan.av_count = 0 ∧
      (dtesn_sched_set_av g_ecan 1 (some ⟨50, -1, -1⟩)).1.av_count = 1 ∧
      (dtesn_sched_set_av g_ecan 1 (some ⟨50, -1, -1⟩)).1.avs 0 = ⟨1, ⟨50, -1, -1⟩, 1⟩ := by
  refine ⟨by norm_num, by norm_num, by decide, rfl, by decide, by decide⟩

/-- C10, amended. `dtesn_sched_set_av` compares `sti`, `lti` and `vlti` with no bound. For
every ledger, handle and attention value it returns a non-zero value exactly when the handle
has no entry and the ledger is full (`av_count >= MAX_AVS`); it then returns -1 and leaves
the ledger unchanged, as it does for a `NULL` attention value. In every other case it returns
0 and the value is stored as given: a read of the handle right after yields it. -/
theorem set_av_error_iff (g : EcanState) (atom : Nat) (v out : attention_value) :
    ((dtesn_sched_set_av g atom (some v)).2 ≠ 0 ↔
        ¬ has_av g atom ∧ MAX_AVS ≤ g.av_count) ∧
      ((dtesn_sched_set_av g atom (some v)).2 ≠ 0 →
        dtesn_sched_set_av g atom (some v) = (g, -1)) ∧
      ((dtesn_sched_set_av g atom (some v)).2 = 0 →
        dtesn_sched_get_av (dtesn_sched_set_av g atom (some v)).1 atom (some out) =
          (0, some v)) ∧
      dtesn_sched_set_av g atom none = (g, -1) := by
  have hget : (dtesn_sched_set_av g atom (some v)).2 = 0 →
      dtesn_sched_get_av (dtesn_sched_set_av g atom (some v)).1 atom (some out) =
        (0, some v) := by
    intro hret
    obtain ⟨k, hk, hv⟩ := set_av_then_find g atom v hret
    simp only [dtesn_sched_get_av, hk, hv]
  refine ⟨?_, ?_, hget, rfl⟩
  · cases hf : av_find g atom with
    | some k =>
      have hhas : has_av g atom := by
        by_contra hno
        rw [(av_find_none_iff g atom).mpr hno] at hf
        exact absurd hf (by simp)
      rw [set_av_found g atom v k hf]
      exact ⟨fun h => absurd rfl h, fun h => absurd hhas h.1⟩
    | none =>
      have hno := (av_find_none_iff g atom).mp hf
      by_cases hroom : g.av_count < MAX_AVS
      · rw [set_av_append g atom v hf hroom]
        exact ⟨fun h => absurd rfl h, fun h => by omega⟩
      · rw [set_av_full g atom v hf (by omega)]
        exact ⟨fun _ => ⟨hno, by omega⟩, fun _ => by simp⟩
  · intro hret
    cases hf : av_find g atom with
    | some k =>
      rw [set_av_found g atom v k hf] at hret
      exact absurd rfl hret
    | none =>
      by_cases hroom : g.av_count < MAX_AVS
      · rw [set_av_append g atom v hf hroom] at hret
        exact absurd rfl hret
      · exact set_av_full g atom v hf (by omega)

/-! ## ECAN: reading a handle without an entry -/

/-- C11: for every ledger and every handle that has no active entry, `dtesn_sched_get_av`
returns the negative value -1 and leaves the output attention value as it was (no default is
written); with a `NULL` output pointer it returns -1 as well. The function only reads the
ledger: the ledger after the call is the ledger before it. -/
theorem get_av_not_found (g : EcanState) (atom : Nat) (out : attention_value)
    (hno : ¬ has_av g atom) :
    dtesn_sched_get_av g atom (some out) = (-1, some out) ∧
      dtesn_sched_get_av g atom none = (-1, none) ∧
      (dtesn_sched_get_av g atom (some out)).1 < 0 ∧
      EcanCall.run g (EcanCall.get_av atom (some out)) = g := by
  have hf := (av_find_none_iff g atom).mpr hno
  refine ⟨?_, rfl, ?_, rfl⟩
  · simp only [dtesn_sched_get_av, hf]
  · simp only [dtesn_sched_get_av, hf]
    decide

/-- C11, at a concrete ledger: only handle 3 has an entry; reading handle 7 into an output
that holds (9, 8, 7) returns -1 and the output still holds (9, 8, 7). -/
theorem get_av_not_found_witness :
    ¬ has_av (ecanExec [EcanCall.set_av 3 (some ⟨30, 25, 10⟩)]) 7 ∧
      dtesn_sched_get_av (ecanExec [EcanCall.set_av 3 (some ⟨30, 25, 10⟩)]) 7
        (some ⟨9, 8, 7⟩) = (-1, some ⟨9, 8, 7⟩) :=
  ⟨by decide,
    (get_av_not_found (ecanExec [EcanCall.set_av 3 (some ⟨30, 25, 10⟩)]) 7 ⟨9, 8, 7⟩
      (by decide)).1⟩

/-! ## Binary32 rounding and the decay of one `sti` -/

theorem int_log_eq (a : ℚ) (e : ℤ) (ha : 0 < a) (h1 : (2 : ℚ) ^ e ≤ a)
    (h2 : a < (2 : ℚ) ^ (e + 1)) : Int.log 2 a = e := by
  have hb : 1 < 2 := by norm_num
  have hle : e ≤ Int.log 2 a := (Int.zpow_le_iff_le_log hb ha).mp (by exact_mod_cast h1)
  have hlt : Int.log 2 a < e + 1 := (Int.lt_zpow_iff_log_lt hb ha).mp (by exact_mod_cast h2)
  omega

theorem round_half_even_floor (t : ℚ) :
    round_half_even t = ⌊t⌋ ∨ (round_half_even t = ⌊t⌋ + 1 ∧ 1 / 2 ≤ t - ⌊t⌋) := by
  unfold round_half_even
  by_cases h1 : t - ⌊t⌋ < 1 / 2
  · left; rw [if_pos h1]
  · rw [if_neg h1]
    have h1' : 1 / 2 ≤ t - ⌊t⌋ := not_lt.mp h1
    by_cases h2 : 1 / 2 < t - ⌊t⌋
    · right; rw [if_pos h2]; exact ⟨rfl, h1'⟩
    · rw [if_neg h2]
      by_cases h3 : ⌊t⌋ % 2 = 0
      · left; rw [if_pos h3]
      · right; rw [if_neg h3]; exact ⟨rfl, h1'⟩

theorem round_half_even_le (t : ℚ) (m : ℤ) (h : t ≤ m) : round_half_even t ≤ m := by
  have hf : ⌊t⌋ ≤ m := by
    have : (⌊t⌋ : ℚ) ≤ m := (Int.floor_le t).trans h
    exact_mod_cast this
  rcases round_half_even_floor t with h1 | ⟨h1, h2⟩
  · rw [h1]; exact hf
  · rw [h1]
    have hlt : (⌊t⌋ : ℚ) < m := by linarith
    have : ⌊t⌋ < m := by exact_mod_cast hlt
    omega

theorem le_round_half_even (t : ℚ) (m : ℤ) (h : (m : ℚ) ≤ t) : m ≤ round_half_even t := by
  have hf : m ≤ ⌊t⌋ := Int.le_floor.mpr h
  rcases round_half_even_floor t with h1 | ⟨h1, _⟩
  · rw [h1]; exact hf
  · rw [h1]; omega

theorem round_half_even_eq (t : ℚ) (n : ℤ) (h : |t - n| < 1 / 2) : round_half_even t = n := by
  have habs := abs_lt.mp h
  by_cases hge : (n : ℚ) ≤ t
  · have hfl : ⌊t⌋ = n := by
      rw [Int.floor_eq_iff]
      constructor
      · exact hge
      · linarith [habs.2]
    unfold round_half_even
    rw [hfl, if_pos (by linarith [habs.2])]
  · have hlt : t < n := not_le.mp hge
    have hfl : ⌊t⌋ = n - 1 := by
      rw [Int.floor_eq_iff]
      push_cast
      constructor
      · linarith [habs.1]
      · linarith
    unfold round_half_even
    rw [hfl]
    push_cast
    rw [if_neg (by linarith [habs.1]), if_pos (by linarith [habs.1])]
    ring

theorem f32_round_eq (q : ℚ) (e n : ℤ) (hq : q ≠ 0) (h1 : (2 : ℚ) ^ e ≤ |q|)
    (h2 : |q| < (2 : ℚ) ^ (e + 1)) (hlo : -126 ≤ e)
    (hn : |q / 2 ^ (e - 23) - n| < 1 / 2) : f32_round q = n * 2 ^ (e - 23) := by
  have he : f32_exponent q = e := by
    unfold f32_exponent
    rw [int_log_eq |q| e (abs_pos.mpr hq) h1 h2]
    exact max_eq_left hlo
  unfold f32_round
  rw [he, round_half_even_eq _ n hn]


theorem f32_round_eq_subnormal (q : ℚ) (n : ℤ) (hq : q ≠ 0) (h : |q| < (2 : ℚ) ^ (-126 : ℤ))
    (hn : |q / 2 ^ (-149 : ℤ) - n| < 1 / 2) : f32_round q = n * 2 ^ (-149 : ℤ) := by
  have hlog : Int.log 2 |q| < -126 :=
    (Int.lt_zpow_iff_log_lt (by norm_num) (abs_pos.mpr hq)).mp (by exact_mod_cast h)
  have he : f32_exponent q = -126 := by
    unfold f32_exponent
    exact max_eq_right hlog.le
  unfold f32_round
  rw [he, show (-126 : ℤ) - 23 = -149 by norm_num, round_half_even_eq _ n hn]

theorem f32_round_zero : f32_round 0 = 0 := by
  unfold f32_round
  rw [zero_div, round_half_even_eq 0 0 (by norm_num)]
  simp

theorem f32_exponent_mono (x y : ℚ) (hy : y ≠ 0) (hle : |y| ≤ |x|) :
    f32_exponent y ≤ f32_exponent x := by
  unfold f32_exponent
  exact max_le_max (Int.log_mono_right (abs_pos.mpr hy) hle) (le_refl _)

theorem f32_multiple (x y : ℚ) (hx : is_f32 x) (hy : y ≠ 0) (hle : |y| ≤ |x|) :
    ∃ m : ℤ, x = m * 2 ^ (f32_exponent y - 23) := by
  have hmono := f32_exponent_mono x y hy hle
  obtain ⟨d, hd⟩ := Int.le.dest hmono
  have hx1 : f32_round x = x := hx.1
  unfold f32_round at hx1
  refine ⟨round_half_even (x / 2 ^ (f32_exponent x - 23)) * 2 ^ d, ?_⟩
  have hpow : (2 : ℚ) ^ (f32_exponent x - 23) = 2 ^ d * 2 ^ (f32_exponent y - 23) := by
    rw [← hd, show f32_exponent y + (d : ℤ) - 23 = (d : ℤ) + (f32_exponent y - 23) by ring,
      zpow_add₀ (by norm_num : (2 : ℚ) ≠ 0), zpow_natCast]
  rw [hpow] at hx1
  push_cast
  rw [mul_assoc]
  rw [← hpow] at hx1 ⊢
  exact hx1.symm

theorem f32_round_shrink (x c : ℚ) (hx : is_f32 x) (hc0 : 0 ≤ c) (hc1 : c ≤ 1) :
    (0 ≤ x → 0 ≤ f32_round (x * c) ∧ f32_round (x * c) ≤ x) ∧
      (x ≤ 0 → x ≤ f32_round (x * c) ∧ f32_round (x * c) ≤ 0) := by
  by_cases hy : x * c = 0
  · rw [hy, f32_round_zero]
    exact ⟨fun h => ⟨le_refl _, h⟩, fun h => ⟨h, le_refl _⟩⟩
  · have habs : |x * c| ≤ |x| := by
      rw [abs_mul, abs_of_nonneg hc0]
      exact mul_le_of_le_one_right (abs_nonneg x) hc1
    obtain ⟨m, hm⟩ := f32_multiple x (x * c) hx hy habs
    have hu : (0 : ℚ) < 2 ^ (f32_exponent (x * c) - 23) := zpow_pos (by norm_num) _
    have hval : f32_round (x * c) =
        (round_half_even (x * c / 2 ^ (f32_exponent (x * c) - 23)) : ℚ) *
          2 ^ (f32_exponent (x * c) - 23) := rfl
    constructor
    · intro h0
      have hy0 : 0 ≤ x * c := mul_nonneg h0 hc0
      have hyx : x * c ≤ x := mul_le_of_le_one_right h0 hc1
      have h1 : (0 : ℤ) ≤ round_half_even (x * c / 2 ^ (f32_exponent (x * c) - 23)) :=
        le_round_half_even _ 0 (by push_cast; exact div_nonneg hy0 hu.le)
      have h2 : round_half_even (x * c / 2 ^ (f32_exponent (x * c) - 23)) ≤ m := by
        apply round_half_even_le
        rw [div_le_iff₀ hu, ← hm]
        exact hyx
      rw [hval]
      constructor
      · exact mul_nonneg (by exact_mod_cast h1) hu.le
      · calc (round_half_even (x * c / 2 ^ (f32_exponent (x * c) - 23)) : ℚ) *
              2 ^ (f32_exponent (x * c) - 23)
            ≤ (m : ℚ) * 2 ^ (f32_exponent (x * c) - 23) :=
              mul_le_mul_of_nonneg_right (by exact_mod_cast h2) hu.le
          _ = x := hm.symm
    · intro h0
      have hy0 : x * c ≤ 0 := mul_nonpos_of_nonpos_of_nonneg h0 hc0
      have hyx : x ≤ x * c := by nlinarith
      have h1 : round_half_even (x * c / 2 ^ (f32_exponent (x * c) - 23)) ≤ (0 : ℤ) :=
        round_half_even_le _ 0 (by push_cast; exact div_nonpos_of_nonpos_of_nonneg hy0 hu.le)
      have h2 : m ≤ round_half_even (x * c / 2 ^ (f32_exponent (x * c) - 23)) := by
        apply le_round_half_even
        rw [le_div_iff₀ hu, ← hm]
        exact hyx
      rw [hval]
      constructor
      · calc x = (m : ℚ) * 2 ^ (f32_exponent (x * c) - 23) := hm
          _ ≤ (round_half_even (x * c / 2 ^ (f32_exponent (x * c) - 23)) : ℚ) *
              2 ^ (f32_exponent (x * c) - 23) :=
              mul_le_mul_of_nonneg_right (by exact_mod_cast h2) hu.le
      · exact mul_nonpos_of_nonpos_of_nonneg (by exact_mod_cast h1) hu.le

theorem round_half_even_error (t : ℚ) : |(round_half_even t : ℚ) - t| ≤ 1 / 2 := by
  have h1 := Int.floor_le t
  have h2 := Int.lt_floor_add_one t
  rcases round_half_even_floor t with h | ⟨h, h3⟩
  · rw [h]
    have h4 : t - ⌊t⌋ ≤ 1 / 2 := by
      by_contra hc
      push_neg at hc
      have : round_half_even t = ⌊t⌋ + 1 := by
        unfold round_half_even
        rw [if_neg (by linarith), if_pos hc]
      rw [this] at h
      omega
    rw [abs_le]
    constructor <;> linarith
  · rw [h]
    push_cast
    rw [abs_le]
    constructor <;> linarith

theorem f32_round_error (q : ℚ) : |f32_round q - q| ≤ 2 ^ (f32_exponent q - 24) := by
  have hu : (0 : ℚ) < 2 ^ (f32_exponent q - 23) := zpow_pos (by norm_num) _
  have hsplit : (2 : ℚ) ^ (f32_exponent q - 23) = 2 ^ (f32_exponent q - 24) * 2 := by
    rw [show f32_exponent q - 23 = (f32_exponent q - 24) + 1 by ring,
      zpow_add₀ (by norm_num : (2 : ℚ) ≠ 0), zpow_one]
  have herr := round_half_even_error (q / 2 ^ (f32_exponent q - 23))
  have hq : f32_round q - q =
      ((round_half_even (q / 2 ^ (f32_exponent q - 23)) : ℚ) -
        q / 2 ^ (f32_exponent q - 23)) * 2 ^ (f32_exponent q - 23) := by
    unfold f32_round
    field_simp
  rw [hq, abs_mul, abs_of_pos hu]
  calc |(round_half_even (q / 2 ^ (f32_exponent q - 23)) : ℚ) -
          q / 2 ^ (f32_exponent q - 23)| * 2 ^ (f32_exponent q - 23)
      ≤ 1 / 2 * 2 ^ (f32_exponent q - 23) := mul_le_mul_of_nonneg_right herr hu.le
    _ = 2 ^ (f32_exponent q - 24) := by rw [hsplit]; ring

theorem FLOAT_0_999_eq : FLOAT_0_999 = 16760439 / 16777216 := by
  unfold FLOAT_0_999
  rw [f32_round_eq (999 / 1000) (-1) 16760439 (by norm_num)
    (by norm_num [abs_of_pos]) (by norm_num [abs_of_pos])
    (by norm_num) (by norm_num [abs_lt])]
  norm_num

theorem float_0_999_range : (0 : ℚ) ≤ FLOAT_0_999 ∧ FLOAT_0_999 ≤ 1 := by
  rw [FLOAT_0_999_eq]
  constructor <;> norm_num

theorem decay_sti_bounds (x : ℚ) :
    (0 ≤ x → 0 ≤ decay_sti x ∧ decay_sti x ≤ x) ∧
      (x ≤ 0 → x ≤ decay_sti x ∧ decay_sti x ≤ 0) := by
  obtain ⟨hc0, hc1⟩ := float_0_999_range
  unfold decay_sti f32_mul
  by_cases hx : is_f32 x
  · rw [if_pos hx]
    exact f32_round_shrink x FLOAT_0_999 hx hc0 hc1
  · rw [if_neg hx]
    constructor
    · intro h0
      exact ⟨mul_nonneg h0 hc0, mul_le_of_le_one_right h0 hc1⟩
    · intro h0
      exact ⟨by nlinarith, mul_nonpos_of_nonpos_of_nonneg h0 hc0⟩

theorem decay_sti_abs (x : ℚ) : |decay_sti x| ≤ |x| := by
  rcases le_total 0 x with h | h
  · obtain ⟨h1, h2⟩ := (decay_sti_bounds x).1 h
    rw [abs_of_nonneg h1, abs_of_nonneg h]
    exact h2
  · obtain ⟨h1, h2⟩ := (decay_sti_bounds x).2 h
    rw [abs_of_nonpos h2, abs_of_nonpos h]
    linarith

theorem decay_sti_f32 (x : ℚ) (hx : is_f32 x) : decay_sti x = f32_round (x * FLOAT_0_999) := by
  unfold decay_sti f32_mul
  rw [if_pos hx]

theorem is_f32_100 : is_f32 100 := by
  constructor
  · rw [f32_round_eq 100 6 13107200 (by norm_num) (by norm_num) (by norm_num) (by norm_num)
      (by norm_num)]
    norm_num
  · norm_num

theorem is_f32_1000 : is_f32 1000 := by
  constructor
  · rw [f32_round_eq 1000 9 16384000 (by norm_num) (by norm_num) (by norm_num) (by norm_num)
      (by norm_num)]
    norm_num
  · norm_num

theorem is_f32_2000 : is_f32 2000 := by
  constructor
  · rw [f32_round_eq 2000 10 16384000 (by norm_num) (by norm_num) (by norm_num) (by norm_num)
      (by norm_num)]
    norm_num
  · norm_num

theorem is_f32_neg_1000 : is_f32 (-1000) := by
  constructor
  · rw [f32_round_eq (-1000) 9 (-16384000) (by norm_num) (by norm_num) (by norm_num)
      (by norm_num) (by norm_num)]
    norm_num
  · norm_num

theorem decay_sti_100 : decay_sti 100 = 13094093 / 131072 := by
  rw [decay_sti_f32 100 is_f32_100, FLOAT_0_999_eq,
    f32_round_eq (100 * (16760439 / 16777216)) 6 13094093 (by norm_num)
      (by norm_num [abs_of_pos]) (by norm_num [abs_of_pos])
      (by norm_num) (by norm_num [abs_lt])]
  norm_num

theorem is_f32_least : is_f32 (2 ^ (-149 : ℤ)) := by
  constructor
  · rw [f32_round_eq_subnormal (2 ^ (-149 : ℤ)) 1 (by norm_num)
      (by rw [abs_of_pos (by norm_num)]; norm_num) (by norm_num)]
    norm_num
  · rw [abs_of_pos (by norm_num)]
    norm_num

theorem decay_sti_least : decay_sti (2 ^ (-149 : ℤ)) = 2 ^ (-149 : ℤ) := by
  rw [decay_sti_f32 _ is_f32_least, FLOAT_0_999_eq,
    f32_round_eq_subnormal (2 ^ (-149 : ℤ) * (16760439 / 16777216)) 1 (by norm_num)
      (by rw [abs_of_pos (by norm_num)]; norm_num)
      (by rw [abs_lt]; constructor <;> norm_num)]
  norm_num

theorem is_f32_60 : is_f32 60 := by
  constructor
  · rw [f32_round_eq 60 5 15728640 (by norm_num) (by norm_num) (by norm_num) (by norm_num)
      (by norm_num)]
    norm_num
  · norm_num

theorem decay_sti_60 : decay_sti 60 = 982057 / 16384 := by
  rw [decay_sti_f32 60 is_f32_60, FLOAT_0_999_eq,
    f32_round_eq (60 * (16760439 / 16777216)) 5 15712912 (by norm_num)
      (by norm_num [abs_of_pos]) (by norm_num [abs_of_pos])
      (by norm_num) (by norm_num [abs_lt])]
  norm_num

theorem decay_sti_1000 : decay_sti 1000 = 999 := by
  rw [decay_sti_f32 1000 is_f32_1000, FLOAT_0_999_eq,
    f32_round_eq (1000 * (16760439 / 16777216)) 9 16367616 (by norm_num)
      (by norm_num [abs_of_pos]) (by norm_num [abs_of_pos])
      (by norm_num) (by norm_num [abs_lt])]
  norm_num

theorem decay_sti_2000 : decay_sti 2000 = 1998 := by
  rw [decay_sti_f32 2000 is_f32_2000, FLOAT_0_999_eq,
    f32_round_eq (2000 * (16760439 / 16777216)) 10 16367616 (by norm_num)
      (by norm_num [abs_of_pos]) (by norm_num [abs_of_pos])
      (by norm_num) (by norm_num [abs_lt])]
  norm_num

theorem decay_sti_neg_1000 : decay_sti (-1000) = -999 := by
  rw [decay_sti_f32 (-1000) is_f32_neg_1000, FLOAT_0_999_eq,
    f32_round_eq (-1000 * (16760439 / 16777216)) 9 (-16367616) (by norm_num)
      (by norm_num [abs_of_neg]) (by norm_num [abs_of_neg])
      (by norm_num) (by norm_num [abs_lt])]
  norm_num

/-! ## ECAN: the decay of `dtesn_sched_tick` -/

theorem tick_loop_spec (avs : Nat → av_entry) (n : Nat) :
    ∀ i, (tick_loop avs n).1 i =
      if i < n ∧ (avs i).active ≠ 0 then
        { avs i with av := { (avs i).av with sti := decay_sti (avs i).av.sti } }
      else avs i := by
  induction n with
  | zero => intro i; simp [tick_loop]
  | succ n ih =>
    intro i
    have hn : (tick_loop avs n).1 n = avs n := by
      rw [ih n]; simp
    simp only [tick_loop, hn]
    by_cases hact : (avs n).active ≠ 0
    · rw [if_pos hact]
      by_cases hin : i = n
      · subst hin
        simp [hact]
      · simp only [Function.update_noteq hin]
        rw [ih i]
        have : (i < n + 1 ∧ (avs i).active ≠ 0) ↔ (i < n ∧ (avs i).active ≠ 0) := by
          constructor
          · intro h; exact ⟨by omega, h.2⟩
          · intro h; exact ⟨by omega, h.2⟩
        simp only [this]
    · rw [if_neg hact]
      rw [ih i]
      by_cases hin : i = n
      · subst hin
        simp [hact]
      · have : (i < n + 1 ∧ (avs i).active ≠ 0) ↔ (i < n ∧ (avs i).active ≠ 0) := by
          constructor
          · intro h; exact ⟨by omega, h.2⟩
          · intro h; exact ⟨by omega, h.2⟩
        simp only [this]

theorem tick_loop_count (avs : Nat → av_entry) (n : Nat) :
    (tick_loop avs n).2 = active_count avs n := by
  induction n with
  | zero => rfl
  | succ n ih =>
    have hn : (tick_loop avs n).1 n = avs n := by
      rw [tick_loop_spec avs n n]; simp
    simp only [tick_loop, active_count, hn]
    split <;> simp [ih]

theorem active_count_nonneg (avs : Nat → av_entry) (n : Nat) : 0 ≤ active_count avs n := by
  induction n with
  | zero => exact le_refl _
  | succ n ih =>
    simp only [active_count]
    split <;> omega

theorem tick_uninit (g : EcanState) (h : g.initialized = 0) :
    dtesn_sched_tick g = (g, -1) := by
  simp [dtesn_sched_tick, h]

theorem tick_init (g : EcanState) (h : g.initialized ≠ 0) :
    dtesn_sched_tick g =
      ({ g with
          tick_count := (g.tick_count + 1) % 2 ^ 64
          avs := (tick_loop g.avs g.av_count).1 },
        active_count g.avs g.av_count) := by
  simp [dtesn_sched_tick, h, tick_loop_count]

theorem tick_success_iff (g : EcanState) :
    0 ≤ (dtesn_sched_tick g).2 ↔ g.initialized ≠ 0 := by
  by_cases h : g.initialized = 0
  · rw [tick_uninit g h]
    simp [h]
  · rw [tick_init g h]
    simp only [ne_eq, h, not_false_eq_true, iff_true]
    exact active_count_nonneg _ _

/-- C12: decay touches only `sti`. A successful `dtesn_sched_tick` (one that returns a
non-negative value) keeps the number of entries, replaces the `sti` of every active entry by
the `float` product `sti * 0.999f`, keeps the `lti`, `vlti`, atom handle and active flag of
every entry, and leaves every slot that is not an active entry exactly as it was. The `float`
product of a `float` value `sti` is the exact product of `sti` and the constant `0.999f`
rounded to the nearest binary32 value, so it lies within half a unit in the last place of
the exact product. -/
theorem tick_touches_only_sti (g : EcanState) (hok : 0 ≤ (dtesn_sched_tick g).2) :
    (dtesn_sched_tick g).1.av_count = g.av_count ∧
      (∀ i, i < g.av_count → (g.avs i).active ≠ 0 →
        ((dtesn_sched_tick g).1.avs i).av.sti = decay_sti (g.avs i).av.sti ∧
          (is_f32 (g.avs i).av.sti →
            ((dtesn_sched_tick g).1.avs i).av.sti =
                f32_round ((g.avs i).av.sti * FLOAT_0_999) ∧
              |((dtesn_sched_tick g).1.avs i).av.sti - (g.avs i).av.sti * FLOAT_0_999| ≤
                2 ^ (f32_exponent ((g.avs i).av.sti * FLOAT_0_999) - 24))) ∧
      (∀ i, ((dtesn_sched_tick g).1.avs i).av.lti = (g.avs i).av.lti ∧
        ((dtesn_sched_tick g).1.avs i).av.vlti = (g.avs i).av.vlti ∧
        ((dtesn_sched_tick g).1.avs i).atom = (g.avs i).atom ∧
        ((dtesn_sched_tick g).1.avs i).active = (g.avs i).active) ∧
      (∀ i, ¬ (i < g.av_count ∧ (g.avs i).active ≠ 0) →
        (dtesn_sched_tick g).1.avs i = g.avs i) := by
  have hinit := (tick_success_iff g).mp hok
  rw [tick_init g hinit]
  simp only
  refine ⟨trivial, ?_, ?_, ?_⟩
  · intro i hi hact
    rw [tick_loop_spec g.avs g.av_count i, if_pos ⟨hi, hact⟩]
    refine ⟨rfl, fun hf => ?_⟩
    simp only
    rw [decay_sti_f32 _ hf]
    exact ⟨rfl, f32_round_error _⟩
  · intro i
    rw [tick_loop_spec g.avs g.av_count i]
    split <;> exact ⟨rfl, rfl, rfl, rfl⟩
  · intro i hi
    rw [tick_loop_spec g.avs g.av_count i, if_neg hi]

/-- C12, at a concrete ledger: after `dtesn_sched_init(5)` and one entry (100, 80, 20) for
handle 1, a tick succeeds and turns the entry's `sti` from the `float` value 100 into the
rounded product, which is 13094093/131072 or 99.90000152587890625, leaving `lti = 80`; the
constant `0.999f` is 16760439/16777216. -/
theorem tick_touches_only_sti_witness :
    0 ≤ (dtesn_sched_tick
        (ecanExec [EcanCall.init 5, EcanCall.set_av 1 (some ⟨100, 80, 20⟩)])).2 ∧
      ((ecanExec [EcanCall.init 5, EcanCall.set_av 1 (some ⟨100, 80, 20⟩)]).avs 0).av.sti =
        100 ∧
      is_f32 ((ecanExec [EcanCall.init 5, EcanCall.set_av 1 (some ⟨100, 80, 20⟩)]).avs 0).av.sti ∧
      ((dtesn_sched_tick
        (ecanExec [EcanCall.init 5, EcanCall.set_av 1 (some ⟨100, 80, 20⟩)])).1.avs 0).av.sti =
        f32_round
          (((ecanExec [EcanCall.init 5, EcanCall.set_av 1 (some ⟨100, 80, 20⟩)]).avs 0).av.sti *
            FLOAT_0_999) ∧
      ((dtesn_sched_tick
        (ecanExec [EcanCall.init 5, EcanCall.set_av 1 (some ⟨100, 80, 20⟩)])).1.avs 0).av.sti =
        13094093 / 131072 ∧
      ((dtesn_sched_tick
        (ecanExec [EcanCall.init 5, EcanCall.set_av 1 (some ⟨100, 80, 20⟩)])).1.avs 0).av.lti =
        80 ∧
      FLOAT_0_999 = 16760439 / 16777216 :=
  ⟨by decide,
    by decide,
    by
      rw [show ((ecanExec [EcanCall.init 5, EcanCall.set_av 1 (some ⟨100, 80, 20⟩)]).avs 0).av.sti = 100 by decide]
      exact is_f32_100,
    (((tick_touches_only_sti
      (ecanExec [EcanCall.init 5, EcanCall.set_av 1 (some ⟨100, 80, 20⟩)])
      (by decide)).2.1 0 (by decide) (by decide)).2
      (by
        rw [show ((ecanExec [EcanCall.init 5, EcanCall.set_av 1 (some ⟨100, 80, 20⟩)]).avs 0).av.sti = 100 by decide]
        exact is_f32_100)).1,
    ((tick_touches_only_sti
      (ecanExec [EcanCall.init 5, EcanCall.set_av 1 (some ⟨100, 80, 20⟩)])
      (by decide)).2.1 0 (by decide) (by decide)).1.trans
      (by
        rw [show ((ecanExec [EcanCall.init 5, EcanCall.set_av 1 (some ⟨100, 80, 20⟩)]).avs 0).av.sti = 100 by decide]
        exact decay_sti_100),
    ((tick_touches_only_sti
      (ecanExec [EcanCall.init 5, EcanCall.set_av 1 (some ⟨100, 80, 20⟩)])
      (by decide)).2.2.1 0).1.trans (by decide),
    FLOAT_0_999_eq⟩

theorem tick_sti (g : EcanState) (hinit : g.initialized ≠ 0) (i : Nat) (hi : i < g.av_count)
    (hact : (g.avs i).active ≠ 0) :
    ((dtesn_sched_tick g).1.avs i).av.sti = decay_sti (g.avs i).av.sti := by
  rw [tick_init g hinit]
  simp only
  rw [tick_loop_spec g.avs g.av_count i, if_pos ⟨hi, hact⟩]

/-- C13 fails on the code for a negative `sti`: in the ledger reached by
`dtesn_sched_init(5)` and `dtesn_sched_set_av(1, (-1000, 0, 0))` the entry in slot 0 is
active with `sti = -1000`; the tick succeeds and leaves `sti = -999`, which is greater. -/
theorem tick_negative_sti_counterexample :
    (ecanExec [EcanCall.init 5, EcanCall.set_av 1 (some ⟨-1000, 0, 0⟩)]).avs 0 =
        ⟨1, ⟨-1000, 0, 0⟩, 1⟩ ∧
      0 < (ecanExec [EcanCall.init 5, EcanCall.set_av 1 (some ⟨-1000, 0, 0⟩)]).av_count ∧
      (dtesn_sched_tick
        (ecanExec [EcanCall.init 5, EcanCall.set_av 1 (some ⟨-1000, 0, 0⟩)])).2 = 1 ∧
      ((dtesn_sched_tick
        (ecanExec [EcanCall.init 5, EcanCall.set_av 1 (some ⟨-1000, 0, 0⟩)])).1.avs 0).av.sti =
        -999 ∧
      ¬ (((dtesn_sched_tick
          (ecanExec [EcanCall.init 5, EcanCall.set_av 1 (some ⟨-1000, 0, 0⟩)])).1.avs 0).av.sti ≤
        ((ecanExec [EcanCall.init 5, EcanCall.set_av 1 (some ⟨-1000, 0, 0⟩)]).avs 0).av.sti) := by
  have h0 : (ecanExec [EcanCall.init 5, EcanCall.set_av 1 (some ⟨-1000, 0, 0⟩)]).avs 0 =
      ⟨1, ⟨-1000, 0, 0⟩, 1⟩ := by decide
  have hs := tick_sti (ecanExec [EcanCall.init 5, EcanCall.set_av 1 (some ⟨-1000, 0, 0⟩)])
    (by decide) 0 (by decide) (by decide)
  rw [h0] at hs
  have hd : decay_sti (⟨1, ⟨-1000, 0, 0⟩, 1⟩ : av_entry).av.sti = -999 := decay_sti_neg_1000
  rw [hd] at hs
  refine ⟨h0, by decide, by decide, hs, ?_⟩
  rw [hs, h0]
  norm_num

/-- C13, amended: decay moves `sti` towards zero. For every ledger on which
`dtesn_sched_tick` succeeds and every active entry, the entry's `sti` after the tick is less
than or equal to its `sti` before when that value is non-negative, greater than or equal to
it when that value is negative or zero, and never larger in absolute value. -/
theorem tick_sti_towards_zero (g : EcanState) (i : Nat)
    (hok : 0 ≤ (dtesn_sched_tick g).2) (hi : i < g.av_count)
    (hact : (g.avs i).active ≠ 0) :
    (0 ≤ (g.avs i).av.sti →
        ((dtesn_sched_tick g).1.avs i).av.sti ≤ (g.avs i).av.sti) ∧
      ((g.avs i).av.sti ≤ 0 →
        (g.avs i).av.sti ≤ ((dtesn_sched_tick g).1.avs i).av.sti) ∧
      |((dtesn_sched_tick g).1.avs i).av.sti| ≤ |(g.avs i).av.sti| := by
  have hinit := (tick_success_iff g).mp hok
  rw [tick_sti g hinit i hi hact]
  have hb := decay_sti_bounds (g.avs i).av.sti
  exact ⟨fun h => (hb.1 h).2, fun h => (hb.2 h).1, decay_sti_abs _⟩

/-- C13 amended, at a concrete ledger: the entry (100, 80, 20) of handle 1 is active and the
tick succeeds, so its `sti` does not grow. -/
theorem tick_sti_towards_zero_witness :
    ((ecanExec [EcanCall.init 5, EcanCall.set_av 1 (some ⟨100, 80, 20⟩)]).avs 0).av.sti =
        100 ∧
      ((dtesn_sched_tick
        (ecanExec [EcanCall.init 5, EcanCall.set_av 1 (some ⟨100, 80, 20⟩)])).1.avs 0).av.sti ≤
        ((ecanExec [EcanCall.init 5, EcanCall.set_av 1 (some ⟨100, 80, 20⟩)]).avs 0).av.sti :=
  ⟨by decide,
    (tick_sti_towards_zero
      (ecanExec [EcanCall.init 5, EcanCall.set_av 1 (some ⟨100, 80, 20⟩)]) 0
      (by decide) (by decide) (by decide)).1
      (by
        rw [show ((ecanExec [EcanCall.init 5,
          EcanCall.set_av 1 (some ⟨100, 80, 20⟩)]).avs 0).av.sti = 100 by decide]
        norm_num)⟩

/-! ## ECAN: a tick credits no fund -/

theorem sti_total_one (avs : Nat → av_entry) :
    sti_total avs 1 = if (avs 0).active ≠ 0 then (avs 0).av.sti else 0 := by
  simp [sti_total]

theorem tick_fields (g : EcanState) (hinit : g.initialized ≠ 0) :
    (dtesn_sched_tick g).1.av_count = g.av_count ∧
      (dtesn_sched_tick g).1.tick_interval_us = g.tick_interval_us ∧
      (dtesn_sched_tick g).1.tick_count = (g.tick_count + 1) % 2 ^ 64 ∧
      (dtesn_sched_tick g).1.initialized = g.initialized := by
  rw [tick_init g hinit]
  exact ⟨rfl, rfl, rfl, rfl⟩

theorem single_entry_ledger (x : ℚ) :
    (ecanExec [EcanCall.init 5, EcanCall.set_av 1 (some ⟨x, 0, 0⟩)]).avs 0 =
        ⟨1, ⟨x, 0, 0⟩, 1⟩ ∧
      (ecanExec [EcanCall.init 5, EcanCall.set_av 1 (some ⟨x, 0, 0⟩)]).av_count = 1 ∧
      (ecanExec [EcanCall.init 5, EcanCall.set_av 1 (some ⟨x, 0, 0⟩)]).tick_interval_us = 5 ∧
      (ecanExec [EcanCall.init 5, EcanCall.set_av 1 (some ⟨x, 0, 0⟩)]).tick_count = 0 ∧
      (ecanExec [EcanCall.init 5, EcanCall.set_av 1 (some ⟨x, 0, 0⟩)]).initialized = 1 ∧
      sti_sum (ecanExec [EcanCall.init 5, EcanCall.set_av 1 (some ⟨x, 0, 0⟩)]) = x := by
  have h0 : (ecanExec [EcanCall.init 5, EcanCall.set_av 1 (some ⟨x, 0, 0⟩)]).avs 0 =
      ⟨1, ⟨x, 0, 0⟩, 1⟩ := rfl
  have hc : (ecanExec [EcanCall.init 5, EcanCall.set_av 1 (some ⟨x, 0, 0⟩)]).av_count = 1 :=
    rfl
  refine ⟨h0, hc, rfl, rfl, rfl, ?_⟩
  rw [sti_sum, hc, sti_total_one, h0]
  simp

theorem sti_erased_tick (g : EcanState) (hinit : g.initialized ≠ 0) :
    sti_erased (dtesn_sched_tick g).1 =
      { sti_erased g with tick_count := (g.tick_count + 1) % 2 ^ 64 } := by
  rw [tick_init g hinit]
  simp only [sti_erased]
  congr 1
  funext i
  rw [tick_loop_spec g.avs g.av_count i]
  split <;> rfl

theorem single_entry_erased (x : ℚ) :
    sti_erased (ecanExec [EcanCall.init 5, EcanCall.set_av 1 (some ⟨x, 0, 0⟩)]) =
      sti_erased (ecanExec [EcanCall.init 5, EcanCall.set_av 1 (some ⟨0, 0, 0⟩)]) := by
  have hx : ecanExec [EcanCall.init 5, EcanCall.set_av 1 (some ⟨x, 0, 0⟩)] =
      { (dtesn_sched_init g_ecan 5).1 with
        av_count := 1
        avs := Function.update g_ecan.avs 0 ⟨1, ⟨x, 0, 0⟩, 1⟩ } := rfl
  have h0 : ecanExec [EcanCall.init 5, EcanCall.set_av 1 (some ⟨0, 0, 0⟩)] =
      { (dtesn_sched_init g_ecan 5).1 with
        av_count := 1
        avs := Function.update g_ecan.avs 0 ⟨1, ⟨0, 0, 0⟩, 1⟩ } := rfl
  rw [hx, h0]
  simp only [sti_erased]
  congr 1
  funext i
  by_cases hi : i = 0
  · subst hi; simp
  · simp [Function.update_noteq hi]

theorem single_entry_tick_sum (x : ℚ) :
    sti_sum (dtesn_sched_tick
      (ecanExec [EcanCall.init 5, EcanCall.set_av 1 (some ⟨x, 0, 0⟩)])).1 =
      decay_sti x := by
  have hl := single_entry_ledger x
  have hinit :
      (ecanExec [EcanCall.init 5, EcanCall.set_av 1 (some ⟨x, 0, 0⟩)]).initialized ≠ 0 := by
    rw [hl.2.2.2.2.1]
    decide
  rw [tick_init _ hinit]
  simp only [sti_sum]
  rw [hl.2.1, sti_total_one, tick_loop_spec, hl.1]
  simp

/-- C14 fails on the code: `g_ecan` has no fund. In the ledger reached by
`dtesn_sched_init(5)` and `dtesn_sched_set_av(1, (1000, 0, 0))` the total `sti` is 1000 and
after a tick it is 999, and the unit removed is stored nowhere: no quantity computed from
what the ledger holds besides the `sti` values makes `total sti + fund` constant across the
ticks of reachable ledgers. -/
theorem no_attention_fund_counterexample :
    sti_sum (ecanExec [EcanCall.init 5, EcanCall.set_av 1 (some ⟨1000, 0, 0⟩)]) = 1000 ∧
      sti_sum (dtesn_sched_tick
        (ecanExec [EcanCall.init 5, EcanCall.set_av 1 (some ⟨1000, 0, 0⟩)])).1 = 999 ∧
      ¬ ∃ fund : EcanState → ℚ, ∀ calls : List EcanCall,
        (ecanExec calls).initialized ≠ 0 →
          sti_sum (ecanExec calls) + fund (sti_erased (ecanExec calls)) =
            sti_sum (dtesn_sched_tick (ecanExec calls)).1 +
              fund (sti_erased (dtesn_sched_tick (ecanExec calls)).1) := by
  have hinit : ∀ x : ℚ,
      (ecanExec [EcanCall.init 5, EcanCall.set_av 1 (some ⟨x, 0, 0⟩)]).initialized ≠ 0 := by
    intro x
    rw [(single_entry_ledger x).2.2.2.2.1]
    decide
  have hsum : ∀ x : ℚ,
      sti_sum (ecanExec [EcanCall.init 5, EcanCall.set_av 1 (some ⟨x, 0, 0⟩)]) = x :=
    fun x => (single_entry_ledger x).2.2.2.2.2
  have hafter : ∀ x : ℚ, sti_sum (dtesn_sched_tick
      (ecanExec [EcanCall.init 5, EcanCall.set_av 1 (some ⟨x, 0, 0⟩)])).1 =
      decay_sti x := single_entry_tick_sum
  refine ⟨hsum 1000, by rw [hafter 1000]; exact decay_sti_1000, ?_⟩
  rintro ⟨fund, hfund⟩
  have h1 := hfund [EcanCall.init 5, EcanCall.set_av 1 (some ⟨1000, 0, 0⟩)] (hinit 1000)
  have h2 := hfund [EcanCall.init 5, EcanCall.set_av 1 (some ⟨2000, 0, 0⟩)] (hinit 2000)
  rw [hsum, hafter, decay_sti_1000, sti_erased_tick _ (hinit 1000), single_entry_erased 1000,
    (single_entry_ledger 1000).2.2.2.1] at h1
  rw [hsum, hafter, decay_sti_2000, sti_erased_tick _ (hinit 2000), single_entry_erased 2000,
    (single_entry_ledger 2000).2.2.2.1] at h2
  linarith

/-- C14, amended: the code keeps no attention fund, and what a tick's decay removes is
credited nowhere. For every ledger on which `dtesn_sched_tick` succeeds, everything `g_ecan`
stores apart from the `sti` values is after the tick what it was before, except `tick_count`,
which advances by one; and a slot that is not an active entry keeps its `sti` too. So the
tick changes the `sti` of active entries and `tick_count`, and nothing else. -/
theorem tick_credits_no_fund (g : EcanState) (hok : 0 ≤ (dtesn_sched_tick g).2) :
    sti_erased (dtesn_sched_tick g).1 =
        { sti_erased g with tick_count := (g.tick_count + 1) % 2 ^ 64 } ∧
      (∀ i, ¬ (i < g.av_count ∧ (g.avs i).active ≠ 0) →
        (dtesn_sched_tick g).1.avs i = g.avs i) := by
  have hinit := (tick_success_iff g).mp hok
  refine ⟨sti_erased_tick g hinit, ?_⟩
  intro i hi
  rw [tick_init g hinit]
  simp only
  rw [tick_loop_spec g.avs g.av_count i, if_neg hi]

/-- C14 amended, at a concrete ledger: with the single active entry (1000, 0, 0) the tick
succeeds, and apart from the `sti` values the ledger after it differs from the ledger before
it in `tick_count` only. -/
theorem tick_credits_no_fund_witness :
    0 ≤ (dtesn_sched_tick
        (ecanExec [EcanCall.init 5, EcanCall.set_av 1 (some ⟨1000, 0, 0⟩)])).2 ∧
      sti_erased (dtesn_sched_tick
        (ecanExec [EcanCall.init 5, EcanCall.set_av 1 (some ⟨1000, 0, 0⟩)])).1 =
        { sti_erased (ecanExec [EcanCall.init 5, EcanCall.set_av 1 (some ⟨1000, 0, 0⟩)]) with
          tick_count :=
            ((ecanExec [EcanCall.init 5, EcanCall.set_av 1 (some ⟨1000, 0, 0⟩)]).tick_count +
              1) % 2 ^ 64 } :=
  ⟨by decide,
    (tick_credits_no_fund (ecanExec [EcanCall.init 5, EcanCall.set_av 1 (some ⟨1000, 0, 0⟩)])
      (by decide)).1⟩

theorem active_count_card (avs : Nat → av_entry) (n : Nat) :
    active_count avs n =
      (((Finset.range n).filter (fun i => (avs i).active ≠ 0)).card : Int) := by
  induction n with
  | zero => simp [active_count]
  | succ n ih =>
    simp only [active_count, Finset.range_succ, Finset.filter_insert]
    by_cases hact : (avs n).active ≠ 0
    · rw [if_pos hact, if_pos hact, ih, Finset.card_insert_of_not_mem (by simp)]
      push_cast
      rfl
    · rw [if_neg hact, if_neg hact, ih]

/-- C15: on an initialised scheduler `dtesn_sched_tick` returns the number of active entries
among the `av_count` occupied slots, applies the decay `sti *= 0.999f` to each of them once,
and advances the 64-bit `tick_count` by one (`tick_count + 1` modulo `2^64`, which is
`tick_count + 1` unless the counter is at its maximum). On an uninitialised scheduler it
returns -1 and leaves the whole scheduler state, so `tick_count` and every entry, as it
was. -/
theorem tick_returns_active_count (g : EcanState) :
    (g.initialized ≠ 0 →
        (dtesn_sched_tick g).2 =
          (((Finset.range g.av_count).filter (fun i => (g.avs i).active ≠ 0)).card : Int) ∧
        (∀ i, i < g.av_count → (g.avs i).active ≠ 0 →
          ((dtesn_sched_tick g).1.avs i).av.sti = decay_sti (g.avs i).av.sti) ∧
        (dtesn_sched_tick g).1.tick_count = (g.tick_count + 1) % 2 ^ 64 ∧
        (g.tick_count + 1 < 2 ^ 64 →
          (dtesn_sched_tick g).1.tick_count = g.tick_count + 1)) ∧
      (g.initialized = 0 →
        (dtesn_sched_tick g).2 = -1 ∧ (dtesn_sched_tick g).2 < 0 ∧
          (dtesn_sched_tick g).1 = g) := by
  constructor
  · intro hinit
    have hf := tick_fields g hinit
    refine ⟨?_, fun i hi hact => tick_sti g hinit i hi hact, hf.2.2.1, ?_⟩
    · rw [tick_init g hinit]
      exact active_count_card g.avs g.av_count
    · intro hlt
      rw [hf.2.2.1, Nat.mod_eq_of_lt hlt]
  · intro hun
    rw [tick_uninit g hun]
    exact ⟨rfl, by norm_num, rfl⟩

/-- C15, at concrete ledgers: with the two active entries (100, 80, 20) and (60, 50, 15)
after `dtesn_sched_init(5)` the tick returns 2, `tick_count` goes from 0 to 1, and the two
`sti` values become 13094093/131072 (99.90000152587890625) and 982057/16384
(59.94000244140625); on the initial, uninitialised ledger the tick returns -1. -/
theorem tick_returns_active_count_witness :
    (dtesn_sched_tick (ecanExec [EcanCall.init 5, EcanCall.set_av 1 (some ⟨100, 80, 20⟩),
        EcanCall.set_av 2 (some ⟨60, 50, 15⟩)])).2 = 2 ∧
      (ecanExec [EcanCall.init 5, EcanCall.set_av 1 (some ⟨100, 80, 20⟩),
        EcanCall.set_av 2 (some ⟨60, 50, 15⟩)]).tick_count = 0 ∧
      (dtesn_sched_tick (ecanExec [EcanCall.init 5, EcanCall.set_av 1 (some ⟨100, 80, 20⟩),
        EcanCall.set_av 2 (some ⟨60, 50, 15⟩)])).1.tick_count = 0 + 1 ∧
      ((dtesn_sched_tick (ecanExec [EcanCall.init 5, EcanCall.set_av 1 (some ⟨100, 80, 20⟩),
        EcanCall.set_av 2 (some ⟨60, 50, 15⟩)])).1.avs 0).av.sti = 13094093 / 131072 ∧
      ((dtesn_sched_tick (ecanExec [EcanCall.init 5, EcanCall.set_av 1 (some ⟨100, 80, 20⟩),
        EcanCall.set_av 2 (some ⟨60, 50, 15⟩)])).1.avs 1).av.sti = 982057 / 16384 ∧
      (dtesn_sched_tick g_ecan).2 = -1 :=
  ⟨by decide, by decide,
    ((tick_returns_active_count
      (ecanExec [EcanCall.init 5, EcanCall.set_av 1 (some ⟨100, 80, 20⟩),
        EcanCall.set_av 2 (some ⟨60, 50, 15⟩)])).1 (by decide)).2.2.2 (by decide),
    (((tick_returns_active_count
      (ecanExec [EcanCall.init 5, EcanCall.set_av 1 (some ⟨100, 80, 20⟩),
        EcanCall.set_av 2 (some ⟨60, 50, 15⟩)])).1 (by decide)).2.1 0 (by decide) (by decide)).trans
      (by
        rw [show ((ecanExec [EcanCall.init 5, EcanCall.set_av 1 (some ⟨100, 80, 20⟩),
        EcanCall.set_av 2 (some ⟨60, 50, 15⟩)]).avs 0).av.sti = 100 by decide]
        exact decay_sti_100),
    (((tick_returns_active_count
      (ecanExec [EcanCall.init 5, EcanCall.set_av 1 (some ⟨100, 80, 20⟩),
        EcanCall.set_av 2 (some ⟨60, 50, 15⟩)])).1 (by decide)).2.1 1 (by decide) (by decide)).trans
      (by
        rw [show ((ecanExec [EcanCall.init 5, EcanCall.set_av 1 (some ⟨100, 80, 20⟩),
        EcanCall.set_av 2 (some ⟨60, 50, 15⟩)]).avs 1).av.sti = 60 by decide]
        exact decay_sti_60),
    ((tick_returns_active_count g_ecan).2 (by decide)).1⟩

/-! ## Cognitive loop: when `cogloop_tick` succeeds -/

theorem set_av_initialized (g : EcanState) (atom : Nat) (av : Option attention_value) :
    (dtesn_sched_set_av g atom av).1.initialized = g.initialized := by
  cases av with
  | none => rfl
  | some v =>
    cases hf : av_find g atom with
    | some k => rw [set_av_found g atom v k hf]
    | none =>
      by_cases hroom : g.av_count < MAX_AVS
      · rw [set_av_append g atom v hf hroom]
      · rw [set_av_full g atom v hf (by omega)]

theorem ecanCall_initialized (g : EcanState) (c : EcanCall) (h : g.initialized ≠ 0) :
    (c.run g).initialized ≠ 0 := by
  cases c with
  | init us => simp [EcanCall.run, dtesn_sched_init, h]
  | tick =>
    simp only [EcanCall.run]
    rw [(tick_fields g h).2.2.2]
    exact h
  | set_av a av =>
    simp only [EcanCall.run]
    rw [set_av_initialized]
    exact h
  | get_av a av => exact h
  | spread_importance src r =>
    simp only [EcanCall.run, dtesn_sched_spread_importance]
    split <;> exact h

theorem boot_stage_ecan_initialized (s : System) (stage : boot_stage)
    (h : s.ecan.initialized ≠ 0) : (cogloop_boot_stage s stage).1.ecan.initialized ≠ 0 := by
  have hsw : (boot_stage_switch s stage).1.ecan = s.ecan := by
    cases stage with
    | STAGE0_INIT => rfl
    | STAGE1_HYPERGRAPH => rfl
    | STAGE2_SCHEDULER => simp [boot_stage_switch, dtesn_sched_init, h]
    | STAGE3_COGNITIVE => rfl
  simp only [cogloop_boot_stage]
  split
  · simp only [hsw]; exact h
  · rw [hsw]; exact h

theorem cogloop_tick_ecan (s : System) :
    (cogloop_tick s).1.ecan = (dtesn_sched_tick s.ecan).1 := by
  simp only [cogloop_tick]
  split <;> rfl

theorem cogloop_tick_result (s : System) :
    (s.ecan.initialized ≠ 0 → (cogloop_tick s).2 = 0) ∧
      (s.ecan.initialized = 0 → (cogloop_tick s).2 = -1) := by
  constructor
  · intro h
    have hok := (tick_success_iff s.ecan).mpr h
    simp only [cogloop_tick]
    rw [if_neg (by omega)]
  · intro h
    simp only [cogloop_tick, tick_uninit s.ecan h]
    rfl

theorem sysCall_initialized (s : System) (c : SysCall) (h : s.ecan.initialized ≠ 0) :
    (c.run s).ecan.initialized ≠ 0 := by
  cases c with
  | kern_init m => exact h
  | kern_shutdown => exact h
  | boot stage => exact boot_stage_ecan_initialized s stage h
  | mem_init_regions n => exact h
  | loop_tick =>
    simp only [SysCall.run]
    rw [cogloop_tick_ecan, (tick_fields s.ecan h).2.2.2]
    exact h
  | loop_start hz => exact h
  | loop_stop => exact h
  | sched c => exact ecanCall_initialized s.ecan c h

theorem sysExecFrom_initialized (calls : List SysCall) :
    ∀ s : System, s.ecan.initialized ≠ 0 → (sysExecFrom s calls).ecan.initialized ≠ 0 := by
  induction calls with
  | nil => intro s h; exact h
  | cons c cs ih => intro s h; exact ih _ (sysCall_initialized s c h)

theorem boot_stage2_initializes (s : System) :
    (cogloop_boot_stage s boot_stage.STAGE2_SCHEDULER).1.ecan.initialized ≠ 0 := by
  by_cases hi : s.ecan.initialized ≠ 0
  · exact boot_stage_ecan_initialized s _ hi
  · have hi0 : s.ecan.initialized = 0 := by simpa using hi
    simp [cogloop_boot_stage, boot_stage_switch, dtesn_sched_init, hi0,
      dtesn_mem_init_regions]

theorem boot_stage3_succeeds (s : System) :
    (cogloop_boot_stage s boot_stage.STAGE3_COGNITIVE).2 = 0 := by
  simp [cogloop_boot_stage, boot_stage_switch]

/-- C16 fails on the code: on the system before any call,
`cogloop_boot_stage(STAGE3_COGNITIVE)` returns 0, and the `cogloop_tick` that follows
returns -1, because the scheduler was never initialised. -/
theorem stage3_then_tick_counterexample :
    (cogloop_boot_stage g_system boot_stage.STAGE3_COGNITIVE).2 = 0 ∧
      (cogloop_tick (cogloop_boot_stage g_system boot_stage.STAGE3_COGNITIVE).1).2 = -1 ∧
      (cogloop_tick (cogloop_boot_stage g_system boot_stage.STAGE3_COGNITIVE).1).2 ≠ 0 := by
  refine ⟨by decide, by decide, by decide⟩

/-- C16, amended: tick is available once Stage3 is reached with the scheduler initialised.
In every state in which the scheduler is initialised, and in every state reached from it by
further calls of the kernel, scheduler and loop API, `cogloop_tick` returns 0, and so it
does after a `cogloop_boot_stage(STAGE3_COGNITIVE)` made there, which returns 0. The
scheduler is initialised after every `cogloop_boot_stage(STAGE2_SCHEDULER)` that returned 0.
Stage3 by itself decides nothing: it returns 0 in every state, and `cogloop_tick` returns -1
whenever the scheduler is not initialised. -/
theorem tick_available_when_initialized (s : System) (calls : List SysCall)
    (hinit : s.ecan.initialized ≠ 0) :
    (cogloop_tick (sysExecFrom s calls)).2 = 0 ∧
      (cogloop_boot_stage (sysExecFrom s calls) boot_stage.STAGE3_COGNITIVE).2 = 0 ∧
      (cogloop_tick
        (cogloop_boot_stage (sysExecFrom s calls) boot_stage.STAGE3_COGNITIVE).1).2 = 0 ∧
      (∀ t : System, (cogloop_boot_stage t boot_stage.STAGE2_SCHEDULER).2 = 0 →
        (cogloop_boot_stage t boot_stage.STAGE2_SCHEDULER).1.ecan.initialized ≠ 0) ∧
      (∀ t : System, (cogloop_boot_stage t boot_stage.STAGE3_COGNITIVE).2 = 0 ∧
        (t.ecan.initialized = 0 → (cogloop_tick t).2 = -1)) := by
  have h := sysExecFrom_initialized calls s hinit
  refine ⟨(cogloop_tick_result _).1 h, boot_stage3_succeeds _, ?_, ?_, ?_⟩
  · exact (cogloop_tick_result _).1 (boot_stage_ecan_initialized _ _ h)
  · intro t _
    exact boot_stage2_initializes t
  · intro t
    exact ⟨boot_stage3_succeeds t, (cogloop_tick_result t).2⟩

/-- C16 amended, at a concrete run: after stages 0, 1 and 2 from the system before any call
the scheduler is initialised, and the tick after stage 3 returns 0. -/
theorem tick_available_when_initialized_witness :
    (sysExecFrom g_system
        [SysCall.boot boot_stage.STAGE0_INIT, SysCall.boot boot_stage.STAGE1_HYPERGRAPH,
          SysCall.boot boot_stage.STAGE2_SCHEDULER]).ecan.initialized ≠ 0 ∧
      (cogloop_tick
        (cogloop_boot_stage
          (sysExecFrom
            (sysExecFrom g_system
              [SysCall.boot boot_stage.STAGE0_INIT, SysCall.boot boot_stage.STAGE1_HYPERGRAPH,
                SysCall.boot boot_stage.STAGE2_SCHEDULER])
            [])
          boot_stage.STAGE3_COGNITIVE).1).2 = 0 :=
  ⟨by decide,
    (tick_available_when_initialized
      (sysExecFrom g_system
        [SysCall.boot boot_stage.STAGE0_INIT, SysCall.boot boot_stage.STAGE1_HYPERGRAPH,
          SysCall.boot boot_stage.STAGE2_SCHEDULER])
      [] (by decide)).2.2.1⟩

/-! ## ECAN: `dtesn_sched_spread_importance` -/

theorem spread_out_of_range (g : EcanState) (source : Nat) (rate : ℚ)
    (h : rate < 0 ∨ 1 < rate) : dtesn_sched_spread_importance g source rate = (g, -1) := by
  simp only [dtesn_sched_spread_importance, gt_iff_lt, h, if_true]

theorem spread_in_range (g : EcanState) (source : Nat) (rate : ℚ)
    (h0 : 0 ≤ rate) (h1 : rate ≤ 1) : dtesn_sched_spread_importance g source rate = (g, 0) := by
  have h : ¬ (rate < 0 ∨ 1 < rate) := by
    rintro (h | h) <;> linarith
  simp only [dtesn_sched_spread_importance, gt_iff_lt, h, if_false]

/-- C17: for every ledger, every source and every diffusion rate that is less than 0 or
greater than 1, `dtesn_sched_spread_importance` returns the negative value -1 and leaves the
ledger unchanged. -/
theorem spread_rejects_rate_out_of_range (g : EcanState) (source : Nat) (rate : ℚ)
    (h : rate < 0 ∨ 1 < rate) :
    (dtesn_sched_spread_importance g source rate).2 = -1 ∧
      (dtesn_sched_spread_importance g source rate).2 < 0 ∧
      (dtesn_sched_spread_importance g source rate).1 = g := by
  rw [spread_out_of_range g source rate h]
  exact ⟨rfl, by norm_num, rfl⟩

/-- C17, at concrete inputs: the rate 3/2 is greater than 1 and is rejected with -1 on the
ledger that holds one entry for handle 1. -/
theorem spread_rejects_rate_out_of_range_witness :
    ((3 / 2 : ℚ) < 0 ∨ 1 < (3 / 2 : ℚ)) ∧
      (dtesn_sched_spread_importance
        (ecanExec [EcanCall.set_av 1 (some ⟨100, 80, 20⟩)]) 1 (3 / 2)).2 = -1 :=
  ⟨Or.inr (by norm_num),
    (spread_rejects_rate_out_of_range
      (ecanExec [EcanCall.set_av 1 (some ⟨100, 80, 20⟩)]) 1 (3 / 2)
      (Or.inr (by norm_num))).1⟩

/-- C18 fails on the code: on the initial ledger the handle 1 has no attention entry, the
rate 1/2 lies in [0,1], and `dtesn_sched_spread_importance(1, 1/2)` returns 0, which is not
a negative error. -/
theorem spread_unknown_source_counterexample :
    ¬ has_av g_ecan 1 ∧ (0 : ℚ) ≤ 1 / 2 ∧ (1 / 2 : ℚ) ≤ 1 ∧
      (dtesn_sched_spread_importance g_ecan 1 (1 / 2)).2 = 0 ∧
      ¬ (dtesn_sched_spread_importance g_ecan 1 (1 / 2)).2 < 0 := by
  have h := spread_in_range g_ecan 1 (1 / 2) (by norm_num) (by norm_num)
  refine ⟨by decide, by norm_num, by norm_num, ?_, ?_⟩
  · rw [h]
  · rw [h]; norm_num

/-- C18, amended: for every diffusion rate in [0,1] `dtesn_sched_spread_importance` returns
0, not an error, and leaves the ledger unchanged, whether or not the source handle has an
attention entry; it returns a negative value exactly when the rate is outside [0,1]. -/
theorem spread_ignores_missing_source (g : EcanState) (source : Nat) (rate : ℚ)
    (h0 : 0 ≤ rate) (h1 : rate ≤ 1) :
    dtesn_sched_spread_importance g source rate = (g, 0) ∧
      ¬ (dtesn_sched_spread_importance g source rate).2 < 0 ∧
      (∀ r : ℚ, (dtesn_sched_spread_importance g source r).2 < 0 ↔ (r < 0 ∨ 1 < r)) := by
  have h := spread_in_range g source rate h0 h1
  refine ⟨h, by rw [h]; norm_num, ?_⟩
  intro r
  by_cases hr : r < 0 ∨ 1 < r
  · rw [spread_out_of_range g source r hr]
    simp [hr]
  · have hr0 : 0 ≤ r := by
      by_contra hc; exact hr (Or.inl (by linarith))
    have hr1 : r ≤ 1 := by
      by_contra hc; exact hr (Or.inr (by linarith))
    rw [spread_in_range g source r hr0 hr1]
    simp [hr]

/-- C18 amended, at concrete inputs: on the initial ledger, where handle 1 has no entry, the
rate 1/2 gives the result 0 and the same ledger. -/
theorem spread_ignores_missing_source_witness :
    ¬ has_av g_ecan 1 ∧ dtesn_sched_spread_importance g_ecan 1 (1 / 2) = (g_ecan, 0) :=
  ⟨by decide,
    (spread_ignores_missing_source g_ecan 1 (1 / 2) (by norm_num) (by norm_num)).1⟩

/-- C19: `dtesn_sched_spread_importance(h, 0)` is a no-op for every source `h` and every
ledger: it returns 0, the ledger after the call is the ledger before it, and so every read
of an attention value gives the same result as before. -/
theorem spread_rate_zero_noop (g : EcanState) (h : Nat) :
    (dtesn_sched_spread_importance g h 0).2 = 0 ∧
      (dtesn_sched_spread_importance g h 0).1 = g ∧
      (∀ (atom : Nat) (out : Option attention_value),
        dtesn_sched_get_av (dtesn_sched_spread_importance g h 0).1 atom out =
          dtesn_sched_get_av g atom out) := by
  rw [spread_in_range g h 0 (le_refl 0) (by norm_num)]
  exact ⟨rfl, rfl, fun _ _ => rfl⟩

/-- C20 fails on the code. AtomSpace: `cat` (1), `mammal` (2) and the inheritance link
`[1, 2]` (3), so the only neighbour of `cat` is the link atom 3. Ledger: `cat` has
`sti = 100` and the link atom has `sti = 10`. The source has an entry and exactly one
neighbour with an entry, and yet `dtesn_sched_spread_importance(cat, 1/5)` returns 0, not 1,
and both values read back as before: the source keeps 100 instead of 80 and the neighbour
keeps 10 instead of gaining 20. -/
theorem spread_one_neighbour_counterexample :
    neighbors
        (exec [Call.atom_alloc atom_type.ATOM_CONCEPT (some "cat"),
          Call.atom_alloc atom_type.ATOM_CONCEPT (some "mammal"),
          Call.link_create atom_type.ATOM_INHERITANCE [1, 2]]).1 1 = [3] ∧
      has_av (ecanExec [EcanCall.set_av 1 (some ⟨100, 0, 0⟩),
        EcanCall.set_av 3 (some ⟨10, 0, 0⟩)]) 1 ∧
      (neighbors
        (exec [Call.atom_alloc atom_type.ATOM_CONCEPT (some "cat"),
          Call.atom_alloc atom_type.ATOM_CONCEPT (some "mammal"),
          Call.link_create atom_type.ATOM_INHERITANCE [1, 2]]).1 1).filter
        (fun n => decide (has_av (ecanExec [EcanCall.set_av 1 (some ⟨100, 0, 0⟩),
          EcanCall.set_av 3 (some ⟨10, 0, 0⟩)]) n)) = [3] ∧
      (dtesn_sched_spread_importance
        (ecanExec [EcanCall.set_av 1 (some ⟨100, 0, 0⟩),
          EcanCall.set_av 3 (some ⟨10, 0, 0⟩)]) 1 (1 / 5)).2 = 0 ∧
      (dtesn_sched_spread_importance
        (ecanExec [EcanCall.set_av 1 (some ⟨100, 0, 0⟩),
          EcanCall.set_av 3 (some ⟨10, 0, 0⟩)]) 1 (1 / 5)).2 ≠ 1 ∧
      dtesn_sched_get_av
        (dtesn_sched_spread_importance
          (ecanExec [EcanCall.set_av 1 (some ⟨100, 0, 0⟩),
            EcanCall.set_av 3 (some ⟨10, 0, 0⟩)]) 1 (1 / 5)).1 1 (some ⟨0, 0, 0⟩) =
        (0, some ⟨100, 0, 0⟩) ∧
      dtesn_sched_get_av
        (dtesn_sched_spread_importance
          (ecanExec [EcanCall.set_av 1 (some ⟨100, 0, 0⟩),
            EcanCall.set_av 3 (some ⟨10, 0, 0⟩)]) 1 (1 / 5)).1 3 (some ⟨0, 0, 0⟩) =
        (0, some ⟨10, 0, 0⟩) := by
  have h := spread_in_range
    (ecanExec [EcanCall.set_av 1 (some ⟨100, 0, 0⟩), EcanCall.set_av 3 (some ⟨10, 0, 0⟩)])
    1 (1 / 5) (by norm_num) (by norm_num)
  rw [h]
  refine ⟨by decide, by decide, by decide, rfl, by decide, by decide, by decide⟩

/-- C20, amended: `dtesn_sched_spread_importance` moves no importance. For every ledger,
source `h` and rate `r` in [0,1], also when `h` has an attention entry and exactly one
neighbour with an attention entry, it returns 0, the entry table and the entry count are
unchanged, and every attention value reads back as before the call: `h.sti` is not debited
and no neighbour is credited (with `sti = 100` and `r = 1/5` the source keeps 100). -/
theorem spread_moves_nothing (g : EcanState) (h : Nat) (r : ℚ) (h0 : 0 ≤ r) (h1 : r ≤ 1) :
    (dtesn_sched_spread_importance g h r).2 = 0 ∧
      (dtesn_sched_spread_importance g h r).1.avs = g.avs ∧
      (dtesn_sched_spread_importance g h r).1.av_count = g.av_count ∧
      (∀ (atom : Nat) (out : Option attention_value),
        dtesn_sched_get_av (dtesn_sched_spread_importance g h r).1 atom out =
          dtesn_sched_get_av g atom out) := by
  rw [spread_in_range g h r h0 h1]
  exact ⟨rfl, rfl, rfl, fun _ _ => rfl⟩

/-- C20 amended, at a concrete ledger: `cat` (handle 1) holds `sti = 100`, the rate is 1/5,
the call returns 0 and `cat` still reads (100, 0, 0). -/
theorem spread_moves_nothing_witness :
    (dtesn_sched_spread_importance
        (ecanExec [EcanCall.set_av 1 (some ⟨100, 0, 0⟩),
          EcanCall.set_av 3 (some ⟨10, 0, 0⟩)]) 1 (1 / 5)).2 = 0 ∧
      dtesn_sched_get_av
        (dtesn_sched_spread_importance
          (ecanExec [EcanCall.set_av 1 (some ⟨100, 0, 0⟩),
            EcanCall.set_av 3 (some ⟨10, 0, 0⟩)]) 1 (1 / 5)).1 1 (some ⟨0, 0, 0⟩) =
        (0, some ⟨100, 0, 0⟩) :=
  ⟨(spread_moves_nothing
      (ecanExec [EcanCall.set_av 1 (some ⟨100, 0, 0⟩), EcanCall.set_av 3 (some ⟨10, 0, 0⟩)])
      1 (1 / 5) (by norm_num) (by norm_num)).1,
    ((spread_moves_nothing
      (ecanExec [EcanCall.set_av 1 (some ⟨100, 0, 0⟩), EcanCall.set_av 3 (some ⟨10, 0, 0⟩)])
      1 (1 / 5) (by norm_num) (by norm_num)).2.2.2 1 (some ⟨0, 0, 0⟩)).trans (by decide)⟩

/-! ## Cognitive loop: bootstrap stages -/

theorem boot_stage_result (s : System) (stage : boot_stage) :
    ((cogloop_boot_stage s stage).2 = 0 ↔
        (stage = boot_stage.STAGE0_INIT → s.kernel.initialized = 0) ∧
          (stage = boot_stage.STAGE2_SCHEDULER → s.ecan.initialized = 0)) ∧
      ((cogloop_boot_stage s stage).2 ≠ 0 → cogloop_boot_stage s stage = (s, -1)) := by
  cases stage with
  | STAGE0_INIT =>
    by_cases hk : s.kernel.initialized = 0
    · simp [cogloop_boot_stage, boot_stage_switch, cogkern_init, hk]
    · simp [cogloop_boot_stage, boot_stage_switch, cogkern_init, hk]
  | STAGE1_HYPERGRAPH =>
    simp [cogloop_boot_stage, boot_stage_switch, stage1_init_hypergraph_fs]
  | STAGE2_SCHEDULER =>
    by_cases he : s.ecan.initialized = 0
    · simp [cogloop_boot_stage, boot_stage_switch, dtesn_sched_init, he,
        dtesn_mem_init_regions]
    · simp [cogloop_boot_stage, boot_stage_switch, dtesn_sched_init, he]
  | STAGE3_COGNITIVE =>
    simp [cogloop_boot_stage, boot_stage_switch]

/-- C21 fails on the code: on the system before any call, where no stage has run,
`cogloop_boot_stage(STAGE2_SCHEDULER)` returns 0 and changes the state: the scheduler is
initialised, 16 regions are recorded and the current stage becomes stage 2. The same holds
for stage 1 and stage 3 called first. -/
theorem boot_stage_order_counterexample :
    (cogloop_boot_stage g_system boot_stage.STAGE2_SCHEDULER).2 = 0 ∧
      g_system.ecan.initialized = 0 ∧
      (cogloop_boot_stage g_system boot_stage.STAGE2_SCHEDULER).1.ecan.initialized = 1 ∧
      (cogloop_boot_stage g_system boot_stage.STAGE2_SCHEDULER).1.loop.num_regions = 16 ∧
      (cogloop_boot_stage g_system boot_stage.STAGE2_SCHEDULER).1.loop.current_stage =
        boot_stage.STAGE2_SCHEDULER ∧
      (cogloop_boot_stage g_system boot_stage.STAGE3_COGNITIVE).2 = 0 := by
  refine ⟨by decide, by decide, by decide, by decide, by decide, by decide⟩

/-- C21, amended: `cogloop_boot_stage` checks no order. Its result does not depend on the
stage recorded as current; stages 1 and 3 return 0 in every state, stage 0 returns 0 exactly
when the kernel is not yet initialised and stage 2 exactly when the scheduler is not yet
initialised; and a call that does not return 0 returns -1 and changes no state. -/
theorem boot_stage_unordered (s : System) (stage : boot_stage) :
    (∀ cur : boot_stage,
        (cogloop_boot_stage { s with loop := { s.loop with current_stage := cur } } stage).2 =
          (cogloop_boot_stage s stage).2) ∧
      ((cogloop_boot_stage s stage).2 = 0 ↔
        (stage = boot_stage.STAGE0_INIT → s.kernel.initialized = 0) ∧
          (stage = boot_stage.STAGE2_SCHEDULER → s.ecan.initialized = 0)) ∧
      ((cogloop_boot_stage s stage).2 ≠ 0 → cogloop_boot_stage s stage = (s, -1)) := by
  refine ⟨?_, (boot_stage_result s stage).1, (boot_stage_result s stage).2⟩
  intro cur
  cases stage with
  | STAGE0_INIT =>
    by_cases hk : s.kernel.initialized = 0
    · simp [cogloop_boot_stage, boot_stage_switch, cogkern_init, hk]
    · simp [cogloop_boot_stage, boot_stage_switch, cogkern_init, hk]
  | STAGE1_HYPERGRAPH =>
    simp [cogloop_boot_stage, boot_stage_switch, stage1_init_hypergraph_fs]
  | STAGE2_SCHEDULER =>
    by_cases he : s.ecan.initialized = 0
    · simp [cogloop_boot_stage, boot_stage_switch, dtesn_sched_init, he,
        dtesn_mem_init_regions]
    · simp [cogloop_boot_stage, boot_stage_switch, dtesn_sched_init, he]
  | STAGE3_COGNITIVE =>
    simp [cogloop_boot_stage, boot_stage_switch]

/-- C22 fails on the code: on the system before any call `cogloop_boot_stage(STAGE0_INIT)`
returns 0, and the same call made again returns -1, because `cogkern_init` refuses an
initialised kernel. Stage 2 made twice behaves the same way. -/
theorem boot_stage_twice_counterexample :
    (cogloop_boot_stage g_system boot_stage.STAGE0_INIT).2 = 0 ∧
      (cogloop_boot_stage (cogloop_boot_stage g_system boot_stage.STAGE0_INIT).1
        boot_stage.STAGE0_INIT).2 = -1 ∧
      (cogloop_boot_stage g_system boot_stage.STAGE2_SCHEDULER).2 = 0 ∧
      (cogloop_boot_stage (cogloop_boot_stage g_system boot_stage.STAGE2_SCHEDULER).1
        boot_stage.STAGE2_SCHEDULER).2 = -1 := by
  refine ⟨by decide, by decide, by decide, by decide⟩

/-- C22, amended: re-invoking a stage right after it returned success leaves the kernel,
scheduler and loop state as they were, for every stage; the second call returns 0 for
stages 1 and 3 and returns -1 for stages 0 and 2. -/
theorem boot_stage_twice (s : System) (stage : boot_stage)
    (h : (cogloop_boot_stage s stage).2 = 0) :
    (cogloop_boot_stage (cogloop_boot_stage s stage).1 stage).1 =
        (cogloop_boot_stage s stage).1 ∧
      ((stage = boot_stage.STAGE1_HYPERGRAPH ∨ stage = boot_stage.STAGE3_COGNITIVE) →
        (cogloop_boot_stage (cogloop_boot_stage s stage).1 stage).2 = 0) ∧
      ((stage = boot_stage.STAGE0_INIT ∨ stage = boot_stage.STAGE2_SCHEDULER) →
        (cogloop_boot_stage (cogloop_boot_stage s stage).1 stage).2 = -1) := by
  cases stage with
  | STAGE0_INIT =>
    have hk : s.kernel.initialized = 0 := ((boot_stage_result s _).1.mp h).1 rfl
    simp [cogloop_boot_stage, boot_stage_switch, cogkern_init, hk]
  | STAGE1_HYPERGRAPH =>
    simp [cogloop_boot_stage, boot_stage_switch, stage1_init_hypergraph_fs]
  | STAGE2_SCHEDULER =>
    have he : s.ecan.initialized = 0 := ((boot_stage_result s _).1.mp h).2 rfl
    simp [cogloop_boot_stage, boot_stage_switch, dtesn_sched_init, he,
      dtesn_mem_init_regions]
  | STAGE3_COGNITIVE =>
    simp [cogloop_boot_stage, boot_stage_switch]

/-- C22 amended, at a concrete state: stage 3 on the system before any call returns 0, and
made again it returns 0 and gives the same state. -/
theorem boot_stage_twice_witness :
    (cogloop_boot_stage g_system boot_stage.STAGE3_COGNITIVE).2 = 0 ∧
      (cogloop_boot_stage (cogloop_boot_stage g_system boot_stage.STAGE3_COGNITIVE).1
        boot_stage.STAGE3_COGNITIVE).2 = 0 :=
  ⟨by decide,
    (boot_stage_twice g_system boot_stage.STAGE3_COGNITIVE (by decide)).2.1 (Or.inr rfl)⟩

/-! ## Cognitive loop: memory regions, start and stop -/

/-- C23: `dtesn_mem_init_regions(n)` returns 0 and records `n` as the region count if and
only if `1 <= n <= 256`, leaving the other loop fields alone; for `n = 0` or `n > 256` it
returns the negative value -1 and leaves the recorded region count, with the whole loop
state, unchanged. -/
theorem mem_init_regions_range (l : LoopState) (n : Nat) :
    (((dtesn_mem_init_regions l n).2 = 0 ∧ (dtesn_mem_init_regions l n).1.num_regions = n) ↔
        (1 ≤ n ∧ n ≤ 256)) ∧
      ((1 ≤ n ∧ n ≤ 256) →
        dtesn_mem_init_regions l n = ({ l with num_regions := n }, 0)) ∧
      ((n = 0 ∨ n > 256) →
        (dtesn_mem_init_regions l n).2 = -1 ∧ (dtesn_mem_init_regions l n).2 < 0 ∧
          (dtesn_mem_init_regions l n).1 = l) := by
  by_cases h : n = 0 ∨ n > 256
  · have hr : dtesn_mem_init_regions l n = (l, -1) := by
      simp only [dtesn_mem_init_regions, h, if_true]
    rw [hr]
    refine ⟨⟨fun hh => ?_, fun hh => ?_⟩, fun hh => ?_, fun _ => ⟨rfl, by norm_num, rfl⟩⟩
    · simp at hh
    · omega
    · omega
  · have hr : dtesn_mem_init_regions l n = ({ l with num_regions := n }, 0) := by
      simp only [dtesn_mem_init_regions, h, if_false]
    rw [hr]
    refine ⟨⟨fun _ => by omega, fun _ => ⟨rfl, rfl⟩⟩, fun _ => rfl, fun hh => absurd hh h⟩

/-- C24: `cogloop_start(hz)` returns a negative value, -1, if and only if the loop is
already running, for every `hz` including 0; when it fails the loop state, so the recorded
frequency and the running flag, is unchanged; when it succeeds it returns 0, the loop is
running with frequency `hz`, and the other loop fields are unchanged. -/
theorem cogloop_start_iff (l : LoopState) (hz : Nat) :
    ((cogloop_start l hz).2 < 0 ↔ l.running ≠ 0) ∧
      (l.running ≠ 0 → cogloop_start l hz = (l, -1)) ∧
      (l.running = 0 →
        cogloop_start l hz = ({ l with frequency_hz := hz, running := 1 }, 0)) ∧
      (cogloop_start g_cogloop 0).2 = 0 := by
  by_cases h : l.running = 0
  · have hr : cogloop_start l hz = ({ l with frequency_hz := hz, running := 1 }, 0) := by
      simp [cogloop_start, h]
    rw [hr]
    exact ⟨⟨fun hh => by simp at hh, fun hh => absurd h hh⟩, fun hh => absurd h hh,
      fun _ => rfl, by decide⟩
  · have hr : cogloop_start l hz = (l, -1) := by
      simp [cogloop_start, h]
    rw [hr]
    exact ⟨⟨fun _ => h, fun _ => by norm_num⟩, fun _ => rfl, fun hh => absurd hh h,
      by decide⟩

/-- C25: `cogloop_stop` is idempotent and safe in every state. From any loop state it leaves
the loop not running and every other loop field unchanged; calling it twice gives the same
state as calling it once; and a `cogloop_start` after it returns 0 for every `hz`. -/
theorem cogloop_stop_idempotent (l : LoopState) (hz : Nat) :
    (cogloop_stop l).running = 0 ∧
      (cogloop_stop l).current_stage = l.current_stage ∧
      (cogloop_stop l).frequency_hz = l.frequency_hz ∧
      (cogloop_stop l).iteration_count = l.iteration_count ∧
      (cogloop_stop l).num_regions = l.num_regions ∧
      cogloop_stop (cogloop_stop l) = cogloop_stop l ∧
      (cogloop_start (cogloop_stop l) hz).2 = 0 ∧
      (cogloop_start (cogloop_stop l) hz).1.running = 1 := by
  refine ⟨rfl, rfl, rfl, rfl, rfl, rfl, ?_, ?_⟩
  · simp [cogloop_start, cogloop_stop]
  · simp [cogloop_start, cogloop_stop]

/-! ## ECAN: `dtesn_sched_init` -/

/-- C27: on an uninitialised scheduler `dtesn_sched_init` returns 0, records the tick
interval, sets `tick_count` and `av_count` to 0 and marks the scheduler initialised; the
ledger is then empty, so for every handle `dtesn_sched_get_av` returns -1 and writes
nothing, whatever was set before. On an initialised scheduler it returns -1 and changes
nothing. -/
theorem sched_init_resets (g : EcanState) (us : Nat) :
    (g.initialized = 0 →
        (dtesn_sched_init g us).2 = 0 ∧
        (dtesn_sched_init g us).1.tick_interval_us = us ∧
        (dtesn_sched_init g us).1.tick_count = 0 ∧
        (dtesn_sched_init g us).1.av_count = 0 ∧
        (dtesn_sched_init g us).1.initialized = 1 ∧
        (∀ atom, ¬ has_av (dtesn_sched_init g us).1 atom) ∧
        (∀ (atom : Nat) (out : attention_value),
          dtesn_sched_get_av (dtesn_sched_init g us).1 atom (some out) = (-1, some out))) ∧
      (g.initialized ≠ 0 →
        (dtesn_sched_init g us).2 = -1 ∧ (dtesn_sched_init g us).2 < 0 ∧
          (dtesn_sched_init g us).1 = g) := by
  constructor
  · intro h
    have hr : dtesn_sched_init g us =
        ({ g with tick_interval_us := us, tick_count := 0, av_count := 0, initialized := 1 },
          0) := by
      simp [dtesn_sched_init, h]
    rw [hr]
    have hno : ∀ atom, ¬ has_av
        { g with tick_interval_us := us, tick_count := 0, av_count := 0, initialized := 1 }
        atom := by
      rintro atom ⟨i, hi, _⟩
      exact absurd hi (Nat.not_lt_zero i)
    refine ⟨rfl, rfl, rfl, rfl, rfl, hno, ?_⟩
    intro atom out
    have hf := (av_find_none_iff _ atom).mpr (hno atom)
    simp only [dtesn_sched_get_av, hf]
  · intro h
    have hr : dtesn_sched_init g us = (g, -1) := by
      simp [dtesn_sched_init, h]
    rw [hr]
    exact ⟨rfl, by norm_num, rfl⟩

/-- C27, at concrete ledgers: handle 1 is given (100, 80, 20) on the uninitialised
scheduler and reads back; after `dtesn_sched_init(5)`, which returns 0, the read of handle 1
returns -1; a second `dtesn_sched_init` returns -1. -/
theorem sched_init_resets_witness :
    dtesn_sched_get_av (ecanExec [EcanCall.set_av 1 (some ⟨100, 80, 20⟩)]) 1
        (some ⟨0, 0, 0⟩) = (0, some ⟨100, 80, 20⟩) ∧
      (dtesn_sched_init (ecanExec [EcanCall.set_av 1 (some ⟨100, 80, 20⟩)]) 5).2 = 0 ∧
      dtesn_sched_get_av
        (dtesn_sched_init (ecanExec [EcanCall.set_av 1 (some ⟨100, 80, 20⟩)]) 5).1 1
        (some ⟨0, 0, 0⟩) = (-1, some ⟨0, 0, 0⟩) ∧
      (dtesn_sched_init
        (dtesn_sched_init (ecanExec [EcanCall.set_av 1 (some ⟨100, 80, 20⟩)]) 5).1 7).2 =
        -1 :=
  ⟨by decide,
    ((sched_init_resets (ecanExec [EcanCall.set_av 1 (some ⟨100, 80, 20⟩)]) 5).1
      (by decide)).1,
    ((sched_init_resets (ecanExec [EcanCall.set_av 1 (some ⟨100, 80, 20⟩)]) 5).1
      (by decide)).2.2.2.2.2.2 1 ⟨0, 0, 0⟩,
    by decide⟩

/-! ## PLN: truth values of inference links -/

theorem tv_search_first (tvs : Nat → tv_entry) (atom : Nat) (n : Nat) :
    ∀ i k, i ≤ k → k < i + n → tv_match (tvs k) atom = true →
      (∀ j, i ≤ j → j < k → tv_match (tvs j) atom = false) →
      tv_search tvs atom n i = some k := by
  induction n with
  | zero => intro i k h1 h2; omega
  | succ n ih =>
    intro i k h1 h2 hm hbefore
    simp only [tv_search]
    by_cases hik : i = k
    · subst hik; rw [if_pos hm]
    · have hne : ¬ tv_match (tvs i) atom = true := by
        rw [hbefore i (Nat.le_refl _) (by omega)]; simp
      rw [if_neg hne]
      exact ih (i + 1) k (by omega) (by omega) hm (fun j hj1 hj2 => hbefore j (by omega) hj2)

theorem call_run_inv (g : AtomSpace) (c : Call) (hinv : AtomInv g) :
    AtomInv (c.run g).1 ∧ g.next_handle ≤ (c.run g).1.next_handle := by
  have hmono : ∀ g1 : AtomSpace, AtomInv g1 → g.atom_count ≤ g1.atom_count →
      g.next_handle ≤ g1.next_handle := by
    intro g1 h1 hle
    rw [hinv.next_eq, h1.next_eq]
    exact hle
  cases c with
  | atom_alloc ty name =>
    have hi := cog_atom_alloc_inv g ty name hinv
    refine ⟨hi, hmono _ hi ?_⟩
    simp only [Call.run]
    by_cases hroom : g.atom_count < MAX_ATOMS
    · rw [cog_atom_alloc_room g ty name hinv hroom]
      exact Nat.le_succ _
    · rw [cog_atom_alloc_full g ty name (by omega)]
  | link_create ty out =>
    have hi := cog_link_create_inv g ty out hinv
    refine ⟨hi, hmono _ hi ?_⟩
    simp only [Call.run]
    by_cases hroom : g.atom_count < MAX_ATOMS
    · rw [(cog_link_create_counts g ty out hinv hroom).2.1]
      exact Nat.le_succ _
    · rw [cog_link_create_full g ty out (by omega)]
  | edge f t ty =>
    have hi := hgfs_edge_inv g f t ty hinv
    refine ⟨hi, hmono _ hi ?_⟩
    simp only [Call.run]
    rw [(hgfs_edge_atoms g f t ty).2.2]

theorem link_infer_room (a : AtomSpace) (p : PlnState) (premise conclusion : Nat)
    (v : truth_value) (hinv : AtomInv a) (hp : premise ≠ 0) (hc : conclusion ≠ 0)
    (hatoms : a.atom_count < MAX_ATOMS) (htvs : p.tv_count < MAX_TVS) :
    cog_link_infer a p premise conclusion (some v) =
      (((cog_link_create a atom_type.ATOM_EVALUATION [premise, conclusion]).1,
          { p with
            tv_count := p.tv_count + 1
            tvs := Function.update p.tvs p.tv_count ⟨a.atom_count + 1, v, 1⟩ }),
        a.atom_count + 1) := by
  have hl := (cog_link_create_counts a atom_type.ATOM_EVALUATION [premise, conclusion]
    hinv hatoms).1
  simp only [cog_link_infer, hp, hc, or_self, if_false, hl, ne_eq, Nat.succ_ne_zero,
    not_false_eq_true, htvs, and_self, if_true]

theorem link_infer_inv (st : AtomSpace × PlnState) (premise conclusion : Nat)
    (tv : Option truth_value) (hinv : PlnInv st) :
    PlnInv (cog_link_infer st.1 st.2 premise conclusion tv).1 := by
  obtain ⟨a, p⟩ := st
  have ha : AtomInv a := hinv.inv
  have hiss : ∀ i, i < p.tv_count → (p.tvs i).atom ≤ a.next_handle := hinv.issued
  cases tv with
  | none => exact hinv
  | some v =>
    by_cases hz : premise = 0 ∨ conclusion = 0
    · simp only [cog_link_infer, hz, if_true]
      exact hinv
    · have hl := call_run_inv a
        (Call.link_create atom_type.ATOM_EVALUATION [premise, conclusion]) ha
      simp only [Call.run] at hl
      simp only [cog_link_infer, hz, if_false]
      split
      · rename_i hcond
        refine ⟨hl.1, ?_⟩
        intro i hi
        simp only at hi ⊢
        by_cases hic : i = p.tv_count
        · rw [hic, Function.update_same]
          simp only
          by_cases hroom : a.atom_count < MAX_ATOMS
          · have hcnt := cog_link_create_counts a atom_type.ATOM_EVALUATION
              [premise, conclusion] ha hroom
            rw [hcnt.1, hl.1.next_eq, hcnt.2.1]
          · rw [cog_link_create_full a _ _ (by omega)] at hcond
            exact absurd rfl hcond.1
        · rw [Function.update_noteq hic]
          exact Nat.le_trans (hiss i (by omega)) hl.2
      · refine ⟨hl.1, ?_⟩
        intro i hi
        exact Nat.le_trans (hiss i hi) hl.2

theorem plnCall_inv (st : AtomSpace × PlnState) (c : PlnCall) (hinv : PlnInv st) :
    PlnInv (c.run st) := by
  cases c with
  | atomspace c =>
    have hl := call_run_inv st.1 c hinv.inv
    exact ⟨hl.1, fun i hi => Nat.le_trans (hinv.issued i hi) hl.2⟩
  | link_infer premise conclusion tv => exact link_infer_inv st premise conclusion tv hinv

theorem plnExecFrom_inv (calls : List PlnCall) :
    ∀ st : AtomSpace × PlnState, PlnInv st → PlnInv (plnExecFrom st calls) := by
  induction calls with
  | nil => intro st h; exact h
  | cons c cs ih => intro st h; exact ih _ (plnCall_inv st c h)

theorem plnExec_inv (calls : List PlnCall) : PlnInv (plnExec calls) := by
  apply plnExecFrom_inv
  refine ⟨⟨rfl, Nat.zero_le _, Nat.zero_le _, ?_⟩, ?_⟩
  · intro i hi; exact absurd hi (Nat.not_lt_zero i)
  · intro i hi; exact absurd hi (Nat.not_lt_zero i)

/-- C26: truth-value round trip. In every state reached by AtomSpace calls and
`cog_link_infer` calls, for non-zero premise and conclusion handles and every truth value
`tv`, if the atom table and the truth-value table both have room then `cog_link_infer`
returns a non-zero link handle `L` that is greater than the handle of every stored atom and
of every stored truth value, and a `pln_infer(L)` made right after it returns 0 and yields
exactly `tv`. -/
theorem link_infer_round_trip (calls : List PlnCall) (premise conclusion : Nat)
    (tv out : truth_value) (hp : premise ≠ 0) (hc : conclusion ≠ 0)
    (hatoms : (plnExec calls).1.atom_count < MAX_ATOMS)
    (htvs : (plnExec calls).2.tv_count < MAX_TVS) :
    (cog_link_infer (plnExec calls).1 (plnExec calls).2 premise conclusion (some tv)).2 ≠ 0 ∧
      (∀ i, i < (plnExec calls).1.atom_count →
        ((plnExec calls).1.atoms i).handle <
          (cog_link_infer (plnExec calls).1 (plnExec calls).2 premise conclusion
            (some tv)).2) ∧
      (∀ i, i < (plnExec calls).2.tv_count →
        ((plnExec calls).2.tvs i).atom <
          (cog_link_infer (plnExec calls).1 (plnExec calls).2 premise conclusion
            (some tv)).2) ∧
      pln_infer
        (cog_link_infer (plnExec calls).1 (plnExec calls).2 premise conclusion
          (some tv)).1.2
        (cog_link_infer (plnExec calls).1 (plnExec calls).2 premise conclusion (some tv)).2
        (some out) = (0, some tv) := by
  have hinv := plnExec_inv calls
  generalize plnExec calls = st at *
  obtain ⟨a, p⟩ := st
  simp only at hatoms htvs ⊢
  have ha : AtomInv a := hinv.inv
  have hiss : ∀ i, i < p.tv_count → (p.tvs i).atom ≤ a.next_handle := hinv.issued
  rw [link_infer_room a p premise conclusion tv ha hp hc hatoms htvs]
  simp only
  have hold : ∀ i, i < p.tv_count → (p.tvs i).atom < a.atom_count + 1 := by
    intro i hi
    have h1 := hiss i hi
    have h2 := ha.next_eq
    omega
  refine ⟨Nat.succ_ne_zero _, ?_, hold, ?_⟩
  · intro i hi
    rw [ha.slot i hi]
    omega
  · have hfind : tv_search
        (Function.update p.tvs p.tv_count ⟨a.atom_count + 1, tv, 1⟩) (a.atom_count + 1)
        (p.tv_count + 1) 0 = some p.tv_count := by
      apply tv_search_first _ _ _ 0 p.tv_count (Nat.zero_le _) (by omega)
      · simp [tv_match]
      · intro j _ hj
        rw [Function.update_noteq (Nat.ne_of_lt hj)]
        have := hold j hj
        simp only [tv_match, Bool.and_eq_false_imp, decide_eq_true_eq, decide_eq_false_iff_not]
        intro _
        omega
    simp only [pln_infer, hfind, Function.update_same]

/-- C26, at a concrete run: after `cat` (1), `mammal` (2) and a first inference link (3) with
truth value (7/10, 3/5), `cog_link_infer(1, 2, (9/10, 4/5))` returns 4 and `pln_infer(4)`
yields (9/10, 4/5). -/
theorem link_infer_round_trip_witness :
    (cog_link_infer
        (plnExec [PlnCall.atomspace (Call.atom_alloc atom_type.ATOM_CONCEPT (some "cat")),
          PlnCall.atomspace (Call.atom_alloc atom_type.ATOM_CONCEPT (some "mammal")),
          PlnCall.link_infer 1 2 (some ⟨7 / 10, 3 / 5⟩)]).1
        (plnExec [PlnCall.atomspace (Call.atom_alloc atom_type.ATOM_CONCEPT (some "cat")),
          PlnCall.atomspace (Call.atom_alloc atom_type.ATOM_CONCEPT (some "mammal")),
          PlnCall.link_infer 1 2 (some ⟨7 / 10, 3 / 5⟩)]).2
        1 2 (some ⟨9 / 10, 4 / 5⟩)).2 = 4 ∧
      pln_infer
        (cog_link_infer
          (plnExec [PlnCall.atomspace (Call.atom_alloc atom_type.ATOM_CONCEPT (some "cat")),
            PlnCall.atomspace (Call.atom_alloc atom_type.ATOM_CONCEPT (some "mammal")),
            PlnCall.link_infer 1 2 (some ⟨7 / 10, 3 / 5⟩)]).1
          (plnExec [PlnCall.atomspace (Call.atom_alloc atom_type.ATOM_CONCEPT (some "cat")),
            PlnCall.atomspace (Call.atom_alloc atom_type.ATOM_CONCEPT (some "mammal")),
            PlnCall.link_infer 1 2 (some ⟨7 / 10, 3 / 5⟩)]).2
          1 2 (some ⟨9 / 10, 4 / 5⟩)).1.2
        (cog_link_infer
          (plnExec [PlnCall.atomspace (Call.atom_alloc atom_type.ATOM_CONCEPT (some "cat")),
            PlnCall.atomspace (Call.atom_alloc atom_type.ATOM_CONCEPT (some "mammal")),
            PlnCall.link_infer 1 2 (some ⟨7 / 10, 3 / 5⟩)]).1
          (plnExec [PlnCall.atomspace (Call.atom_alloc atom_type.ATOM_CONCEPT (some "cat")),
            PlnCall.atomspace (Call.atom_alloc atom_type.ATOM_CONCEPT (some "mammal")),
            PlnCall.link_infer 1 2 (some ⟨7 / 10, 3 / 5⟩)]).2
          1 2 (some ⟨9 / 10, 4 / 5⟩)).2
        (some ⟨0, 0⟩) = (0, some ⟨9 / 10, 4 / 5⟩) :=
  ⟨by decide,
    (link_infer_round_trip
      [PlnCall.atomspace (Call.atom_alloc atom_type.ATOM_CONCEPT (some "cat")),
        PlnCall.atomspace (Call.atom_alloc atom_type.ATOM_CONCEPT (some "mammal")),
        PlnCall.link_infer 1 2 (some ⟨7 / 10, 3 / 5⟩)]
      1 2 ⟨9 / 10, 4 / 5⟩ ⟨0, 0⟩ (by decide) (by decide) (by decide) (by decide)).2.2.2⟩

/-! ## Command line: the argument count handed to a handler -/

theorem dispatch_argc_siblings (argv : List String) (h : cli_handler) (n : Nat)
    (fake : List (Option String)) (hd : dispatch_command argv = dispatch_result.call h n fake)
    (hne : h ≠ cli_handler.cmd_atom_create) :
    required_argc h ≤ n ↔ required_argc h ≤ argv.length + 1 := by
  unfold dispatch_command at hd
  split at hd
  · exact dispatch_result.noConfusion hd
  · rename_i cmd rest
    by_cases c0 : cmd = "help" ∨ cmd = "?"
    · rw [if_pos c0] at hd
      exact dispatch_result.noConfusion hd
    rw [if_neg c0] at hd
    by_cases c1 : cmd = "version"
    · rw [if_pos c1] at hd
      exact dispatch_result.noConfusion hd
    rw [if_neg c1] at hd
    by_cases c2 : cmd = "exit" ∨ cmd = "quit"
    · rw [if_pos c2] at hd
      exact dispatch_result.noConfusion hd
    rw [if_neg c2] at hd
    by_cases c3 : cmd = "init"
    · rw [if_pos c3] at hd
      injection hd with h1 h2 h3
      subst h1
      subst h2
      simp only [required_argc, List.length_cons, ge_iff_le]
      split <;> omega
    rw [if_neg c3] at hd
    by_cases c4 : cmd = "shutdown"
    · rw [if_pos c4] at hd
      injection hd with h1 h2 h3
      subst h1
      subst h2
      simp only [required_argc, List.length_cons, ge_iff_le]
      omega
    rw [if_neg c4] at hd
    by_cases c5 : cmd = "boot"
    · rw [if_pos c5] at hd
      injection hd with h1 h2 h3
      subst h1
      subst h2
      simp only [required_argc, List.length_cons, ge_iff_le]
      split <;> omega
    rw [if_neg c5] at hd
    by_cases c6 : cmd = "atom" ∧ (cmd :: rest).length ≥ 2 ∧ (cmd :: rest)[1]? = some "create"
    · rw [if_pos c6] at hd
      injection hd with h1 h2 h3
      exact absurd h1.symm hne
    rw [if_neg c6] at hd
    by_cases c7 : cmd = "atom" ∧ (cmd :: rest).length ≥ 2 ∧ (cmd :: rest)[1]? = some "list"
    · rw [if_pos c7] at hd
      injection hd with h1 h2 h3
      subst h1
      subst h2
      simp only [required_argc, List.length_cons, ge_iff_le]
      omega
    rw [if_neg c7] at hd
    by_cases c8 : cmd = "link" ∧ (cmd :: rest).length ≥ 2 ∧ (cmd :: rest)[1]? = some "create"
    · rw [if_pos c8] at hd
      injection hd with h1 h2 h3
      subst h1
      subst h2
      simp only [required_argc, List.length_cons, ge_iff_le]
      split <;> omega
    rw [if_neg c8] at hd
    by_cases c9 : cmd = "attention" ∧ (cmd :: rest).length ≥ 2 ∧ (cmd :: rest)[1]? = some "set"
    · rw [if_pos c9] at hd
      injection hd with h1 h2 h3
      subst h1
      subst h2
      simp only [required_argc, List.length_cons, ge_iff_le]
      split <;> omega
    rw [if_neg c9] at hd
    by_cases c10 : cmd = "attention" ∧ (cmd :: rest).length ≥ 2 ∧ (cmd :: rest)[1]? = some "get"
    · rw [if_pos c10] at hd
      injection hd with h1 h2 h3
      subst h1
      subst h2
      simp only [required_argc, List.length_cons, ge_iff_le]
      split <;> omega
    rw [if_neg c10] at hd
    by_cases c11 : cmd = "attention" ∧ (cmd :: rest).length ≥ 2 ∧ (cmd :: rest)[1]? = some "spread"
    · rw [if_pos c11] at hd
      injection hd with h1 h2 h3
      subst h1
      subst h2
      simp only [required_argc, List.length_cons, ge_iff_le]
      split <;> omega
    rw [if_neg c11] at hd
    by_cases c12 : cmd = "infer"
    · rw [if_pos c12] at hd
      injection hd with h1 h2 h3
      subst h1
      subst h2
      simp only [required_argc, List.length_cons, ge_iff_le]
      split <;> omega
    rw [if_neg c12] at hd
    by_cases c13 : cmd = "loop" ∧ (cmd :: rest).length ≥ 2 ∧ (cmd :: rest)[1]? = some "start"
    · rw [if_pos c13] at hd
      injection hd with h1 h2 h3
      subst h1
      subst h2
      simp only [required_argc, List.length_cons, ge_iff_le]
      split <;> omega
    rw [if_neg c13] at hd
    by_cases c14 : cmd = "loop" ∧ (cmd :: rest).length ≥ 2 ∧ (cmd :: rest)[1]? = some "tick"
    · rw [if_pos c14] at hd
      injection hd with h1 h2 h3
      subst h1
      subst h2
      simp only [required_argc, List.length_cons, ge_iff_le]
      omega
    rw [if_neg c14] at hd
    by_cases c15 : cmd = "loop" ∧ (cmd :: rest).length ≥ 2 ∧ (cmd :: rest)[1]? = some "stop"
    · rw [if_pos c15] at hd
      injection hd with h1 h2 h3
      subst h1
      subst h2
      simp only [required_argc, List.length_cons, ge_iff_le]
      omega
    rw [if_neg c15] at hd
    exact dispatch_result.noConfusion hd

/-- C28 fails on the code for `atom create`. The interactive line `atom create concept`
(three tokens, the name missing) is handed to `cmd_atom_create` with the argument count 5
and a `NULL` name, because `dispatch_command` passes `argc + 2` there; the count reaches the
handler's minimum of 5 although a required argument is missing, so on an initialised CLI the
handler returns 0 and an unnamed atom is created. With two tokens the count is 4 and the
call is rejected; with the name typed the count is 5 as well. The sibling `link create`
passes `argc + 1`: with one handle missing its count 5 stays below its minimum 6. -/
theorem atom_create_missing_name :
    dispatch_command ["atom", "create", "concept"] =
        dispatch_result.call cli_handler.cmd_atom_create 5
          [some "cogpilot-cli", some "atom", some "create", some "concept", none] ∧
      required_argc cli_handler.cmd_atom_create ≤ 5 ∧
      ¬ required_argc cli_handler.cmd_atom_create ≤ ["atom", "create", "concept"].length + 1 ∧
      (cmd_atom_create { cli_state with initialized := 1 } g_atomspace 5
          [some "cogpilot-cli", some "atom", some "create", some "concept", none]).map
        (fun r => (r.2, r.1.1.atom_count, r.1.2.atom_count, r.1.2.atoms 0)) =
        some (0, 1, 1, ⟨1, atom_type.ATOM_CONCEPT, none, none, 0, 1⟩) ∧
      dispatch_command ["atom", "create"] =
        dispatch_result.call cli_handler.cmd_atom_create 4
          [some "cogpilot-cli", some "atom", some "create", none, none] ∧
      dispatch_command ["atom", "create", "concept", "cat"] =
        dispatch_result.call cli_handler.cmd_atom_create 5
          [some "cogpilot-cli", some "atom", some "create", some "concept", some "cat"] ∧
      dispatch_command ["link", "create", "inheritance", "1"] =
        dispatch_result.call cli_handler.cmd_link_create 5
          [some "cogpilot-cli", some "link", some "create", some "inheritance", some "1",
            none] ∧
      ¬ required_argc cli_handler.cmd_link_create ≤ 5 := by
  refine ⟨by decide, by decide, by decide, by decide, by decide, by decide, by decide,
    by decide⟩

end CogPilot
